import Mathlib

/-!
# The junk filter commands of mox (`junk.go`) and its DNSBL monitor

A shallow embedding of the `mox junk` sub-commands (`train`, `check`, `test`,
`analyze`, `play`) and of `junkFlags`, and of `gatherPublicIPs` and
`updateMetrics` of `serve_windows.go`, followed by theorems about them.

Conventions of the embedding:

* Package `junk` (the filter itself), package `message`, the operating system,
  `math/rand` and `sort.Slice` are not part of `junk.go`.  They enter as
  parameters: `Filter`, `OS`, `Rand` and `SortSlice` below.
* A `float64` is the rational number it holds, and comparisons of float64
  values are comparisons of these numbers.  The product in the number of
  training files of `cmdJunkAnalyze` is rounded to float64 (`roundF64`).  The
  quotients of the reports are kept exact, with the special values of a
  division by zero (`F64`).
* Every command begins with `a := junkFlags(c.flag)` and `args := c.Parse()`.
  The definitions named after the commands are the commands from the next
  statement on, for any `a` and `args`; `cmd.parseJunk` is the two statements,
  and the definitions named `run` are the commands from their first statement.
* Go `int` counters only ever count files, they are natural numbers.
* `xcheckf` ends the process when its error is set; a command therefore
  returns `Except Abort`, and `Abort.panic` stands for a run-time panic.
* `fmt.Printf` output is kept as a list of structured lines (`Line`).
* `a.Profile()` and `a.SetLogLevel()` touch neither the filter nor a tally and
  are left out.
-/

namespace Junk

/-! ## Values -/

/-- A float64 result of a division: a number, an infinity or not-a-number. -/
inductive F64 where
  | finite (q : ℚ)
  | posInf
  | negInf
  | nan
  deriving DecidableEq

/-- The Go expression `float64(x) / float64(y)` for ints `x` and `y`: IEEE 754
division, which does not trap on a zero divisor. -/
def fdiv (x y : ℤ) : F64 :=
  if y = 0 then
    if x = 0 then F64.nan else if 0 < x then F64.posInf else F64.negInf
  else F64.finite ((x : ℚ) / (y : ℚ))

/-- Round to the nearest integer, a tie to the even one. -/
def roundHalfEven (m : ℚ) : ℤ :=
  if m - ⌊m⌋ < 1 / 2 then ⌊m⌋
  else if 1 / 2 < m - ⌊m⌋ then ⌊m⌋ + 1
  else if ⌊m⌋ % 2 = 0 then ⌊m⌋ else ⌊m⌋ + 1

/-- The exponent of the last binary place of the float64 values around a
positive `x`: 52 places below the leading bit of `x`, and -1074, the last place
of every subnormal number, where that would be lower. -/
def ulpExp (x : ℚ) : ℤ := max (Int.log 2 x - 52) (-1074)

/-- The float64 value nearest to `x`, as IEEE 754 arithmetic rounds a result:
to 53 significant bits, a tie to the even significand. Overflow is not
modelled: a result of 2^1024 or more stays a number. -/
def roundF64 (x : ℚ) : ℚ :=
  if x = 0 then 0
  else if 0 < x then (roundHalfEven (x / 2 ^ ulpExp x) : ℚ) * 2 ^ ulpExp x
  else -((roundHalfEven (-x / 2 ^ ulpExp (-x)) : ℚ) * 2 ^ ulpExp (-x))

/-- The word set of a message, Go type `map[string]struct{}`. -/
abbrev Words := Finset String

/-- How a command can end early: `xcheckf`/`c.Usage()` exit, or a panic. -/
inductive Abort where
  | fatal (msg : String)
  | usage
  | panic (msg : String)
  deriving DecidableEq

/-- The fields of `junk.Params` that `junkFlags` sets. -/
structure Params where
  Onegrams : Bool
  Twograms : Bool
  Threegrams : Bool
  MaxPower : ℚ
  IgnoreWords : ℚ
  TopWords : ℤ
  RareWords : ℤ
  deriving DecidableEq

/-- Go struct `junkArgs`. -/
structure junkArgs where
  params : Params
  cpuprofile : String
  memprofile : String
  spamThreshold : ℚ
  trainRatio : ℚ
  seed : Bool
  sentDir : String
  databasePath : String
  bloomfilterPath : String
  debug : Bool
  deriving DecidableEq

/-! ## `junkFlags` -/

/-- The value a registered flag holds. -/
inductive FlagValue where
  | bool (b : Bool)
  | float64 (q : ℚ)
  | int (n : ℤ)
  | string (s : String)
  deriving DecidableEq

/-- One flag of a `flag.FlagSet`: its name, default value and usage text. -/
structure Flag where
  name : String
  defValue : FlagValue
  usage : String
  deriving DecidableEq

/-- A `flag.FlagSet`, as the list of flags registered so far. -/
abbrev FlagSet := List Flag

/-- The zero value of `junkArgs`, the initial value of the named result `a`. -/
def junkArgs.zero : junkArgs :=
  { params := { Onegrams := false, Twograms := false, Threegrams := false,
                MaxPower := 0, IgnoreWords := 0, TopWords := 0, RareWords := 0 },
    cpuprofile := "", memprofile := "", spamThreshold := 0, trainRatio := 0,
    seed := false, sentDir := "", databasePath := "", bloomfilterPath := "",
    debug := false }

/-- Go `fs.BoolVar(p, name, value, usage)`: stores `value` through `p` and
registers the flag. `set` plays the pointer `p`. -/
def BoolVar (set : junkArgs → Bool → junkArgs) (name : String) (value : Bool)
    (usage : String) (s : junkArgs × FlagSet) : junkArgs × FlagSet :=
  (set s.1 value, s.2 ++ [⟨name, FlagValue.bool value, usage⟩])

/-- Go `fs.Float64Var(p, name, value, usage)`. -/
def Float64Var (set : junkArgs → ℚ → junkArgs) (name : String) (value : ℚ)
    (usage : String) (s : junkArgs × FlagSet) : junkArgs × FlagSet :=
  (set s.1 value, s.2 ++ [⟨name, FlagValue.float64 value, usage⟩])

/-- Go `fs.IntVar(p, name, value, usage)`. -/
def IntVar (set : junkArgs → ℤ → junkArgs) (name : String) (value : ℤ)
    (usage : String) (s : junkArgs × FlagSet) : junkArgs × FlagSet :=
  (set s.1 value, s.2 ++ [⟨name, FlagValue.int value, usage⟩])

/-- Go `fs.StringVar(p, name, value, usage)`. -/
def StringVar (set : junkArgs → String → junkArgs) (name : String) (value : String)
    (usage : String) (s : junkArgs × FlagSet) : junkArgs × FlagSet :=
  (set s.1 value, s.2 ++ [⟨name, FlagValue.string value, usage⟩])

/-- Go `junkFlags(fs)`: registers the options of the junk commands on `fs` and
returns the `junkArgs` value `a` as it stands when `junkFlags` returns, that
is before any command line is parsed. The second component is `fs` afterwards. -/
def junkFlags (fs : FlagSet) : junkArgs × FlagSet :=
  (junkArgs.zero, fs)
  |> BoolVar (fun a v => { a with params := { a.params with Onegrams := v } })
      "one-grams" false "use 1-grams, i.e. single words, for scoring"
  |> BoolVar (fun a v => { a with params := { a.params with Twograms := v } })
      "two-grams" true "use 2-grams, i.e. word pairs, for scoring"
  |> BoolVar (fun a v => { a with params := { a.params with Threegrams := v } })
      "three-grams" false "use 3-grams, i.e. word triplets, for scoring"
  |> Float64Var (fun a v => { a with params := { a.params with MaxPower := v } })
      "max-power" (5 / 100) "maximum word power, e.g. min 0.05/max 0.95"
  |> Float64Var (fun a v => { a with params := { a.params with IgnoreWords := v } })
      "ignore-words" (1 / 10)
      "ignore words with ham/spaminess within this distance from 0.5"
  |> IntVar (fun a v => { a with params := { a.params with TopWords := v } })
      "top-words" 10 "number of top spam and number of top ham words from email to use"
  |> IntVar (fun a v => { a with params := { a.params with RareWords := v } })
      "rare-words" 1
      "words are rare if encountered this number during training, and skipped for scoring"
  |> BoolVar (fun a v => { a with debug := v })
      "debug" false "print debug logging when calculating spam probability"
  |> Float64Var (fun a v => { a with spamThreshold := v })
      "spam-threshold" (95 / 100) "probability where message is seen as spam"
  |> Float64Var (fun a v => { a with trainRatio := v })
      "train-ratio" (5 / 10)
      "part of data to use for training versus analyzing (for analyze only)"
  |> StringVar (fun a v => { a with sentDir := v })
      "sent-dir" "" "directory with sent mails, for training"
  |> BoolVar (fun a v => { a with seed := v })
      "seed" false "seed prng before analysis"
  |> StringVar (fun a v => { a with databasePath := v })
      "dbpath" "filter.db" "database file for ham/spam words"
  |> StringVar (fun a v => { a with bloomfilterPath := v })
      "bloompath" "filter.bloom" "bloom filter for ignoring unique strings"
  |> StringVar (fun a v => { a with cpuprofile := v })
      "cpuprof" "" "store cpu profile to file"
  |> StringVar (fun a v => { a with memprofile := v })
      "memprof" "" "store mem profile to file"

/-- The default value registered for the flag `name`, as `fs.Lookup(name)`
reports it in `DefValue`. -/
def FlagSet.defValueOf (fs : FlagSet) (name : String) : Option FlagValue :=
  (fs.find? (fun fl => fl.name == name)).map Flag.defValue

/-- Go type `cmd`, which is declared outside `junk.go`, as far as the junk
commands use it: the flag set `c.flag`, and `c.Parse()`, which parses the
command line against the flags registered. `Parse` is given the flag set and
the variable that the pointers registered by `junkFlags` point into, which is
the result variable `a` of `junkFlags` itself; it returns that variable as the
options of the command line leave it, and the remaining arguments. -/
structure cmd where
  flag : FlagSet
  Parse : FlagSet → junkArgs → junkArgs × List String

/-- The statements `a := junkFlags(c.flag)` and `args := c.Parse()` that every
junk command begins with. `junkFlags` returns its `junkArgs` by value, so the
`a` of the command is a copy made when `junkFlags` returned: what `c.Parse()`
stores afterwards, through the pointers into the variable of `junkFlags`, is
not in it. The result is `a` and `args`. -/
def cmd.parseJunk (c : cmd) : junkArgs × List String :=
  let r := junkFlags c.flag
  (r.1, (c.Parse r.2 r.1).2)

/-! ## The collaborators -/

/-- A parsed message (`message.Part`) as far as the commands look at it: the
date of its envelope, as an offset from Go's zero `time.Time`, and its text. -/
structure Part where
  Date : ℤ
  text : String
  deriving DecidableEq

/-- Go `t.IsZero()`. -/
def Part.dateIsZero (p : Part) : Bool := p.Date == 0

/-- The methods of `junk.Filter` that `junk.go` calls, over a filter state `σ`.
Every method may change the state. `ClassifyMessagePath` returns the
probability and the words; its two counts are discarded by every caller.
An error is a string, `none` is Go's `nil` error. -/
structure Filter (σ : Type) where
  NewFilter : Params → String → String → Except String σ
  OpenFilter : Params → String → String → Bool → Except String σ
  ClassifyMessagePath : σ → String → σ × Except String (ℚ × Words)
  ParseMessage : σ → Part → σ × Except String Words
  Train : σ → Bool → Words → σ × Option String
  TrainDirs : σ → String → String → String → List String → List String → List String →
    σ × Option String
  Save : σ → σ × Option String
  Close : σ → σ

/-- The parts of the operating system and of package `message` the commands
use. `Open` and `Stat` give the error, if any; `EnsurePart` parses the file at a
path; `NowUnixMilli` is `time.Now().UnixMilli()`. -/
structure OS where
  ReadDir : String → Except String (List String)
  Open : String → Option String
  Stat : String → Option String
  EnsurePart : String → Except String Part
  NowUnixMilli : ℤ

/-- One line of standard output. The optional third count of the two total
lines is the malformed count, which only `analyze` prints. -/
inductive Line where
  | prob (p : ℚ)
  | ham (path : String) (p : ℚ)
  | spam (path : String) (p : ℚ)
  | trainingDone (nham nsent nspam : ℤ)
  | completed (nham nsent nspam nbad nnodate : ℕ)
  | totalHam (ok bad : ℕ) (malformed : Option ℕ)
  | totalSpam (ok bad : ℕ) (malformed : Option ℕ)
  | specificity (v : F64)
  | sensitivity (v : F64)
  | accuracy (v : F64)
  deriving DecidableEq

/-- What a command leaves behind: the filter, standard output and the log. -/
structure Run (σ : Type) where
  f : σ
  out : List Line
  log : List String

/-- Go `xcheckf(err, ...)`: continue only when there is no error. -/
def xcheckf (err : Option String) (what : String) : Except Abort Unit :=
  match err with
  | none => pure ()
  | some e => throw (Abort.fatal (what ++ ": " ++ e))

/-- Go `must(f, err)` around `junk.NewFilter` and `junk.OpenFilter`. -/
def must {σ : Type} (r : Except String σ) : Except Abort σ :=
  match r with
  | Except.ok f => pure f
  | Except.error e => throw (Abort.fatal ("filter: " ++ e))

/-- Go `listDir(dir)`: the names in a directory, fatal when it cannot be read. -/
def listDir (os : OS) (dir : String) : Except Abort (List String) :=
  match os.ReadDir dir with
  | Except.ok l => pure l
  | Except.error e => throw (Abort.fatal ("listing directory " ++ dir ++ ": " ++ e))

/-- The three summary lines every evaluation mode ends with. -/
def ratioLines (nhamok nhambad nspamok nspambad : ℕ) : List Line :=
  [ Line.specificity (fdiv (nhamok : ℤ) ((nhamok + nhambad : ℕ) : ℤ)),
    Line.sensitivity (fdiv (nspamok : ℤ) ((nspamok + nspambad : ℕ) : ℤ)),
    Line.accuracy (fdiv ((nhamok + nspamok : ℕ) : ℤ)
      ((nhamok + nhambad + nspamok + nspambad : ℕ) : ℤ)) ]

/-! ## `cmdJunkCheck` -/

/-- Go `cmdJunkCheck` after its first two statements, for any `a` and `args`:
classify one message and print its probability. -/
def cmdJunkCheck {σ : Type} (F : Filter σ) (a : junkArgs) (args : List String) :
    Except Abort (Run σ) :=
  match args with
  | [mailfile] => do
    let f ← must (F.OpenFilter a.params a.databasePath a.bloomfilterPath false)
    match F.ClassifyMessagePath f mailfile with
    | (_, Except.error e) => throw (Abort.fatal ("testing mail: " ++ e))
    | (f1, Except.ok (prob, _)) =>
      pure { f := F.Close f1, out := [Line.prob prob], log := [] }
  | _ => throw Abort.usage

/-! ## `cmdJunkTest` -/

/-- The state of the loop in `testDir` of `cmdJunkTest`: the filter, the two
tallies, and what was printed and logged. -/
structure TestSt (σ : Type) where
  f : σ
  ok : ℕ
  bad : ℕ
  out : List Line
  log : List String

/-- One iteration of the loop in `testDir` of `cmdJunkTest`. -/
def cmdJunkTest.testFile {σ : Type} (F : Filter σ) (a : junkArgs) (dir : String)
    (ham : Bool) (st : TestSt σ) (name : String) : TestSt σ :=
  let path := dir ++ "/" ++ name
  match F.ClassifyMessagePath st.f path with
  | (f1, Except.error e) =>
    { st with f := f1, log := st.log ++ ["classify message " ++ path ++ ": " ++ e] }
  | (f1, Except.ok (prob, _)) =>
    let st1 : TestSt σ :=
      if (ham = true ∧ prob < a.spamThreshold) ∨ (ham = false ∧ prob > a.spamThreshold)
      then { st with f := f1, ok := st.ok + 1 }
      else { st with f := f1, bad := st.bad + 1 }
    let st2 : TestSt σ :=
      if ham = true ∧ prob > a.spamThreshold
      then { st1 with out := st1.out ++ [Line.ham path prob] } else st1
    if ham = false ∧ prob < a.spamThreshold
    then { st2 with out := st2.out ++ [Line.spam path prob] } else st2

/-- Go `testDir(dir, ham)` inside `cmdJunkTest`, run from the state `r`; the
tallies start at zero and are returned next to the state. -/
def cmdJunkTest.testDir {σ : Type} (F : Filter σ) (os : OS) (a : junkArgs) (dir : String)
    (ham : Bool) (r : Run σ) : Except Abort (Run σ × ℕ × ℕ) :=
  match os.ReadDir dir with
  | Except.error e => throw (Abort.fatal ("readdir " ++ dir ++ ": " ++ e))
  | Except.ok files =>
    let st := files.foldl (cmdJunkTest.testFile F a dir ham)
      { f := r.f, ok := 0, bad := 0, out := r.out, log := r.log }
    pure ({ f := st.f, out := st.out, log := st.log }, st.ok, st.bad)

/-- Go `cmdJunkTest` after its first two statements, for any `a` and `args`.
The filter is closed by the deferred `f.Close()` when the command returns
normally. -/
def cmdJunkTest {σ : Type} (F : Filter σ) (os : OS) (a : junkArgs) (args : List String) :
    Except Abort (Run σ) :=
  match args with
  | [hamDir, spamDir] => do
    let f ← must (F.OpenFilter a.params a.databasePath a.bloomfilterPath false)
    let (r1, nhamok, nhambad) ← cmdJunkTest.testDir F os a hamDir true
      { f := f, out := [], log := [] }
    let (r2, nspamok, nspambad) ← cmdJunkTest.testDir F os a spamDir false r1
    pure { f := F.Close r2.f,
           out := r2.out ++ [Line.totalHam nhamok nhambad none,
                             Line.totalSpam nspamok nspambad none]
                  ++ ratioLines nhamok nhambad nspamok nspambad,
           log := r2.log }
  | _ => throw Abort.usage

/-! ## `cmdJunkAnalyze` -/

/-- The part of `math/rand` that `cmdJunkAnalyze` uses, over generator states
`ρ`: `NewSource(seed)` and `Intn(n)`, which for `0 < n` returns a number below
`n` (and panics otherwise; `shuffle` only calls it with `0 < n`). -/
structure Rand (ρ : Type) where
  NewSource : ℤ → ρ
  Intn : ρ → ℕ → ρ × ℕ
  Intn_lt : ∀ (g : ρ) (n : ℕ), 0 < n → (Intn g n).2 < n

/-- Go `l[i], l[n] = l[n], l[i]`; `none` is the index-out-of-range panic. -/
def swap (l : List String) (i n : ℕ) : Option (List String) :=
  match l[i]?, l[n]? with
  | some x, some y => some ((l.set i y).set n x)
  | _, _ => none

/-- One iteration of the loop of `shuffle`, at index `i`. -/
def cmdJunkAnalyze.shuffleStep {ρ : Type} (R : Rand ρ) (count : ℕ)
    (st : Option (ρ × List String)) (i : ℕ) : Option (ρ × List String) :=
  match st with
  | none => none
  | some (g, l) =>
    match swap l i (R.Intn g count).2 with
    | none => none
    | some l1 => some ((R.Intn g count).1, l1)

/-- Go `shuffle(l)` inside `cmdJunkAnalyze`, from generator state `g`. -/
def cmdJunkAnalyze.shuffle {ρ : Type} (R : Rand ρ) (g : ρ) (l : List String) :
    Option (ρ × List String) :=
  (List.range l.length).foldl (cmdJunkAnalyze.shuffleStep R l.length) (some (g, l))

/-- Go's conversion `int(x)` of a float64: the fraction is discarded. For a
value outside the range of `int` the Go conversion is implementation-dependent;
the model keeps the integer part, which is never a valid slice bound. -/
def truncInt (x : ℚ) : ℤ := if 0 ≤ x then ⌊x⌋ else ⌈x⌉

/-- Go `l[:k]`; `none` is the slice-bounds panic. The listing has no spare
capacity in this model, so the bound is the length. -/
def sliceTo (l : List String) (k : ℤ) : Option (List String) :=
  if 0 ≤ k ∧ k ≤ (l.length : ℤ) then some (l.take k.toNat) else none

/-- Go `l[k:]`; `none` is the slice-bounds panic. -/
def sliceFrom (l : List String) (k : ℤ) : Option (List String) :=
  if 0 ≤ k ∧ k ≤ (l.length : ℤ) then some (l.drop k.toNat) else none

/-- The generator `cmdJunkAnalyze` shuffles with. -/
def cmdJunkAnalyze.newRand {ρ : Type} (R : Rand ρ) (os : OS) (a : junkArgs) : ρ :=
  if a.seed = true then R.NewSource os.NowUnixMilli else R.NewSource 0

/-- The train and test lists `cmdJunkAnalyze` derives from the two listings. -/
structure Split where
  ntrainham : ℤ
  ntrainspam : ℤ
  trainHam : List String
  trainSpam : List String
  testHam : List String
  testSpam : List String
  deriving DecidableEq

/-- Number of training files: `int(a.trainRatio * float64(len(files)))`. The
ratio and the converted length are float64 values, and their product is
rounded to float64 before its fraction is discarded. -/
def cmdJunkAnalyze.ntrain (a : junkArgs) (files : List String) : ℤ :=
  truncInt (roundF64 (roundF64 a.trainRatio * roundF64 (files.length : ℚ)))

/-- Lines 239 to 263 of `cmdJunkAnalyze`: choose the generator, shuffle both
listings (ham first, spam with the generator as the ham shuffle left it), and
cut each into a training and a test part. -/
def cmdJunkAnalyze.split {ρ : Type} (R : Rand ρ) (os : OS) (a : junkArgs)
    (hamFiles spamFiles : List String) : Except Abort Split :=
  match cmdJunkAnalyze.shuffle R (cmdJunkAnalyze.newRand R os a) hamFiles with
  | none => throw (Abort.panic "index out of range")
  | some (g1, hamShuffled) =>
    match cmdJunkAnalyze.shuffle R g1 spamFiles with
    | none => throw (Abort.panic "index out of range")
    | some (_, spamShuffled) =>
      let ntrainham := cmdJunkAnalyze.ntrain a hamShuffled
      let ntrainspam := cmdJunkAnalyze.ntrain a spamShuffled
      match sliceTo hamShuffled ntrainham, sliceTo spamShuffled ntrainspam,
            sliceFrom hamShuffled ntrainham, sliceFrom spamShuffled ntrainspam with
      | some trainHam, some trainSpam, some testHam, some testSpam =>
        pure { ntrainham := ntrainham, ntrainspam := ntrainspam,
               trainHam := trainHam, trainSpam := trainSpam,
               testHam := testHam, testSpam := testSpam }
      | _, _, _, _ => throw (Abort.panic "slice bounds out of range")

/-- The state of the loop in `testDir` of `cmdJunkAnalyze`. -/
structure AnalyzeSt (σ : Type) where
  f : σ
  ok : ℕ
  bad : ℕ
  malformed : ℕ
  out : List Line

/-- One iteration of the loop in `testDir` of `cmdJunkAnalyze`. -/
def cmdJunkAnalyze.testFile {σ : Type} (F : Filter σ) (a : junkArgs) (dir : String)
    (ham : Bool) (st : AnalyzeSt σ) (name : String) : AnalyzeSt σ :=
  let path := dir ++ "/" ++ name
  match F.ClassifyMessagePath st.f path with
  | (f1, Except.error _) => { st with f := f1, malformed := st.malformed + 1 }
  | (f1, Except.ok (prob, _)) =>
    let st1 : AnalyzeSt σ :=
      if (ham = true ∧ prob < a.spamThreshold) ∨ (ham = false ∧ prob > a.spamThreshold)
      then { st with f := f1, ok := st.ok + 1 }
      else { st with f := f1, bad := st.bad + 1 }
    let st2 : AnalyzeSt σ :=
      if ham = true ∧ prob > a.spamThreshold
      then { st1 with out := st1.out ++ [Line.ham path prob] } else st1
    if ham = false ∧ prob < a.spamThreshold
    then { st2 with out := st2.out ++ [Line.spam path prob] } else st2

/-- Go `testDir(dir, files, ham)` inside `cmdJunkAnalyze`, from filter `f` and
output `out`; the three counters start at zero. -/
def cmdJunkAnalyze.testDir {σ : Type} (F : Filter σ) (a : junkArgs) (dir : String)
    (files : List String) (ham : Bool) (f : σ) (out : List Line) : AnalyzeSt σ :=
  files.foldl (cmdJunkAnalyze.testFile F a dir ham)
    { f := f, ok := 0, bad := 0, malformed := 0, out := out }

/-- Go `cmdJunkAnalyze` after its first two statements, for any `a` and
`args`. -/
def cmdJunkAnalyze {σ ρ : Type} (F : Filter σ) (os : OS) (R : Rand ρ) (a : junkArgs)
    (args : List String) : Except Abort (Run σ) :=
  match args with
  | [hamDir, spamDir] => do
    let f ← must (F.NewFilter a.params a.databasePath a.bloomfilterPath)
    let hamFiles ← listDir os hamDir
    let spamFiles ← listDir os spamDir
    let sp ← cmdJunkAnalyze.split R os a hamFiles spamFiles
    let trainSent ← (if a.sentDir ≠ "" then listDir os a.sentDir else pure [])
    let (f1, err) := F.TrainDirs f hamDir a.sentDir spamDir sp.trainHam trainSent sp.trainSpam
    xcheckf err "train"
    let h := cmdJunkAnalyze.testDir F a hamDir sp.testHam true f1 []
    let s := cmdJunkAnalyze.testDir F a spamDir sp.testSpam false h.f h.out
    pure { f := F.Close s.f,
           out := s.out ++ [Line.trainingDone sp.ntrainham trainSent.length sp.ntrainspam,
                            Line.totalHam h.ok h.bad (some h.malformed),
                            Line.totalSpam s.ok s.bad (some s.malformed)]
                  ++ ratioLines h.ok h.bad s.ok s.bad,
           log := [] }
  | _ => throw Abort.usage

/-! ## `cmdJunkTrain` -/

/-- Go `cmdJunkTrain` after its first two statements, for any `a` and `args`. -/
def cmdJunkTrain {σ : Type} (F : Filter σ) (os : OS) (a : junkArgs) (args : List String) :
    Except Abort (Run σ) :=
  match args with
  | [hamDir, spamDir] => do
    let f ← must (F.NewFilter a.params a.databasePath a.bloomfilterPath)
    let hamFiles ← listDir os hamDir
    let spamFiles ← listDir os spamDir
    let sentFiles ← (if a.sentDir ≠ "" then listDir os a.sentDir else pure [])
    let (f1, err) := F.TrainDirs f hamDir a.sentDir spamDir hamFiles sentFiles spamFiles
    xcheckf err "train"
    pure { f := F.Close f1, out := [], log := [] }
  | _ => throw Abort.usage

/-! ## `cmdJunkPlay` -/

/-- Go struct `msg` of `cmdJunkPlay`; `t` is the date as an offset from the
zero `time.Time`, so `t.Before(u)` is `t < u`. -/
structure msg where
  dir : String
  filename : String
  ham : Bool
  sent : Bool
  t : ℤ
  deriving DecidableEq

/-- Go `sort.Slice` on a `[]msg`, by its documented contract only: the slice is
rearranged, and when `less` is a strict weak ordering no element is less than
one before it. The order of equal elements is left open. -/
structure SortSlice where
  sort : (msg → msg → Bool) → List msg → List msg
  perm : ∀ (less : msg → msg → Bool) (l : List msg), (sort less l).Perm l
  sorted : ∀ (less : msg → msg → Bool) (l : List msg),
    (∀ x, less x x = false) →
    (∀ x y z, less x y = true → less y z = true → less x z = true) →
    (∀ x y z, less x y = false → less y z = false → less x z = false) →
    (sort less l).Pairwise (fun x y => less y x = false)

/-- The comparison `cmdJunkPlay` sorts with: `msgs[i].t.Before(msgs[j].t)`. -/
def cmdJunkPlay.less (x y : msg) : Bool := decide (x.t < y.t)

/-- The variables `scanDir` updates: the messages and the five counters. -/
structure ScanSt where
  msgs : List msg
  nbad : ℕ
  nnodate : ℕ
  nham : ℕ
  nspam : ℕ
  nsent : ℕ
  deriving DecidableEq

/-- One iteration of the loop of `scanDir`. -/
def cmdJunkPlay.scanFile (os : OS) (dir : String) (ham sent : Bool) (st : ScanSt)
    (name : String) : Except Abort ScanSt :=
  let path := dir ++ "/" ++ name
  match os.Open path with
  | some e => throw (Abort.fatal ("open " ++ path ++ ": " ++ e))
  | none =>
    match os.Stat path with
    | some e => throw (Abort.fatal ("stat " ++ path ++ ": " ++ e))
    | none =>
      match os.EnsurePart path with
      | Except.error _ => pure { st with nbad := st.nbad + 1 }
      | Except.ok p =>
        if p.dateIsZero = true then pure { st with nnodate := st.nnodate + 1 }
        else
          let st1 := { st with msgs := st.msgs ++ [msg.mk dir name ham sent p.Date] }
          if sent = true then pure { st1 with nsent := st1.nsent + 1 }
          else if ham = true then pure { st1 with nham := st1.nham + 1 }
          else pure { st1 with nspam := st1.nspam + 1 }

/-- Go `scanDir(dir, ham, sent)` inside `cmdJunkPlay`. -/
def cmdJunkPlay.scanDir (os : OS) (dir : String) (ham sent : Bool) (st : ScanSt) :
    Except Abort ScanSt := do
  let files ← listDir os dir
  files.foldlM (cmdJunkPlay.scanFile os dir ham sent) st

/-- The three scans of `cmdJunkPlay`: ham, spam and, when given, sent. -/
def cmdJunkPlay.scan (os : OS) (a : junkArgs) (hamDir spamDir : String) :
    Except Abort ScanSt := do
  let st0 : ScanSt := { msgs := [], nbad := 0, nnodate := 0, nham := 0, nspam := 0, nsent := 0 }
  let st1 ← cmdJunkPlay.scanDir os hamDir true false st0
  let st2 ← cmdJunkPlay.scanDir os spamDir false false st1
  if a.sentDir ≠ "" then cmdJunkPlay.scanDir os a.sentDir true true st2 else pure st2

/-- The variables `play` updates: the filter, `nbad` and the four tallies. -/
structure PlaySt (σ : Type) where
  f : σ
  nbad : ℕ
  nhamok : ℕ
  nhambad : ℕ
  nspamok : ℕ
  nspambad : ℕ
  log : List String

/-- The last statement of `play`: train on the words, logging a failure. -/
def cmdJunkPlay.train {σ : Type} (F : Filter σ) (m : msg) (words : Words) (st : PlaySt σ) :
    PlaySt σ :=
  match F.Train st.f m.ham words with
  | (f1, none) => { st with f := f1 }
  | (f1, some e) => { st with f := f1, log := st.log ++ ["train: " ++ e] }

/-- Go `play(msg)` inside `cmdJunkPlay`. -/
def cmdJunkPlay.play {σ : Type} (F : Filter σ) (os : OS) (a : junkArgs) (st : PlaySt σ)
    (m : msg) : Except Abort (PlaySt σ) :=
  let path := m.dir ++ "/" ++ m.filename
  if m.sent = false then
    match F.ClassifyMessagePath st.f path with
    | (f1, Except.error _) => pure { st with f := f1, nbad := st.nbad + 1 }
    | (f1, Except.ok (prob, words)) =>
      let st1 : PlaySt σ :=
        if m.ham = true then
          if prob < a.spamThreshold then { st with f := f1, nhamok := st.nhamok + 1 }
          else { st with f := f1, nhambad := st.nhambad + 1 }
        else
          if prob > a.spamThreshold then { st with f := f1, nspamok := st.nspamok + 1 }
          else { st with f := f1, nspambad := st.nspambad + 1 }
      pure (cmdJunkPlay.train F m words st1)
  else
    match os.Open path with
    | some e => throw (Abort.fatal ("open " ++ path ++ ": " ++ e))
    | none =>
      match os.Stat path with
      | some e => throw (Abort.fatal ("stat " ++ path ++ ": " ++ e))
      | none =>
        match os.EnsurePart path with
        | Except.error e =>
          pure { st with log := st.log ++ ["bad sent message " ++ path ++ ": " ++ e] }
        | Except.ok p =>
          match F.ParseMessage st.f p with
          | (f1, Except.error e) =>
            pure { st with f := f1, log := st.log ++ ["bad sent message " ++ path ++ ": " ++ e] }
          | (f1, Except.ok words) => pure (cmdJunkPlay.train F m words { st with f := f1 })

/-- The messages in the order `cmdJunkPlay` plays them: the scanned messages,
sorted earliest first. -/
def cmdJunkPlay.replay (S : SortSlice) (scanned : ScanSt) : List msg :=
  S.sort cmdJunkPlay.less scanned.msgs

/-- Go `cmdJunkPlay` after its first two statements, for any `a` and `args`. -/
def cmdJunkPlay {σ : Type} (F : Filter σ) (os : OS) (S : SortSlice) (a : junkArgs)
    (args : List String) : Except Abort (Run σ) :=
  match args with
  | [hamDir, spamDir] => do
    let f ← must (F.NewFilter a.params a.databasePath a.bloomfilterPath)
    let sc ← cmdJunkPlay.scan os a hamDir spamDir
    let st ← (cmdJunkPlay.replay S sc).foldlM (cmdJunkPlay.play F os a)
      { f := f, nbad := sc.nbad, nhamok := 0, nhambad := 0, nspamok := 0, nspambad := 0,
        log := [] }
    let (f1, err) := F.Save st.f
    xcheckf err "saving filter"
    pure { f := F.Close f1,
           out := [Line.completed sc.nham sc.nsent sc.nspam st.nbad sc.nnodate,
                   Line.totalHam st.nhamok st.nhambad none,
                   Line.totalSpam st.nspamok st.nspambad none]
                  ++ ratioLines st.nhamok st.nhambad st.nspamok st.nspambad,
           log := st.log }
  | _ => throw Abort.usage

/-! ## The commands from their first statement -/

/-- Go `cmdJunkTrain(c)`. -/
def cmdJunkTrain.run {σ : Type} (F : Filter σ) (os : OS) (c : cmd) : Except Abort (Run σ) :=
  cmdJunkTrain F os c.parseJunk.1 c.parseJunk.2

/-- Go `cmdJunkCheck(c)`. -/
def cmdJunkCheck.run {σ : Type} (F : Filter σ) (c : cmd) : Except Abort (Run σ) :=
  cmdJunkCheck F c.parseJunk.1 c.parseJunk.2

/-- Go `cmdJunkTest(c)`. -/
def cmdJunkTest.run {σ : Type} (F : Filter σ) (os : OS) (c : cmd) : Except Abort (Run σ) :=
  cmdJunkTest F os c.parseJunk.1 c.parseJunk.2

/-- Go `cmdJunkAnalyze(c)`. -/
def cmdJunkAnalyze.run {σ ρ : Type} (F : Filter σ) (os : OS) (R : Rand ρ) (c : cmd) :
    Except Abort (Run σ) :=
  cmdJunkAnalyze F os R c.parseJunk.1 c.parseJunk.2

/-- Go `cmdJunkPlay(c)`. -/
def cmdJunkPlay.run {σ : Type} (F : Filter σ) (os : OS) (S : SortSlice) (c : cmd) :
    Except Abort (Run σ) :=
  cmdJunkPlay F os S c.parseJunk.1 c.parseJunk.2

/-! ## The filter of package `junk`, modelled from the spec -/

/-- Modelled from the spec: the aggregate state of a junk filter (spec §3),
which belongs to package `junk` and is not among the sources. It owns the word
store, a map from token to its ham and spam counts with (0, 0) for an unknown
token, the totals of ham and spam messages trained, and the parameters. -/
structure SpecFilter where
  params : Params
  words : String → ℕ × ℕ
  hams : ℕ
  spams : ℕ

/-- Modelled from the spec: what the spec leaves to its collaborators or
open, taken as given. `tokenize` reads, parses and tokenizes the message file
at a path into its tokens without duplicates (§4.1, §6), `tokenizeText` does
so for the text of a parsed message, `stored` is the persisted filter, if any,
that `OpenFilter` loads (§4.3). `strength` is the weight of the smoothing
toward 0.5, a positive constant that §9 leaves open; `pow` is the power
function used for dampening, positive on positive numbers. -/
structure SpecChoice where
  tokenize : String → Except String (List String)
  tokenizeText : String → List String
  stored : Except String SpecFilter
  strength : ℚ
  strength_pos : 0 < strength
  pow : ℚ → ℚ → ℚ
  pow_pos : ∀ x y : ℚ, 0 < x → 0 < pow x y

/-- Modelled from the spec: the probability of one token (§4.4),
spam_count / (spam_count + ham_count) smoothed toward 0.5: the prior 0.5
counts as `strength` observations. -/
def tokenProb (c : SpecChoice) (f : SpecFilter) (w : String) : ℚ :=
  (c.strength * (1 / 2) + ((f.words w).2 : ℚ)) /
    (c.strength + ((f.words w).2 : ℚ) + ((f.words w).1 : ℚ))

/-- Modelled from the spec: whether a token takes part in scoring (§4.4): it
was seen at least `RareWords` times and its probability is farther than
`IgnoreWords` from 0.5. -/
def isRetained (c : SpecChoice) (f : SpecFilter) (w : String) : Bool :=
  decide (f.params.RareWords ≤ (((f.words w).1 + (f.words w).2 : ℕ) : ℤ)) &&
  decide (f.params.IgnoreWords < |tokenProb c f w - 1 / 2|)

/-- Modelled from the spec: the tokens used for scoring (§4.4): of the
retained tokens, at most `TopWords` ham-indicative ones and at most `TopWords`
spam-indicative ones, those farthest from 0.5 first. -/
def topWords (c : SpecChoice) (f : SpecFilter) (tokens : List String) : List String :=
  let retained := tokens.filter (isRetained c f)
  let far := fun (x y : String) => |tokenProb c f y - 1 / 2| ≤ |tokenProb c f x - 1 / 2|
  let ham := ((retained.filter (fun w => decide (tokenProb c f w < 1 / 2))).insertionSort far).take
    f.params.TopWords.toNat
  let spam := ((retained.filter (fun w => decide (1 / 2 < tokenProb c f w))).insertionSort far).take
    f.params.TopWords.toNat
  ham ++ spam

/-- Modelled from the spec: the Scorer (§4.4). With no token left to score the
result is the neutral 0.5. Otherwise the probabilities of the tokens are
combined multiplicatively, as odds of spam against ham; the odds are dampened
by raising them to `MaxPower`, and renormalized to a probability. -/
def score (c : SpecChoice) (f : SpecFilter) (tokens : List String) : ℚ :=
  let ps := (topWords c f tokens).map (tokenProb c f)
  if ps = [] then 1 / 2
  else
    let odds := c.pow (ps.prod / (ps.map (fun p => 1 - p)).prod) f.params.MaxPower
    odds / (1 + odds)

/-- Modelled from the spec: `Train` (§4.5): the counter of the class goes up by
one for every token, and so does the total of the class. -/
def SpecFilter.train (f : SpecFilter) (ham : Bool) (tokens : Words) : SpecFilter :=
  { f with
    words := fun w =>
      if w ∈ tokens then
        (if ham = true then ((f.words w).1 + 1, (f.words w).2)
         else ((f.words w).1, (f.words w).2 + 1))
      else f.words w
    hams := if ham = true then f.hams + 1 else f.hams
    spams := if ham = true then f.spams else f.spams + 1 }

/-- Modelled from the spec: training on the files of a directory (§4.5); a file
that does not parse is skipped. -/
def SpecFilter.trainFiles (c : SpecChoice) (f : SpecFilter) (ham : Bool) (dir : String)
    (files : List String) : SpecFilter :=
  files.foldl (fun g name =>
    match c.tokenize (dir ++ "/" ++ name) with
    | Except.ok tokens => g.train ham tokens.toFinset
    | Except.error _ => g) f

/-- Modelled from the spec: the operations of the filter (§4.5) as the
`Filter` the commands use. Classification reads the state and does not
change it; it fails when the file cannot be read or parsed. -/
def specFilter (c : SpecChoice) : Filter SpecFilter where
  NewFilter := fun params _ _ =>
    Except.ok { params := params, words := fun _ => (0, 0), hams := 0, spams := 0 }
  OpenFilter := fun params _ _ _ =>
    match c.stored with
    | Except.ok f => Except.ok { f with params := params }
    | Except.error e => Except.error e
  ClassifyMessagePath := fun f path =>
    match c.tokenize path with
    | Except.ok tokens => (f, Except.ok (score c f tokens, tokens.toFinset))
    | Except.error e => (f, Except.error e)
  ParseMessage := fun f p => (f, Except.ok (c.tokenizeText p.text).toFinset)
  Train := fun f ham tokens => (f.train ham tokens, none)
  TrainDirs := fun f hamDir sentDir spamDir hamFiles sentFiles spamFiles =>
    (((f.trainFiles c true hamDir hamFiles).trainFiles c true sentDir sentFiles).trainFiles c
      false spamDir spamFiles, none)
  Save := fun f => (f, none)
  Close := fun f => f

/-! ## The evaluation modes, and recording what a command does with its filter -/

/-- The three commands that evaluate a filter. -/
inductive Mode where
  | test
  | analyze
  | play
  deriving DecidableEq

/-- The command of an evaluation mode. -/
def evalMode {σ ρ : Type} (mode : Mode) (F : Filter σ) (os : OS) (R : Rand ρ)
    (S : SortSlice) (a : junkArgs) (args : List String) : Except Abort (Run σ) :=
  match mode with
  | Mode.test => cmdJunkTest F os a args
  | Mode.analyze => cmdJunkAnalyze F os R a args
  | Mode.play => cmdJunkPlay F os S a args

/-- One call of a filter method, with its arguments and what it returned. -/
inductive Call where
  | NewFilter (params : Params) (dbPath bloomPath : String)
  | OpenFilter (params : Params) (dbPath bloomPath : String) (loadBloom : Bool)
  | ClassifyMessagePath (path : String) (res : Except String (ℚ × Words))
  | ParseMessage (p : Part) (res : Except String Words)
  | Train (ham : Bool) (words : Words) (err : Option String)
  | TrainDirs (hamDir sentDir spamDir : String) (hamFiles sentFiles spamFiles : List String)
      (err : Option String)
  | Save (err : Option String)
  | Close

/-- The filter `F` with a record kept of every call made on it, oldest first.
The methods return what those of `F` return. -/
def traced {σ : Type} (F : Filter σ) : Filter (σ × List Call) where
  NewFilter := fun params db bloom =>
    match F.NewFilter params db bloom with
    | Except.ok s => Except.ok (s, [Call.NewFilter params db bloom])
    | Except.error e => Except.error e
  OpenFilter := fun params db bloom load =>
    match F.OpenFilter params db bloom load with
    | Except.ok s => Except.ok (s, [Call.OpenFilter params db bloom load])
    | Except.error e => Except.error e
  ClassifyMessagePath := fun s path =>
    (((F.ClassifyMessagePath s.1 path).1,
      s.2 ++ [Call.ClassifyMessagePath path (F.ClassifyMessagePath s.1 path).2]),
     (F.ClassifyMessagePath s.1 path).2)
  ParseMessage := fun s p =>
    (((F.ParseMessage s.1 p).1, s.2 ++ [Call.ParseMessage p (F.ParseMessage s.1 p).2]),
     (F.ParseMessage s.1 p).2)
  Train := fun s ham words =>
    (((F.Train s.1 ham words).1, s.2 ++ [Call.Train ham words (F.Train s.1 ham words).2]),
     (F.Train s.1 ham words).2)
  TrainDirs := fun s hamDir sentDir spamDir hamFiles sentFiles spamFiles =>
    (((F.TrainDirs s.1 hamDir sentDir spamDir hamFiles sentFiles spamFiles).1,
      s.2 ++ [Call.TrainDirs hamDir sentDir spamDir hamFiles sentFiles spamFiles
        (F.TrainDirs s.1 hamDir sentDir spamDir hamFiles sentFiles spamFiles).2]),
     (F.TrainDirs s.1 hamDir sentDir spamDir hamFiles sentFiles spamFiles).2)
  Save := fun s => (((F.Save s.1).1, s.2 ++ [Call.Save (F.Save s.1).2]), (F.Save s.1).2)
  Close := fun s => (F.Close s.1, s.2 ++ [Call.Close])

/-- Whether a call is a classification that returned a probability. -/
def Call.isClassified : Call → Bool
  | Call.ClassifyMessagePath _ (Except.ok _) => true
  | _ => false

/-- Whether a call is a classification that returned an error. -/
def Call.isClassifyError : Call → Bool
  | Call.ClassifyMessagePath _ (Except.error _) => true
  | _ => false

/-- The path of a classification, `none` for any other call. -/
def Call.classifyPath? : Call → Option String
  | Call.ClassifyMessagePath path _ => some path
  | _ => none

/-- The number of messages a record shows as classified. -/
def classifiedCount (tr : List Call) : ℕ := tr.countP Call.isClassified

/-- The number of classifications a record shows as failed. -/
def classifyErrorCount (tr : List Call) : ℕ := tr.countP Call.isClassifyError

/-- The paths a record shows as given to `ClassifyMessagePath`, in order. -/
def classifyPaths (tr : List Call) : List String := tr.filterMap Call.classifyPath?

/-- A run without its record of calls. -/
def Run.erase {σ : Type} (r : Run (σ × List Call)) : Run σ :=
  { f := r.f.1, out := r.out, log := r.log }

/-- The state of the test loop without the record of calls. -/
def TestSt.erase {σ : Type} (st : TestSt (σ × List Call)) : TestSt σ :=
  { f := st.f.1, ok := st.ok, bad := st.bad, out := st.out, log := st.log }

/-- The state of the analyze loop without the record of calls. -/
def AnalyzeSt.erase {σ : Type} (st : AnalyzeSt (σ × List Call)) : AnalyzeSt σ :=
  { f := st.f.1, ok := st.ok, bad := st.bad, malformed := st.malformed, out := st.out }

/-- The state of `play` without the record of calls. -/
def PlaySt.erase {σ : Type} (st : PlaySt (σ × List Call)) : PlaySt σ :=
  { f := st.f.1, nbad := st.nbad, nhamok := st.nhamok, nhambad := st.nhambad,
    nspamok := st.nspamok, nspambad := st.nspambad, log := st.log }

/-! ## What `play` calls for a message -/

/-- A filter whose state is its pair of message totals (ham, spam) and whose
classification looks the path up in a table: `none` is a message that cannot
be parsed. Classifying does not change the state, training counts the message. -/
def tableFilter (tbl : String → Option ℚ) : Filter (ℕ × ℕ) where
  NewFilter := fun _ _ _ => Except.ok (0, 0)
  OpenFilter := fun _ _ _ _ => Except.ok (0, 0)
  ClassifyMessagePath := fun s path =>
    match tbl path with
    | some p => (s, Except.ok (p, {path}))
    | none => (s, Except.error "malformed message")
  ParseMessage := fun s p => (s, Except.ok {p.text})
  Train := fun s ham _ => (if ham = true then (s.1 + 1, s.2) else (s.1, s.2 + 1), none)
  TrainDirs := fun s _ _ _ hamFiles sentFiles spamFiles =>
    ((s.1 + hamFiles.length + sentFiles.length, s.2 + spamFiles.length), none)
  Save := fun s => (s, none)
  Close := fun s => s

/-- An operating system with the given directories and parsed files, in which
every listed file can be opened. -/
def tableOS (dirs : String → Option (List String)) (parts : String → Option Part)
    (now : ℤ) : OS where
  ReadDir := fun dir =>
    match dirs dir with
    | some l => Except.ok l
    | none => Except.error "no such file or directory"
  Open := fun _ => none
  Stat := fun _ => none
  EnsurePart := fun path =>
    match parts path with
    | some p => Except.ok p
    | none => Except.error "malformed message"
  NowUnixMilli := now

/-- Scores of a fixture: the ham messages `h8` and `h9` and the spam message
`s0` score 0.99, every other message 0.1. -/
def fixtureScores : String → Option ℚ := fun path =>
  if path = "ham/h8" ∨ path = "ham/h9" ∨ path = "spam/s0" then some (99 / 100)
  else some (1 / 10)

/-- Directories of a fixture: ten ham messages and one spam message. -/
def fixtureOS : OS :=
  tableOS (fun dir =>
      if dir = "ham" then some ["h0", "h1", "h2", "h3", "h4", "h5", "h6", "h7", "h8", "h9"]
      else if dir = "spam" then some ["s0"] else none)
    (fun _ => none) 0

/-- What `mox junk test ham spam` leaves behind on the fixture with the default
options: eight of the ten ham messages are below the threshold 0.95. -/
def fixtureRun : Run (ℕ × ℕ) :=
  { f := (0, 0),
    out := [Line.ham "ham/h8" (99 / 100), Line.ham "ham/h9" (99 / 100),
            Line.totalHam 8 2 none, Line.totalSpam 1 0 none,
            Line.specificity (F64.finite (4 / 5)), Line.sensitivity (F64.finite 1),
            Line.accuracy (F64.finite (9 / 11))],
    log := [] }

/-- Directories with no ham message at all and one spam message. -/
def noHamOS : OS :=
  tableOS (fun dir => if dir = "ham" then some [] else if dir = "spam" then some ["s0"] else none)
    (fun _ => none) 0

/-- What `mox junk test ham spam` leaves behind when the ham directory is
empty: the specificity line shows not-a-number. -/
def noHamRun : Run (ℕ × ℕ) :=
  { f := (0, 0),
    out := [Line.totalHam 0 0 none, Line.totalSpam 1 0 none,
            Line.specificity F64.nan, Line.sensitivity (F64.finite 1),
            Line.accuracy (F64.finite 1)],
    log := [] }

/-- Directories with one ham message and no spam message. -/
def oneBadOS : OS :=
  tableOS (fun dir => if dir = "ham" then some ["m1"] else if dir = "spam" then some [] else none)
    (fun _ => none) 0

/-- What `mox junk test ham spam` leaves behind on `oneBadOS` when the message
cannot be parsed: both tallies of ham stay 0 and one line is logged. -/
def oneBadRun : Run (ℕ × ℕ) :=
  { f := (0, 0),
    out := [Line.totalHam 0 0 none, Line.totalSpam 0 0 none,
            Line.specificity F64.nan, Line.sensitivity F64.nan, Line.accuracy F64.nan],
    log := ["classify message ham/m1: malformed message"] }

/-- Ten ham file names. -/
def tenHam : List String := ["h0", "h1", "h2", "h3", "h4", "h5", "h6", "h7", "h8", "h9"]

/-- Ten spam file names. -/
def tenSpam : List String := ["s0", "s1", "s2", "s3", "s4", "s5", "s6", "s7", "s8", "s9"]

/-- The ten ham and ten spam files, at a later time of day than `fixtureOS`. -/
def laterOS : OS :=
  tableOS (fun dir =>
      if dir = "ham" then some tenHam else if dir = "spam" then some tenSpam else none)
    (fun _ => none) 1700000000000

/-- Directories for a replay: two ham messages, the first listed being the
later one, and a spam message dated between them. -/
def playOS : OS :=
  tableOS (fun dir => if dir = "ham" then some ["h0", "h1"] else if dir = "spam" then some ["s0"]
      else none)
    (fun path => if path = "ham/h0" then some ⟨30, "late ham"⟩
      else if path = "ham/h1" then some ⟨10, "early ham"⟩
      else if path = "spam/s0" then some ⟨20, "spam"⟩ else none) 0

/-- What the scans of `cmdJunkPlay` collect on `playOS`. -/
def playScan : ScanSt :=
  { msgs := [⟨"ham", "h0", true, false, 30⟩, ⟨"ham", "h1", true, false, 10⟩,
             ⟨"spam", "s0", false, false, 20⟩],
    nbad := 0, nnodate := 0, nham := 2, nspam := 1, nsent := 0 }

/-- What `mox junk play ham spam` leaves behind on `playOS`. -/
def playRun : Run (ℕ × ℕ) :=
  { f := (2, 1),
    out := [Line.completed 2 0 1 0 0, Line.totalHam 2 0 none, Line.totalSpam 1 0 none,
            Line.specificity (F64.finite 1), Line.sensitivity (F64.finite 1),
            Line.accuracy (F64.finite 1)],
    log := [] }

/-- Directories with one ham and one spam message, for a filter that gives
both the probability 0.95, the default threshold. -/
def thresholdOS : OS :=
  tableOS (fun dir => if dir = "ham" then some ["m1"] else if dir = "spam" then some ["s1"]
      else none)
    (fun _ => none) 0

/-- What `mox junk test ham spam` leaves behind on `thresholdOS`: both messages
are counted bad and no line is printed for either. -/
def thresholdRun : Run (ℕ × ℕ) :=
  { f := (0, 0),
    out := [Line.totalHam 0 1 none, Line.totalSpam 0 1 none,
            Line.specificity (F64.finite 0), Line.sensitivity (F64.finite 0),
            Line.accuracy (F64.finite 0)],
    log := [] }

/-- A choice for evaluating the model: the message `mail` has the one token
`viagra`, seen in three spam messages and no ham message; the message `empty`
has no token. The smoothing weighs 1 and the power function is the one for
the exponent 1. -/
def demoChoice : SpecChoice where
  tokenize := fun path =>
    if path = "mail" then Except.ok ["viagra"]
    else if path = "empty" then Except.ok [] else Except.error "no such file"
  tokenizeText := fun _ => []
  stored := Except.ok
    { params := junkArgs.zero.params,
      words := fun w => if w = "viagra" then (0, 3) else (0, 0),
      hams := 2, spams := 3 }
  strength := 1
  strength_pos := one_pos
  pow := fun x _ => x
  pow_pos := fun _ _ hx => hx

/-- The filter `cmdJunkCheck` opens with `demoChoice` and the default options. -/
def demoFilter : SpecFilter :=
  { params := (junkFlags []).1.params,
    words := fun w => if w = "viagra" then (0, 3) else (0, 0),
    hams := 2, spams := 3 }

/-- Arguments whose `sentDir` is `sent`, to exercise the code that handles a
sent directory. No command line gives a command these arguments: the `a` of a
command always has the empty `sentDir` that `junkFlags` returns. -/
def sentArgs : junkArgs := { (junkFlags []).1 with sentDir := "sent" }

/-- A command with a fresh flag set whose command line holds options that set
the flag variables as `set` does, followed by the arguments `args`. -/
def cmdLine (set : junkArgs → junkArgs) (args : List String) : cmd :=
  { flag := [], Parse := fun _ v => (set v, args) }

/-- The command line `-seed ham spam`. -/
def seedCmd : cmd := cmdLine (fun v => { v with seed := true }) ["ham", "spam"]

/-- The command line `-train-ratio 0.8 ham spam`. -/
def ratioCmd : cmd := cmdLine (fun v => { v with trainRatio := 8 / 10 }) ["ham", "spam"]

/-- One ham message and one sent message, the sent one later. -/
def sentOS : OS :=
  tableOS (fun dir => if dir = "ham" then some ["h1"] else if dir = "spam" then some []
      else if dir = "sent" then some ["o1"] else none)
    (fun path => if path = "ham/h1" then some ⟨10, "a ham message"⟩
      else if path = "sent/o1" then some ⟨20, "a sent message"⟩ else none) 0

/-- The scan of `sentOS`. -/
def sentScan : ScanSt :=
  { msgs := [⟨"ham", "h1", true, false, 10⟩, ⟨"sent", "o1", true, true, 20⟩],
    nbad := 0, nnodate := 0, nham := 1, nspam := 0, nsent := 1 }

/-- The rule of the ok and bad tallies, as the specification words it, for a
message with label `ham` and probability `p` at threshold `t`: from the
tallies `ok`, `bad` to `ok1`, `bad1` exactly one of the two goes up, by one; it
is ok for a ham message iff `p < t` and for a spam message iff `p > t`; at
`p = t` it is bad. -/
def tallied (ham : Bool) (p t : ℚ) (ok bad ok1 bad1 : ℕ) : Prop :=
  ((ok1 = ok + 1 ∧ bad1 = bad) ∨ (ok1 = ok ∧ bad1 = bad + 1)) ∧
  (ok1 = ok + 1 ↔ (if ham = true then p < t else p > t)) ∧
  (p = t → ok1 = ok ∧ bad1 = bad + 1)

/-- A generator that replays a given sequence of draws: `Intn(n)` returns the
next draw reduced below `n`, and 0 when the sequence is used up. -/
def drawsRand (draws : List ℕ) : Rand (List ℕ) where
  NewSource := fun _ => draws
  Intn := fun g n =>
    match g with
    | [] => ([], 0)
    | d :: ds => (ds, d % n)
  Intn_lt := by
    intro g n hn
    cases g with
    | nil => exact hn
    | cons d ds => exact Nat.mod_lt d hn

/-! ## The DNSBL monitor of `serve_windows.go` -/

/-- What `gatherPublicIPs` and `updateMetrics` use from outside the file, over
the types `Domain` of `dns.Domain`, `IP` of `net.IP`, `Status` of
`dnsbl.Status` and the state `ω` of the network: `Domain.Name`, `IP.String`,
`IP.IsLoopback`, `IP.IsPrivate`, the constant `dnsbl.StatusPass`, `mox.IPs`
and `dnsbl.Lookup`, which returns a status, an explanation and an error
(`none` is Go's `nil`). -/
structure Net (Domain IP Status ω : Type) where
  Name : Domain → String
  ipString : IP → String
  IsLoopback : IP → Bool
  IsPrivate : IP → Bool
  StatusPass : Status
  IPs : ω → ω × Except String (List IP)
  Lookup : ω → Domain → IP → ω × Status × String × Option String

/-- Go `type key struct { zone dns.Domain; ip string }`. -/
structure key (Domain : Type) where
  zone : Domain
  ip : String
  deriving DecidableEq

/-- The gauge vector `metricDNSBL`: the value of the gauge with the labels
zone and ip, `none` when there is no such gauge. -/
abbrev GaugeVec := String → String → Option ℚ

/-- Go `metricDNSBL.DeleteLabelValues(zone, ip)`. -/
def GaugeVec.DeleteLabelValues (m : GaugeVec) (zone ip : String) : GaugeVec :=
  fun z i => if z = zone ∧ i = ip then none else m z i

/-- Go `metricDNSBL.WithLabelValues(zone, ip).Set(v)`. -/
def GaugeVec.Set (m : GaugeVec) (zone ip : String) (v : ℚ) : GaugeVec :=
  fun z i => if z = zone ∧ i = ip then some v else m z i

/-- What the monitor changes: the network, the gauges, the map `prevResults`
(its keys, in the order a `range` visits them) and the error log. -/
structure MonitorSt (Domain ω : Type) where
  world : ω
  metricDNSBL : GaugeVec
  prevResults : List (key Domain)
  log : List String

/-- One iteration of the loop of `gatherPublicIPs`, on the two lists
`publicIPs` and `publicIPstrs`. -/
def gatherPublicIPs.step {Domain IP Status ω : Type} (N : Net Domain IP Status ω)
    (acc : List IP × List String) (ip : IP) : List IP × List String :=
  if N.IsLoopback ip || N.IsPrivate ip then acc
  else (acc.1 ++ [ip], acc.2 ++ [N.ipString ip])

/-- Go `gatherPublicIPs`: the addresses, the public ones among them and their
strings, next to the network and the log as the call leaves them. -/
def gatherPublicIPs {Domain IP Status ω : Type} (N : Net Domain IP Status ω) (w : ω)
    (log : List String) : (ω × List String) × List IP × List IP × List String :=
  match N.IPs w with
  | (w1, Except.error e) => ((w1, log ++ ["listing ips for dnsbl monitor: " ++ e]), [], [], [])
  | (w1, Except.ok ips) =>
    let r := ips.foldl (gatherPublicIPs.step N) ([], [])
    ((w1, log), ips, r.1, r.2)

/-- One iteration of the first loop of `updateMetrics`, at the key `k`. -/
def updateMetrics.prune {Domain IP Status ω : Type} [DecidableEq Domain]
    (N : Net Domain IP Status ω) (zones : List Domain) (publicIPstrs : List String)
    (st : MonitorSt Domain ω) (k : key Domain) : MonitorSt Domain ω :=
  if ¬ k.zone ∈ zones ∨ ¬ k.ip ∈ publicIPstrs then
    { st with metricDNSBL := st.metricDNSBL.DeleteLabelValues (N.Name k.zone) k.ip,
              prevResults := st.prevResults.filter (fun x => x ≠ k) }
  else st

/-- One iteration of the inner loop of `updateMetrics`, at `ip` and `zone`;
the sleep of a second is left out. -/
def updateMetrics.lookup {Domain IP Status ω : Type} [DecidableEq Domain]
    [DecidableEq Status] (N : Net Domain IP Status ω) (ip : IP) (st : MonitorSt Domain ω)
    (zone : Domain) : MonitorSt Domain ω :=
  match N.Lookup st.world zone ip with
  | (w1, status, _, err) =>
    let log1 := match err with
      | some e => st.log ++ ["dnsbl monitor lookup: " ++ e]
      | none => st.log
    let v : ℚ := if status = N.StatusPass then 1 else 0
    let k : key Domain := ⟨zone, N.ipString ip⟩
    { world := w1,
      metricDNSBL := st.metricDNSBL.Set (N.Name zone) (N.ipString ip) v,
      prevResults := if k ∈ st.prevResults then st.prevResults else st.prevResults ++ [k],
      log := log1 }

/-- Go `updateMetrics`. -/
def updateMetrics {Domain IP Status ω : Type} [DecidableEq Domain] [DecidableEq Status]
    (N : Net Domain IP Status ω) (zones : List Domain) (publicIPs : List IP)
    (publicIPstrs : List String) (st : MonitorSt Domain ω) : MonitorSt Domain ω :=
  let st1 := st.prevResults.foldl (updateMetrics.prune N zones publicIPstrs) st
  publicIPs.foldl (fun s ip => zones.foldl (updateMetrics.lookup N ip) s) st1

/-- One round of the loop of `monitorDNSBL` once it has gathered the zones:
`gatherPublicIPs`, then `updateMetrics`. -/
def monitorDNSBL.round {Domain IP Status ω : Type} [DecidableEq Domain] [DecidableEq Status]
    (N : Net Domain IP Status ω) (zones : List Domain) (st : MonitorSt Domain ω) :
    MonitorSt Domain ω :=
  match gatherPublicIPs N st.world st.log with
  | ((w1, log1), _, publicIPs, publicIPstrs) =>
    updateMetrics N zones publicIPs publicIPstrs { st with world := w1, log := log1 }

/-- A network with two addresses of which `10.0.0.1` is private, and a list
in which the zone `bl.example` has the address `192.0.2.1`. -/
def tableNet (listed : Bool) : Net String String String Unit where
  Name := fun z => z
  ipString := fun ip => ip
  IsLoopback := fun ip => ip = "127.0.0.1"
  IsPrivate := fun ip => ip = "10.0.0.1"
  StatusPass := "pass"
  IPs := fun w => if listed = true then (w, Except.ok ["10.0.0.1", "192.0.2.1"])
    else (w, Except.error "no interfaces")
  Lookup := fun w zone ip =>
    if zone = "bl.example" ∧ ip = "192.0.2.1" then (w, "fail", "listed", none)
    else (w, "pass", "", none)

/-- A monitor state with one previous result, for a zone that is no longer
configured, and its gauge. -/
def staleSt : MonitorSt String Unit :=
  { world := (),
    metricDNSBL := fun z i => if z = "old.example" ∧ i = "192.0.2.1" then some 1 else none,
    prevResults := [⟨"old.example", "192.0.2.1"⟩],
    log := [] }

/-- A linear congruential generator as `Rand`. -/
def lcgRand : Rand ℕ where
  NewSource := fun seed => seed.toNat
  Intn := fun g n => ((g * 1103515245 + 12345) % 2147483648, g % n)
  Intn_lt := fun g _ hn => Nat.mod_lt g hn

/-- Insertion sort as `SortSlice`. -/
def insertionSortSlice : SortSlice where
  sort := fun less l => l.insertionSort (fun x y => less y x = false)
  perm := fun less l => List.perm_insertionSort (fun x y => less y x = false) l
  sorted := fun less l hirr htrans hneg => by
    haveI : IsTotal msg (fun x y => less y x = false) :=
      ⟨fun x y => by
        cases hyx : less y x
        · exact Or.inl rfl
        · right
          cases hxy : less x y
          · rfl
          · have := htrans x y x hxy hyx
            rw [hirr x] at this
            exact absurd this (by decide)⟩
    haveI : IsTrans msg (fun x y => less y x = false) :=
      ⟨fun x y z hxy hyz => hneg z y x hyz hxy⟩
    exact List.sorted_insertionSort (fun x y => less y x = false) l

/-! ## Records of calls -/

theorem classifiedCount_append (tr1 tr2 : List Call) :
    classifiedCount (tr1 ++ tr2) = classifiedCount tr1 + classifiedCount tr2 := by
  simp [classifiedCount]

theorem classifyErrorCount_append (tr1 tr2 : List Call) :
    classifyErrorCount (tr1 ++ tr2) = classifyErrorCount tr1 + classifyErrorCount tr2 := by
  simp [classifyErrorCount]

theorem classifyPaths_append (tr1 tr2 : List Call) :
    classifyPaths (tr1 ++ tr2) = classifyPaths tr1 ++ classifyPaths tr2 := by
  simp [classifyPaths]

/-! ## The loop of `cmdJunkTest` -/

/-- What one iteration of the test loop does, on a recorded filter: it makes
one call, a classification of the file; a failure leaves both tallies and the
output alone and logs one line, a success adds one to one tally. -/
theorem cmdJunkTest.testFile_traced {σ : Type} (F : Filter σ) (a : junkArgs) (dir : String)
    (ham : Bool) (st : TestSt (σ × List Call)) (name : String) :
    ∃ res, (cmdJunkTest.testFile (traced F) a dir ham st name).f.2 =
        st.f.2 ++ [Call.ClassifyMessagePath (dir ++ "/" ++ name) res] ∧
      ((∃ e, res = Except.error e ∧
          (cmdJunkTest.testFile (traced F) a dir ham st name).ok = st.ok ∧
          (cmdJunkTest.testFile (traced F) a dir ham st name).bad = st.bad ∧
          (cmdJunkTest.testFile (traced F) a dir ham st name).out = st.out ∧
          (cmdJunkTest.testFile (traced F) a dir ham st name).log.length = st.log.length + 1) ∨
       (∃ v, res = Except.ok v ∧
          (cmdJunkTest.testFile (traced F) a dir ham st name).ok +
            (cmdJunkTest.testFile (traced F) a dir ham st name).bad = st.ok + st.bad + 1 ∧
          (∃ lines, (cmdJunkTest.testFile (traced F) a dir ham st name).out = st.out ++ lines) ∧
          (cmdJunkTest.testFile (traced F) a dir ham st name).log = st.log)) := by
  refine ⟨(F.ClassifyMessagePath st.f.1 (dir ++ "/" ++ name)).2, ?_, ?_⟩
  · simp only [cmdJunkTest.testFile, traced]
    cases h : (F.ClassifyMessagePath st.f.1 (dir ++ "/" ++ name)).2 with
    | error e => simp
    | ok v =>
      obtain ⟨prob, w⟩ := v
      simp only []
      split_ifs <;> simp
  · simp only [cmdJunkTest.testFile, traced]
    cases h : (F.ClassifyMessagePath st.f.1 (dir ++ "/" ++ name)).2 with
    | error e => left; exact ⟨e, rfl, by simp⟩
    | ok v =>
      right
      obtain ⟨prob, w⟩ := v
      refine ⟨(prob, w), rfl, ?_⟩
      simp only []
      split_ifs <;> simp <;> omega

/-- The test loop over a directory, on a recorded filter: the calls it adds
are the classifications of the files, in order, one per file; the tallies grow
by the number classified, the log by the number failed. -/
theorem cmdJunkTest.testFiles_traced {σ : Type} (F : Filter σ) (a : junkArgs) (dir : String)
    (ham : Bool) (files : List String) (st : TestSt (σ × List Call)) :
    ∃ calls lines,
      (files.foldl (cmdJunkTest.testFile (traced F) a dir ham) st).f.2 = st.f.2 ++ calls ∧
      (∀ c ∈ calls, (Call.classifyPath? c).isSome = true) ∧
      classifyPaths calls = files.map (fun name => dir ++ "/" ++ name) ∧
      (files.foldl (cmdJunkTest.testFile (traced F) a dir ham) st).ok +
        (files.foldl (cmdJunkTest.testFile (traced F) a dir ham) st).bad =
        st.ok + st.bad + classifiedCount calls ∧
      (files.foldl (cmdJunkTest.testFile (traced F) a dir ham) st).log.length =
        st.log.length + classifyErrorCount calls ∧
      (files.foldl (cmdJunkTest.testFile (traced F) a dir ham) st).out = st.out ++ lines := by
  induction files generalizing st with
  | nil => exact ⟨[], [], by simp [classifyPaths, classifiedCount, classifyErrorCount]⟩
  | cons name rest ih =>
    obtain ⟨res, htr, hcase⟩ := cmdJunkTest.testFile_traced F a dir ham st name
    obtain ⟨calls, lines, h1, h2, h3, h4, h5, h6⟩ :=
      ih (cmdJunkTest.testFile (traced F) a dir ham st name)
    simp only [List.foldl_cons]
    rcases hcase with ⟨e, hres, hok, hbad, hout, hlog⟩ | ⟨v, hres, hsum, ⟨l1, hout⟩, hlog⟩
    · refine ⟨Call.ClassifyMessagePath (dir ++ "/" ++ name) res :: calls, lines, ?_, ?_, ?_, ?_, ?_, ?_⟩
      · rw [h1, htr]; simp
      · intro c hc
        rcases List.mem_cons.mp hc with rfl | hc
        · simp [Call.classifyPath?]
        · exact h2 c hc
      · simp [classifyPaths, Call.classifyPath?] at h3 ⊢; exact h3
      · rw [h4, hok, hbad, hres]
        simp [classifiedCount, Call.isClassified, List.countP_cons]
      · rw [h5, hlog, hres]
        simp [classifyErrorCount, Call.isClassifyError, List.countP_cons]; omega
      · rw [h6, hout]
    · refine ⟨Call.ClassifyMessagePath (dir ++ "/" ++ name) res :: calls, l1 ++ lines, ?_, ?_, ?_, ?_, ?_, ?_⟩
      · rw [h1, htr]; simp
      · intro c hc
        rcases List.mem_cons.mp hc with rfl | hc
        · simp [Call.classifyPath?]
        · exact h2 c hc
      · simp [classifyPaths, Call.classifyPath?] at h3 ⊢; exact h3
      · rw [h4, hres]
        simp [classifiedCount, Call.isClassified, List.countP_cons]; omega
      · rw [h5, hlog, hres]
        simp [classifyErrorCount, Call.isClassifyError, List.countP_cons]
      · rw [h6, hout]; simp

/-- A bind in `Except` that succeeds has a first part that succeeds. -/
theorem bind_eq_ok {ε α β : Type} (x : Except ε α) (f : α → Except ε β) (b : β)
    (h : x >>= f = Except.ok b) : ∃ y, x = Except.ok y ∧ f y = Except.ok b := by
  cases x with
  | error e => simp [bind, Except.bind] at h
  | ok y => exact ⟨y, rfl, h⟩

/-- Go `must` succeeds exactly when the filter was made. -/
theorem must_eq_ok {σ : Type} (x : Except String σ) (f : σ) (h : must x = Except.ok f) :
    x = Except.ok f := by
  cases x with
  | error e => simp [must, throw, throwThe, MonadExceptOf.throw] at h
  | ok y => simp [must, pure, Except.pure] at h; rw [h]

/-- A recorded filter opens when the filter does, with the opening recorded. -/
theorem traced_OpenFilter_eq_ok {σ : Type} (F : Filter σ) (params : Params) (db bloom : String)
    (load : Bool) (s : σ × List Call)
    (h : (traced F).OpenFilter params db bloom load = Except.ok s) :
    F.OpenFilter params db bloom load = Except.ok s.1 ∧
      s.2 = [Call.OpenFilter params db bloom load] := by
  simp only [traced] at h
  cases hF : F.OpenFilter params db bloom load with
  | error e => rw [hF] at h; simp at h
  | ok f0 => rw [hF] at h; simp at h; rw [← h]; simp

/-- A successful `testDir` of `cmdJunkTest` on a recorded filter: the directory
was read and each of its files classified once, in order, and nothing else was
called; the tallies count the classified files and the log grew by one line
for each failure. -/
theorem cmdJunkTest.testDir_traced {σ : Type} (F : Filter σ) (os : OS) (a : junkArgs)
    (dir : String) (ham : Bool) (r0 r1 : Run (σ × List Call)) (nok nbad : ℕ)
    (h : cmdJunkTest.testDir (traced F) os a dir ham r0 = Except.ok (r1, nok, nbad)) :
    ∃ files calls lines,
      os.ReadDir dir = Except.ok files ∧
      r1.f.2 = r0.f.2 ++ calls ∧
      (∀ c ∈ calls, (Call.classifyPath? c).isSome = true) ∧
      classifyPaths calls = files.map (fun name => dir ++ "/" ++ name) ∧
      nok + nbad = classifiedCount calls ∧
      r1.log.length = r0.log.length + classifyErrorCount calls ∧
      r1.out = r0.out ++ lines := by
  unfold cmdJunkTest.testDir at h
  cases hH : os.ReadDir dir with
  | error e => simp [hH, throw, throwThe, MonadExceptOf.throw] at h
  | ok files =>
    simp only [hH, pure, Except.pure] at h
    obtain ⟨calls, lines, h1, h2, h3, h4, h5, h6⟩ :=
      cmdJunkTest.testFiles_traced F a dir ham files
        { f := r0.f, ok := 0, bad := 0, out := r0.out, log := r0.log }
    have hr := Except.ok.inj h
    simp only [Prod.mk.injEq] at hr
    obtain ⟨hr1, hr2, hr3⟩ := hr
    refine ⟨files, calls, lines, rfl, ?_, h2, h3, ?_, ?_, ?_⟩
    · rw [← hr1]; exact h1
    · rw [← hr2, ← hr3, h4]; simp
    · rw [← hr1]; exact h5
    · rw [← hr1]; exact h6

/-- A successful run of `cmdJunkTest` on a recorded filter: the filter was
opened, each file of the ham directory and then of the spam directory was
classified once, and the filter was closed; nothing else was called. The
tallies count the classified messages of their class, the log the failures. -/
theorem cmdJunkTest_traced {σ : Type} (F : Filter σ) (os : OS) (a : junkArgs)
    (args : List String) (r : Run (σ × List Call))
    (h : cmdJunkTest (traced F) os a args = Except.ok r) :
    ∃ hamDir spamDir hamFiles spamFiles callsH callsS lines nhamok nhambad nspamok nspambad,
      args = [hamDir, spamDir] ∧
      os.ReadDir hamDir = Except.ok hamFiles ∧ os.ReadDir spamDir = Except.ok spamFiles ∧
      r.f.2 = Call.OpenFilter a.params a.databasePath a.bloomfilterPath false ::
        (callsH ++ callsS) ++ [Call.Close] ∧
      (∀ c ∈ callsH ++ callsS, (Call.classifyPath? c).isSome = true) ∧
      classifyPaths callsH = hamFiles.map (fun name => hamDir ++ "/" ++ name) ∧
      classifyPaths callsS = spamFiles.map (fun name => spamDir ++ "/" ++ name) ∧
      r.out = lines ++ [Line.totalHam nhamok nhambad none, Line.totalSpam nspamok nspambad none]
        ++ ratioLines nhamok nhambad nspamok nspambad ∧
      nhamok + nhambad = classifiedCount callsH ∧
      nspamok + nspambad = classifiedCount callsS ∧
      r.log.length = classifyErrorCount (callsH ++ callsS) := by
  unfold cmdJunkTest at h
  split at h
  next hamDir spamDir =>
    obtain ⟨f0, hopen, h⟩ := bind_eq_ok _ _ _ h
    obtain ⟨hopenF, hf0⟩ := traced_OpenFilter_eq_ok F _ _ _ _ _ (must_eq_ok _ _ hopen)
    obtain ⟨⟨r1, nhamok, nhambad⟩, hd1, h⟩ := bind_eq_ok _ _ _ h
    obtain ⟨⟨r2, nspamok, nspambad⟩, hd2, h⟩ := bind_eq_ok _ _ _ h
    obtain ⟨hamFiles, callsH, linesH, a1, a2, a3, a4, a5, a6, a7⟩ :=
      cmdJunkTest.testDir_traced F os a hamDir true _ r1 nhamok nhambad hd1
    obtain ⟨spamFiles, callsS, linesS, b1, b2, b3, b4, b5, b6, b7⟩ :=
      cmdJunkTest.testDir_traced F os a spamDir false _ r2 nspamok nspambad hd2
    have hr := (Except.ok.inj h).symm
    refine ⟨hamDir, spamDir, hamFiles, spamFiles, callsH, callsS, linesH ++ linesS,
      nhamok, nhambad, nspamok, nspambad, rfl, a1, b1, ?_, ?_, a4, b4, ?_, a5, b5, ?_⟩
    · rw [hr]
      simp only [traced]
      rw [b2, a2, hf0]
      simp
    · intro c hc
      rcases List.mem_append.mp hc with hc | hc
      · exact a3 c hc
      · exact b3 c hc
    · rw [hr]
      simp only []
      rw [b7, a7]
      simp
    · rw [hr]
      simp only []
      rw [b6, a6, classifyErrorCount_append]
      simp
  next => simp [throw, throwThe, MonadExceptOf.throw] at h

/-! ## The recorded filter, method by method -/

theorem traced_TrainDirs {σ : Type} (F : Filter σ) (s : σ × List Call)
    (hamDir sentDir spamDir : String) (hamFiles sentFiles spamFiles : List String) :
    (traced F).TrainDirs s hamDir sentDir spamDir hamFiles sentFiles spamFiles =
      (((F.TrainDirs s.1 hamDir sentDir spamDir hamFiles sentFiles spamFiles).1,
        s.2 ++ [Call.TrainDirs hamDir sentDir spamDir hamFiles sentFiles spamFiles
          (F.TrainDirs s.1 hamDir sentDir spamDir hamFiles sentFiles spamFiles).2]),
       (F.TrainDirs s.1 hamDir sentDir spamDir hamFiles sentFiles spamFiles).2) := rfl

theorem traced_Close {σ : Type} (F : Filter σ) (s : σ × List Call) :
    (traced F).Close s = (F.Close s.1, s.2 ++ [Call.Close]) := rfl

theorem traced_Save {σ : Type} (F : Filter σ) (s : σ × List Call) :
    (traced F).Save s = (((F.Save s.1).1, s.2 ++ [Call.Save (F.Save s.1).2]), (F.Save s.1).2) :=
  rfl

theorem traced_Train {σ : Type} (F : Filter σ) (s : σ × List Call) (ham : Bool) (words : Words) :
    (traced F).Train s ham words =
      (((F.Train s.1 ham words).1, s.2 ++ [Call.Train ham words (F.Train s.1 ham words).2]),
       (F.Train s.1 ham words).2) := rfl

theorem traced_ParseMessage {σ : Type} (F : Filter σ) (s : σ × List Call) (p : Part) :
    (traced F).ParseMessage s p =
      (((F.ParseMessage s.1 p).1, s.2 ++ [Call.ParseMessage p (F.ParseMessage s.1 p).2]),
       (F.ParseMessage s.1 p).2) := rfl

theorem traced_ClassifyMessagePath {σ : Type} (F : Filter σ) (s : σ × List Call)
    (path : String) :
    (traced F).ClassifyMessagePath s path =
      (((F.ClassifyMessagePath s.1 path).1,
        s.2 ++ [Call.ClassifyMessagePath path (F.ClassifyMessagePath s.1 path).2]),
       (F.ClassifyMessagePath s.1 path).2) := rfl

/-- A recorded filter is made when the filter is, with the making recorded. -/
theorem traced_NewFilter_eq_ok {σ : Type} (F : Filter σ) (params : Params) (db bloom : String)
    (s : σ × List Call) (h : (traced F).NewFilter params db bloom = Except.ok s) :
    F.NewFilter params db bloom = Except.ok s.1 ∧ s.2 = [Call.NewFilter params db bloom] := by
  simp only [traced] at h
  cases hF : F.NewFilter params db bloom with
  | error e => rw [hF] at h; simp at h
  | ok f0 => rw [hF] at h; simp at h; rw [← h]; simp

/-- Go `xcheckf` lets the command go on only when there was no error. -/
theorem xcheckf_eq_ok (err : Option String) (what : String) (u : Unit)
    (h : xcheckf err what = Except.ok u) : err = none := by
  cases err with
  | none => rfl
  | some e => simp [xcheckf, throw, throwThe, MonadExceptOf.throw] at h

/-! ## The loop of `cmdJunkAnalyze` -/

/-- What one iteration of the analyze loop does, on a recorded filter: it makes
one call, a classification of the file; a failure leaves both tallies and the
output alone and adds one to `malformed`, a success adds one to one tally. -/
theorem cmdJunkAnalyze.analyzeFile_traced {σ : Type} (F : Filter σ) (a : junkArgs) (dir : String)
    (ham : Bool) (st : AnalyzeSt (σ × List Call)) (name : String) :
    ∃ res, (cmdJunkAnalyze.testFile (traced F) a dir ham st name).f.2 =
        st.f.2 ++ [Call.ClassifyMessagePath (dir ++ "/" ++ name) res] ∧
      ((∃ e, res = Except.error e ∧
          (cmdJunkAnalyze.testFile (traced F) a dir ham st name).ok = st.ok ∧
          (cmdJunkAnalyze.testFile (traced F) a dir ham st name).bad = st.bad ∧
          (cmdJunkAnalyze.testFile (traced F) a dir ham st name).out = st.out ∧
          (cmdJunkAnalyze.testFile (traced F) a dir ham st name).malformed =
            st.malformed + 1) ∨
       (∃ v, res = Except.ok v ∧
          (cmdJunkAnalyze.testFile (traced F) a dir ham st name).ok +
            (cmdJunkAnalyze.testFile (traced F) a dir ham st name).bad = st.ok + st.bad + 1 ∧
          (∃ lines,
            (cmdJunkAnalyze.testFile (traced F) a dir ham st name).out = st.out ++ lines) ∧
          (cmdJunkAnalyze.testFile (traced F) a dir ham st name).malformed = st.malformed)) := by
  refine ⟨(F.ClassifyMessagePath st.f.1 (dir ++ "/" ++ name)).2, ?_, ?_⟩
  · simp only [cmdJunkAnalyze.testFile, traced]
    cases h : (F.ClassifyMessagePath st.f.1 (dir ++ "/" ++ name)).2 with
    | error e => simp
    | ok v =>
      obtain ⟨prob, w⟩ := v
      simp only []
      split_ifs <;> simp
  · simp only [cmdJunkAnalyze.testFile, traced]
    cases h : (F.ClassifyMessagePath st.f.1 (dir ++ "/" ++ name)).2 with
    | error e => left; exact ⟨e, rfl, by simp⟩
    | ok v =>
      right
      obtain ⟨prob, w⟩ := v
      refine ⟨(prob, w), rfl, ?_⟩
      simp only []
      split_ifs <;> simp <;> omega

/-- The analyze loop over a list of files, on a recorded filter. -/
theorem cmdJunkAnalyze.analyzeFiles_traced {σ : Type} (F : Filter σ) (a : junkArgs)
    (dir : String) (ham : Bool) (files : List String) (st : AnalyzeSt (σ × List Call)) :
    ∃ calls lines,
      (files.foldl (cmdJunkAnalyze.testFile (traced F) a dir ham) st).f.2 = st.f.2 ++ calls ∧
      (∀ c ∈ calls, (Call.classifyPath? c).isSome = true) ∧
      classifyPaths calls = files.map (fun name => dir ++ "/" ++ name) ∧
      (files.foldl (cmdJunkAnalyze.testFile (traced F) a dir ham) st).ok +
        (files.foldl (cmdJunkAnalyze.testFile (traced F) a dir ham) st).bad =
        st.ok + st.bad + classifiedCount calls ∧
      (files.foldl (cmdJunkAnalyze.testFile (traced F) a dir ham) st).malformed =
        st.malformed + classifyErrorCount calls ∧
      (files.foldl (cmdJunkAnalyze.testFile (traced F) a dir ham) st).out = st.out ++ lines := by
  induction files generalizing st with
  | nil => exact ⟨[], [], by simp [classifyPaths, classifiedCount, classifyErrorCount]⟩
  | cons name rest ih =>
    obtain ⟨res, htr, hcase⟩ := cmdJunkAnalyze.analyzeFile_traced F a dir ham st name
    obtain ⟨calls, lines, h1, h2, h3, h4, h5, h6⟩ :=
      ih (cmdJunkAnalyze.testFile (traced F) a dir ham st name)
    simp only [List.foldl_cons]
    rcases hcase with ⟨e, hres, hok, hbad, hout, hmal⟩ | ⟨v, hres, hsum, ⟨l1, hout⟩, hmal⟩
    · refine ⟨Call.ClassifyMessagePath (dir ++ "/" ++ name) res :: calls, lines,
        ?_, ?_, ?_, ?_, ?_, ?_⟩
      · rw [h1, htr]; simp
      · intro c hc
        rcases List.mem_cons.mp hc with rfl | hc
        · simp [Call.classifyPath?]
        · exact h2 c hc
      · simp [classifyPaths, Call.classifyPath?] at h3 ⊢; exact h3
      · rw [h4, hok, hbad, hres]
        simp [classifiedCount, Call.isClassified, List.countP_cons]
      · rw [h5, hmal, hres]
        simp [classifyErrorCount, Call.isClassifyError, List.countP_cons]; omega
      · rw [h6, hout]
    · refine ⟨Call.ClassifyMessagePath (dir ++ "/" ++ name) res :: calls, l1 ++ lines,
        ?_, ?_, ?_, ?_, ?_, ?_⟩
      · rw [h1, htr]; simp
      · intro c hc
        rcases List.mem_cons.mp hc with rfl | hc
        · simp [Call.classifyPath?]
        · exact h2 c hc
      · simp [classifyPaths, Call.classifyPath?] at h3 ⊢; exact h3
      · rw [h4, hres]
        simp [classifiedCount, Call.isClassified, List.countP_cons]; omega
      · rw [h5, hmal, hres]
        simp [classifyErrorCount, Call.isClassifyError, List.countP_cons]
      · rw [h6, hout]; simp

/-- Go `testDir` of `cmdJunkAnalyze` on a recorded filter: each file was
classified once, in order, and nothing else was called; the tallies count the
classified files, `malformed` the failures. -/
theorem cmdJunkAnalyze.analyzeDir_traced {σ : Type} (F : Filter σ) (a : junkArgs) (dir : String)
    (files : List String) (ham : Bool) (f : σ × List Call) (out : List Line) :
    ∃ calls lines,
      (cmdJunkAnalyze.testDir (traced F) a dir files ham f out).f.2 = f.2 ++ calls ∧
      (∀ c ∈ calls, (Call.classifyPath? c).isSome = true) ∧
      classifyPaths calls = files.map (fun name => dir ++ "/" ++ name) ∧
      (cmdJunkAnalyze.testDir (traced F) a dir files ham f out).ok +
        (cmdJunkAnalyze.testDir (traced F) a dir files ham f out).bad = classifiedCount calls ∧
      (cmdJunkAnalyze.testDir (traced F) a dir files ham f out).malformed =
        classifyErrorCount calls ∧
      (cmdJunkAnalyze.testDir (traced F) a dir files ham f out).out = out ++ lines := by
  obtain ⟨calls, lines, h1, h2, h3, h4, h5, h6⟩ :=
    cmdJunkAnalyze.analyzeFiles_traced F a dir ham files
      { f := f, ok := 0, bad := 0, malformed := 0, out := out }
  exact ⟨calls, lines, h1, h2, h3, by simpa [cmdJunkAnalyze.testDir] using h4,
    by simpa [cmdJunkAnalyze.testDir] using h5, h6⟩

/-- Go `listDir` succeeds exactly when the directory can be read. -/
theorem listDir_eq_ok (os : OS) (dir : String) (l : List String)
    (h : listDir os dir = Except.ok l) : os.ReadDir dir = Except.ok l := by
  unfold listDir at h
  cases hx : os.ReadDir dir with
  | error e => simp [hx, throw, throwThe, MonadExceptOf.throw] at h
  | ok l1 => simp [hx, pure, Except.pure] at h; rw [h]

/-- A successful run of `cmdJunkAnalyze` on a recorded filter: a new filter was
made and trained on the training lists, each test file was classified once
(ham first), and the filter was closed. The tallies count the classified test
messages of their class, the malformed counts the failures. -/
theorem cmdJunkAnalyze_traced {σ ρ : Type} (F : Filter σ) (os : OS) (R : Rand ρ)
    (a : junkArgs) (args : List String) (r : Run (σ × List Call))
    (h : cmdJunkAnalyze (traced F) os R a args = Except.ok r) :
    ∃ hamDir spamDir hamFiles spamFiles sp trainSent callsH callsS lines
      nhamok nhambad nspamok nspambad,
      args = [hamDir, spamDir] ∧
      os.ReadDir hamDir = Except.ok hamFiles ∧ os.ReadDir spamDir = Except.ok spamFiles ∧
      cmdJunkAnalyze.split R os a hamFiles spamFiles = Except.ok sp ∧
      r.f.2 = [Call.NewFilter a.params a.databasePath a.bloomfilterPath,
               Call.TrainDirs hamDir a.sentDir spamDir sp.trainHam trainSent sp.trainSpam none]
        ++ (callsH ++ callsS) ++ [Call.Close] ∧
      (∀ c ∈ callsH ++ callsS, (Call.classifyPath? c).isSome = true) ∧
      classifyPaths callsH = sp.testHam.map (fun name => hamDir ++ "/" ++ name) ∧
      classifyPaths callsS = sp.testSpam.map (fun name => spamDir ++ "/" ++ name) ∧
      r.out = lines ++ [Line.totalHam nhamok nhambad (some (classifyErrorCount callsH)),
                        Line.totalSpam nspamok nspambad (some (classifyErrorCount callsS))]
        ++ ratioLines nhamok nhambad nspamok nspambad ∧
      nhamok + nhambad = classifiedCount callsH ∧
      nspamok + nspambad = classifiedCount callsS := by
  unfold cmdJunkAnalyze at h
  split at h
  next hamDir spamDir =>
    obtain ⟨f0, hnew, h⟩ := bind_eq_ok _ _ _ h
    obtain ⟨hnewF, hf0⟩ := traced_NewFilter_eq_ok F _ _ _ _ (must_eq_ok _ _ hnew)
    obtain ⟨hamFiles, hH, h⟩ := bind_eq_ok _ _ _ h
    obtain ⟨spamFiles, hS, h⟩ := bind_eq_ok _ _ _ h
    obtain ⟨sp, hsp, h⟩ := bind_eq_ok _ _ _ h
    obtain ⟨trainSent, hsent, h⟩ := bind_eq_ok _ _ _ h
    simp only [traced_TrainDirs] at h
    obtain ⟨u, herr, h⟩ := bind_eq_ok _ _ _ h
    have herr1 := xcheckf_eq_ok _ _ _ herr
    rw [herr1] at h
    obtain ⟨callsH, linesH, a1, a2, a3, a4, a5, a6⟩ :=
      cmdJunkAnalyze.analyzeDir_traced F a hamDir sp.testHam true
        ((F.TrainDirs f0.1 hamDir a.sentDir spamDir sp.trainHam trainSent sp.trainSpam).1,
          f0.2 ++ [Call.TrainDirs hamDir a.sentDir spamDir sp.trainHam trainSent sp.trainSpam
            none]) []
    generalize cmdJunkAnalyze.testDir (traced F) a hamDir sp.testHam true
        ((F.TrainDirs f0.1 hamDir a.sentDir spamDir sp.trainHam trainSent sp.trainSpam).1,
          f0.2 ++ [Call.TrainDirs hamDir a.sentDir spamDir sp.trainHam trainSent sp.trainSpam
            none]) [] = H at h a1 a4 a5 a6
    obtain ⟨callsS, linesS, b1, b2, b3, b4, b5, b6⟩ :=
      cmdJunkAnalyze.analyzeDir_traced F a spamDir sp.testSpam false H.f H.out
    generalize cmdJunkAnalyze.testDir (traced F) a spamDir sp.testSpam false H.f H.out = S
      at h b1 b4 b5 b6
    have hr := (Except.ok.inj h).symm
    refine ⟨hamDir, spamDir, hamFiles, spamFiles, sp, trainSent, callsH, callsS,
      linesH ++ linesS ++ [Line.trainingDone sp.ntrainham trainSent.length sp.ntrainspam],
      H.ok, H.bad, S.ok, S.bad, rfl, listDir_eq_ok _ _ _ hH, listDir_eq_ok _ _ _ hS, hsp,
      ?_, ?_, a3, b3, ?_, a4, b4⟩
    · rw [hr]
      simp only [traced_Close]
      rw [b1, a1, hf0]
      simp
    · intro c hc
      rcases List.mem_append.mp hc with hc | hc
      · exact a2 c hc
      · exact b2 c hc
    · rw [hr]
      simp only []
      rw [b6, a6, b5, a5]
      simp
  next => simp [throw, throwThe, MonadExceptOf.throw] at h

/-! ## `play` and the loop of `cmdJunkPlay` -/

/-- Training in `play` on a recorded filter: one `Train` call with the label
of the message, and no counter changes. -/
theorem cmdJunkPlay.train_traced {σ : Type} (F : Filter σ) (m : msg) (words : Words)
    (st : PlaySt (σ × List Call)) :
    (cmdJunkPlay.train (traced F) m words st).f.2 =
      st.f.2 ++ [Call.Train m.ham words (F.Train st.f.1 m.ham words).2] ∧
    (cmdJunkPlay.train (traced F) m words st).nbad = st.nbad ∧
    (cmdJunkPlay.train (traced F) m words st).nhamok = st.nhamok ∧
    (cmdJunkPlay.train (traced F) m words st).nhambad = st.nhambad ∧
    (cmdJunkPlay.train (traced F) m words st).nspamok = st.nspamok ∧
    (cmdJunkPlay.train (traced F) m words st).nspambad = st.nspambad := by
  unfold cmdJunkPlay.train
  rw [traced_Train]
  cases h : (F.Train st.f.1 m.ham words).2 <;> simp

/-- What `play` does with one message, on a recorded filter. A message that is
not a sent one is classified, and trained on when that succeeds: a failure
adds one to `nbad` and leaves the tallies, a success adds one to one tally. A
sent message is never classified and changes neither `nbad` nor a tally. -/
theorem cmdJunkPlay.play_traced {σ : Type} (F : Filter σ) (os : OS) (a : junkArgs)
    (st st1 : PlaySt (σ × List Call)) (m : msg)
    (h : cmdJunkPlay.play (traced F) os a st m = Except.ok st1) :
    ∃ calls, st1.f.2 = st.f.2 ++ calls ∧
      classifyPaths calls = (if m.sent = false then [m.dir ++ "/" ++ m.filename] else []) ∧
      st1.nhamok + st1.nhambad + st1.nspamok + st1.nspambad =
        st.nhamok + st.nhambad + st.nspamok + st.nspambad + classifiedCount calls ∧
      st1.nbad = st.nbad + classifyErrorCount calls := by
  unfold cmdJunkPlay.play at h
  by_cases hs : m.sent = false
  · simp only [hs, if_true, traced_ClassifyMessagePath] at h ⊢
    cases hc : (F.ClassifyMessagePath st.f.1 (m.dir ++ "/" ++ m.filename)).2 with
    | error e =>
      rw [hc] at h
      simp only [pure, Except.pure] at h
      have hr := (Except.ok.inj h).symm
      refine ⟨[Call.ClassifyMessagePath (m.dir ++ "/" ++ m.filename) (Except.error e)], ?_⟩
      rw [hr]
      simp [classifyPaths, classifiedCount, classifyErrorCount, Call.classifyPath?,
        Call.isClassified, Call.isClassifyError]
    | ok v =>
      obtain ⟨prob, words⟩ := v
      rw [hc] at h
      simp only [pure, Except.pure] at h
      have hr := (Except.ok.inj h).symm
      refine ⟨[Call.ClassifyMessagePath (m.dir ++ "/" ++ m.filename) (Except.ok (prob, words)),
        Call.Train m.ham words
          (F.Train (F.ClassifyMessagePath st.f.1 (m.dir ++ "/" ++ m.filename)).1 m.ham words).2],
        ?_⟩
      rw [hr]
      split_ifs <;>
        simp [cmdJunkPlay.train_traced, classifyPaths, classifiedCount, classifyErrorCount,
          Call.classifyPath?, Call.isClassified, Call.isClassifyError] <;> omega
  · have hs1 : m.sent = true := by simpa using hs
    simp only [hs1, Bool.true_eq_false, if_false] at h ⊢
    cases hO : os.Open (m.dir ++ "/" ++ m.filename) with
    | some e => simp [hO, throw, throwThe, MonadExceptOf.throw] at h
    | none =>
      cases hS : os.Stat (m.dir ++ "/" ++ m.filename) with
      | some e => simp [hO, hS, throw, throwThe, MonadExceptOf.throw] at h
      | none =>
        simp only [hO, hS] at h
        cases hP : os.EnsurePart (m.dir ++ "/" ++ m.filename) with
        | error e =>
          simp only [hP, pure, Except.pure] at h
          have hr := (Except.ok.inj h).symm
          refine ⟨[], ?_⟩
          rw [hr]
          simp [classifyPaths, classifiedCount, classifyErrorCount]
        | ok p =>
          simp only [hP, traced_ParseMessage] at h
          cases hM : (F.ParseMessage st.f.1 p).2 with
          | error e =>
            rw [hM] at h
            simp only [pure, Except.pure] at h
            have hr := (Except.ok.inj h).symm
            refine ⟨[Call.ParseMessage p (Except.error e)], ?_⟩
            rw [hr]
            simp [classifyPaths, classifiedCount, classifyErrorCount, Call.classifyPath?,
              Call.isClassified, Call.isClassifyError]
          | ok words =>
            rw [hM] at h
            simp only [pure, Except.pure] at h
            have hr := (Except.ok.inj h).symm
            refine ⟨[Call.ParseMessage p (Except.ok words),
              Call.Train m.ham words (F.Train (F.ParseMessage st.f.1 p).1 m.ham words).2], ?_⟩
            rw [hr]
            simp [cmdJunkPlay.train_traced, classifyPaths, classifiedCount, classifyErrorCount,
              Call.classifyPath?, Call.isClassified, Call.isClassifyError]

/-- The replay loop on a recorded filter, when it runs to its end: the
classifications it makes are those of the messages that are not sent ones, in
the order of the list; the tallies grow by the number classified and `nbad`
by the number of failed classifications. -/
theorem cmdJunkPlay.playAll_traced {σ : Type} (F : Filter σ) (os : OS) (a : junkArgs)
    (msgs : List msg) (st st1 : PlaySt (σ × List Call))
    (h : msgs.foldlM (cmdJunkPlay.play (traced F) os a) st = Except.ok st1) :
    ∃ calls, st1.f.2 = st.f.2 ++ calls ∧
      classifyPaths calls =
        (msgs.filter (fun m => m.sent = false)).map (fun m => m.dir ++ "/" ++ m.filename) ∧
      st1.nhamok + st1.nhambad + st1.nspamok + st1.nspambad =
        st.nhamok + st.nhambad + st.nspamok + st.nspambad + classifiedCount calls ∧
      st1.nbad = st.nbad + classifyErrorCount calls := by
  induction msgs generalizing st with
  | nil =>
    simp only [List.foldlM_nil, pure, Except.pure] at h
    have hr := (Except.ok.inj h).symm
    exact ⟨[], by rw [hr]; simp [classifyPaths, classifiedCount, classifyErrorCount]⟩
  | cons m rest ih =>
    rw [List.foldlM_cons] at h
    obtain ⟨st2, h1, h2⟩ := bind_eq_ok _ _ _ h
    obtain ⟨c1, a1, a2, a3, a4⟩ := cmdJunkPlay.play_traced F os a st st2 m h1
    obtain ⟨c2, b1, b2, b3, b4⟩ := ih st2 h2
    refine ⟨c1 ++ c2, ?_, ?_, ?_, ?_⟩
    · rw [b1, a1]; simp
    · rw [classifyPaths_append, a2, b2]
      by_cases hs : m.sent = false <;> simp [hs]
    · rw [b3, a3, classifiedCount_append]; omega
    · rw [b4, a4, classifyErrorCount_append]; omega

/-- A successful run of `cmdJunkPlay` on a recorded filter: a new filter was
made, the scanned messages were played earliest first, the filter was saved
and closed. The messages that are not sent ones were classified, in replay
order; the tallies count the classified ones, and `nbad` ends as the count of
the scan plus the number of failed classifications. -/
theorem cmdJunkPlay_traced {σ : Type} (F : Filter σ) (os : OS) (S : SortSlice)
    (a : junkArgs) (args : List String) (r : Run (σ × List Call))
    (h : cmdJunkPlay (traced F) os S a args = Except.ok r) :
    ∃ hamDir spamDir sc calls nhamok nhambad nspamok nspambad,
      args = [hamDir, spamDir] ∧
      cmdJunkPlay.scan os a hamDir spamDir = Except.ok sc ∧
      r.f.2 = [Call.NewFilter a.params a.databasePath a.bloomfilterPath] ++ calls ++
        [Call.Save none, Call.Close] ∧
      classifyPaths calls = ((cmdJunkPlay.replay S sc).filter (fun m => m.sent = false)).map
        (fun m => m.dir ++ "/" ++ m.filename) ∧
      r.out = [Line.completed sc.nham sc.nsent sc.nspam (sc.nbad + classifyErrorCount calls)
                 sc.nnodate] ++
        [Line.totalHam nhamok nhambad none, Line.totalSpam nspamok nspambad none]
        ++ ratioLines nhamok nhambad nspamok nspambad ∧
      nhamok + nhambad + nspamok + nspambad = classifiedCount calls := by
  unfold cmdJunkPlay at h
  split at h
  next hamDir spamDir =>
    obtain ⟨f0, hnew, h⟩ := bind_eq_ok _ _ _ h
    obtain ⟨hnewF, hf0⟩ := traced_NewFilter_eq_ok F _ _ _ _ (must_eq_ok _ _ hnew)
    obtain ⟨sc, hsc, h⟩ := bind_eq_ok _ _ _ h
    obtain ⟨st, hst, h⟩ := bind_eq_ok _ _ _ h
    simp only [traced_Save] at h
    obtain ⟨u, herr, h⟩ := bind_eq_ok _ _ _ h
    have herr1 := xcheckf_eq_ok _ _ _ herr
    obtain ⟨calls, a1, a2, a3, a4⟩ := cmdJunkPlay.playAll_traced F os a _ _ st hst
    have hr := (Except.ok.inj h).symm
    refine ⟨hamDir, spamDir, sc, calls, st.nhamok, st.nhambad, st.nspamok, st.nspambad,
      rfl, hsc, ?_, a2, ?_, ?_⟩
    · rw [hr]
      simp only [traced_Close]
      rw [a1, hf0, herr1]
      simp
    · rw [hr]
      simp only []
      rw [a4]
      simp
    · simpa using a3
  next => simp [throw, throwThe, MonadExceptOf.throw] at h

/-! ## Recording the calls changes nothing else -/

theorem cmdJunkTest.testFile_erase {σ : Type} (F : Filter σ) (a : junkArgs) (dir : String)
    (ham : Bool) (st : TestSt (σ × List Call)) (name : String) :
    (cmdJunkTest.testFile (traced F) a dir ham st name).erase =
      cmdJunkTest.testFile F a dir ham st.erase name := by
  simp only [cmdJunkTest.testFile, traced_ClassifyMessagePath, TestSt.erase]
  rcases hp : F.ClassifyMessagePath st.f.1 (dir ++ "/" ++ name) with ⟨f1, res⟩
  cases res with
  | error e => simp
  | ok v =>
    obtain ⟨prob, w⟩ := v
    simp only []
    split_ifs <;> rfl

theorem cmdJunkTest.testFiles_erase {σ : Type} (F : Filter σ) (a : junkArgs) (dir : String)
    (ham : Bool) (files : List String) (st : TestSt (σ × List Call)) :
    (files.foldl (cmdJunkTest.testFile (traced F) a dir ham) st).erase =
      files.foldl (cmdJunkTest.testFile F a dir ham) st.erase := by
  induction files generalizing st with
  | nil => rfl
  | cons name rest ih =>
    simp only [List.foldl_cons]
    rw [ih, cmdJunkTest.testFile_erase]

theorem cmdJunkTest.testDir_erase {σ : Type} (F : Filter σ) (os : OS) (a : junkArgs)
    (dir : String) (ham : Bool) (r : Run (σ × List Call)) :
    (cmdJunkTest.testDir (traced F) os a dir ham r).map (fun x => (x.1.erase, x.2)) =
      cmdJunkTest.testDir F os a dir ham r.erase := by
  unfold cmdJunkTest.testDir
  cases os.ReadDir dir with
  | error e => rfl
  | ok files =>
    have h := cmdJunkTest.testFiles_erase F a dir ham files
      { f := r.f, ok := 0, bad := 0, out := r.out, log := r.log }
    simp only [TestSt.erase] at h
    simp only [pure, Except.pure, Except.map, Run.erase]
    have h1 := congrArg TestSt.f h
    have h2 := congrArg TestSt.ok h
    have h3 := congrArg TestSt.bad h
    have h4 := congrArg TestSt.out h
    have h5 := congrArg TestSt.log h
    simp only at h1 h2 h3 h4 h5
    rw [h1, h2, h3, h4, h5]

theorem traced_OpenFilter_erase {σ : Type} (F : Filter σ) (params : Params) (db bloom : String)
    (load : Bool) :
    ((traced F).OpenFilter params db bloom load).map Prod.fst =
      F.OpenFilter params db bloom load := by
  simp only [traced]
  cases F.OpenFilter params db bloom load <;> rfl

/-- Recording the calls does not change what `cmdJunkTest` does. -/
theorem cmdJunkTest_erase {σ : Type} (F : Filter σ) (os : OS) (a : junkArgs)
    (args : List String) :
    (cmdJunkTest (traced F) os a args).map Run.erase = cmdJunkTest F os a args := by
  unfold cmdJunkTest
  split
  next hamDir spamDir =>
    have ho := traced_OpenFilter_erase F a.params a.databasePath a.bloomfilterPath false
    cases hT : (traced F).OpenFilter a.params a.databasePath a.bloomfilterPath false with
    | error e =>
      rw [hT] at ho
      simp only [Except.map] at ho
      rw [← ho]
      rfl
    | ok f0 =>
      rw [hT] at ho
      simp only [Except.map] at ho
      rw [← ho]
      simp only [must, pure, Except.pure, bind, Except.bind]
      have h1 := cmdJunkTest.testDir_erase F os a hamDir true { f := f0, out := [], log := [] }
      simp only [Run.erase] at h1
      rw [← h1]
      cases hd1 : cmdJunkTest.testDir (traced F) os a hamDir true
          { f := f0, out := [], log := [] } with
      | error e => rfl
      | ok x =>
        obtain ⟨r1, n1, n2⟩ := x
        simp only [Except.map]
        have h2 := cmdJunkTest.testDir_erase F os a spamDir false r1
        simp only [Run.erase] at h2
        rw [← h2]
        cases hd2 : cmdJunkTest.testDir (traced F) os a spamDir false r1 with
        | error e => rfl
        | ok y =>
          obtain ⟨r2, n3, n4⟩ := y
          simp only [Except.map, Run.erase, traced_Close]
  next => rfl

theorem cmdJunkAnalyze.analyzeFile_erase {σ : Type} (F : Filter σ) (a : junkArgs) (dir : String)
    (ham : Bool) (st : AnalyzeSt (σ × List Call)) (name : String) :
    (cmdJunkAnalyze.testFile (traced F) a dir ham st name).erase =
      cmdJunkAnalyze.testFile F a dir ham st.erase name := by
  simp only [cmdJunkAnalyze.testFile, traced_ClassifyMessagePath, AnalyzeSt.erase]
  rcases hp : F.ClassifyMessagePath st.f.1 (dir ++ "/" ++ name) with ⟨f1, res⟩
  cases res with
  | error e => simp
  | ok v =>
    obtain ⟨prob, w⟩ := v
    simp only []
    split_ifs <;> rfl

theorem cmdJunkAnalyze.analyzeDir_erase {σ : Type} (F : Filter σ) (a : junkArgs) (dir : String)
    (files : List String) (ham : Bool) (f : σ × List Call) (out : List Line) :
    (cmdJunkAnalyze.testDir (traced F) a dir files ham f out).erase =
      cmdJunkAnalyze.testDir F a dir files ham f.1 out := by
  unfold cmdJunkAnalyze.testDir
  have key : ∀ st : AnalyzeSt (σ × List Call),
      (files.foldl (cmdJunkAnalyze.testFile (traced F) a dir ham) st).erase =
        files.foldl (cmdJunkAnalyze.testFile F a dir ham) st.erase := by
    induction files with
    | nil => intro st; rfl
    | cons name rest ih =>
      intro st
      simp only [List.foldl_cons]
      rw [ih, cmdJunkAnalyze.analyzeFile_erase]
  exact key _

theorem traced_NewFilter_erase {σ : Type} (F : Filter σ) (params : Params) (db bloom : String) :
    ((traced F).NewFilter params db bloom).map Prod.fst = F.NewFilter params db bloom := by
  simp only [traced]
  cases F.NewFilter params db bloom <;> rfl

/-- Mapping over a bind whose two parts are mapped alike. -/
theorem map_bind_sim {ε α α1 β β1 : Type} (x1 : Except ε α1) (x : Except ε α)
    (f1 : α1 → Except ε β1) (f : α → Except ε β) (p : α1 → α) (g : β1 → β)
    (hx : x1.map p = x) (hf : ∀ y, (f1 y).map g = f (p y)) :
    (x1 >>= f1).map g = x >>= f := by
  subst hx
  cases x1 with
  | error e => rfl
  | ok y => exact hf y

/-- Mapping over a bind with the same first part. -/
theorem map_bind_same {ε α β β1 : Type} (x : Except ε α)
    (f1 : α → Except ε β1) (f : α → Except ε β) (g : β1 → β)
    (hf : ∀ y, (f1 y).map g = f y) :
    (x >>= f1).map g = x >>= f := by
  cases x with
  | error e => rfl
  | ok y => exact hf y

theorem must_map {σ τ : Type} (x : Except String σ) (p : σ → τ) :
    (must x).map p = must (x.map p) := by
  cases x <;> rfl

/-- Recording the calls does not change what `cmdJunkAnalyze` does. -/
theorem cmdJunkAnalyze_erase {σ ρ : Type} (F : Filter σ) (os : OS) (R : Rand ρ) (a : junkArgs)
    (args : List String) :
    (cmdJunkAnalyze (traced F) os R a args).map Run.erase = cmdJunkAnalyze F os R a args := by
  unfold cmdJunkAnalyze
  split
  next hamDir spamDir =>
    refine map_bind_sim _ _ _ _ Prod.fst _ ?_ ?_
    · rw [must_map, traced_NewFilter_erase]
    intro f0
    refine map_bind_same _ _ _ _ ?_
    intro hamFiles
    refine map_bind_same _ _ _ _ ?_
    intro spamFiles
    refine map_bind_same _ _ _ _ ?_
    intro sp
    refine map_bind_same _ _ _ _ ?_
    intro trainSent
    simp only [traced_TrainDirs]
    refine map_bind_same _ _ _ _ ?_
    intro u
    simp only [pure, Except.pure, Except.map, Run.erase, traced_Close]
    have e1 := cmdJunkAnalyze.analyzeDir_erase F a hamDir sp.testHam true
      ((F.TrainDirs f0.1 hamDir a.sentDir spamDir sp.trainHam trainSent sp.trainSpam).1,
        f0.2 ++ [Call.TrainDirs hamDir a.sentDir spamDir sp.trainHam trainSent sp.trainSpam
          (F.TrainDirs f0.1 hamDir a.sentDir spamDir sp.trainHam trainSent sp.trainSpam).2]) []
    generalize cmdJunkAnalyze.testDir (traced F) a hamDir sp.testHam true
      ((F.TrainDirs f0.1 hamDir a.sentDir spamDir sp.trainHam trainSent sp.trainSpam).1,
        f0.2 ++ [Call.TrainDirs hamDir a.sentDir spamDir sp.trainHam trainSent sp.trainSpam
          (F.TrainDirs f0.1 hamDir a.sentDir spamDir sp.trainHam trainSent sp.trainSpam).2]) []
      = H at e1 ⊢
    have e2 := cmdJunkAnalyze.analyzeDir_erase F a spamDir sp.testSpam false H.f H.out
    generalize cmdJunkAnalyze.testDir (traced F) a spamDir sp.testSpam false H.f H.out = S
      at e2 ⊢
    simp only at e1
    rw [← e1]
    simp only [AnalyzeSt.erase] at e2 ⊢
    rw [← e2]
  next => rfl

theorem cmdJunkPlay.train_erase {σ : Type} (F : Filter σ) (m : msg) (words : Words)
    (st : PlaySt (σ × List Call)) :
    (cmdJunkPlay.train (traced F) m words st).erase =
      cmdJunkPlay.train F m words st.erase := by
  simp only [cmdJunkPlay.train, traced_Train, PlaySt.erase]
  rcases hp : F.Train st.f.1 m.ham words with ⟨f1, err⟩
  cases err <;> rfl

theorem cmdJunkPlay.play_erase {σ : Type} (F : Filter σ) (os : OS) (a : junkArgs)
    (st : PlaySt (σ × List Call)) (m : msg) :
    (cmdJunkPlay.play (traced F) os a st m).map PlaySt.erase =
      cmdJunkPlay.play F os a st.erase m := by
  unfold cmdJunkPlay.play
  by_cases hs : m.sent = false
  · simp only [hs, if_true, traced_ClassifyMessagePath]
    have hf : st.erase.f = st.f.1 := rfl
    rw [hf]
    rcases hp : F.ClassifyMessagePath st.f.1 (m.dir ++ "/" ++ m.filename) with ⟨f1, res⟩
    cases res with
    | error e => rfl
    | ok v =>
      obtain ⟨prob, words⟩ := v
      simp only [pure, Except.pure, Except.map]
      rw [cmdJunkPlay.train_erase]
      split_ifs <;> rfl
  · have hs1 : m.sent = true := by simpa using hs
    simp only [hs1, Bool.true_eq_false, if_false]
    cases os.Open (m.dir ++ "/" ++ m.filename) with
    | some e => rfl
    | none =>
      cases os.Stat (m.dir ++ "/" ++ m.filename) with
      | some e => rfl
      | none =>
        cases os.EnsurePart (m.dir ++ "/" ++ m.filename) with
        | error e => rfl
        | ok p =>
          simp only [traced_ParseMessage]
          have hf : st.erase.f = st.f.1 := rfl
          rw [hf]
          rcases hp : F.ParseMessage st.f.1 p with ⟨f1, res⟩
          cases res with
          | error e => rfl
          | ok words =>
            simp only [pure, Except.pure, Except.map]
            rw [cmdJunkPlay.train_erase]
            rfl

theorem cmdJunkPlay.playAll_erase {σ : Type} (F : Filter σ) (os : OS) (a : junkArgs)
    (msgs : List msg) (st : PlaySt (σ × List Call)) :
    (msgs.foldlM (cmdJunkPlay.play (traced F) os a) st).map PlaySt.erase =
      msgs.foldlM (cmdJunkPlay.play F os a) st.erase := by
  induction msgs generalizing st with
  | nil => rfl
  | cons m rest ih =>
    rw [List.foldlM_cons, List.foldlM_cons]
    exact map_bind_sim _ _ _ _ PlaySt.erase _ (cmdJunkPlay.play_erase F os a st m)
      (fun st2 => ih st2)

/-- Recording the calls does not change what `cmdJunkPlay` does. -/
theorem cmdJunkPlay_erase {σ : Type} (F : Filter σ) (os : OS) (S : SortSlice) (a : junkArgs)
    (args : List String) :
    (cmdJunkPlay (traced F) os S a args).map Run.erase = cmdJunkPlay F os S a args := by
  unfold cmdJunkPlay
  split
  next hamDir spamDir =>
    refine map_bind_sim _ _ _ _ Prod.fst _ ?_ ?_
    · rw [must_map, traced_NewFilter_erase]
    intro f0
    refine map_bind_same _ _ _ _ ?_
    intro sc
    refine map_bind_sim _ _ _ _ PlaySt.erase _ ?_ ?_
    · exact cmdJunkPlay.playAll_erase F os a _ _
    intro st
    simp only [traced_Save]
    refine map_bind_same _ _ _ _ ?_
    intro u
    rfl
  next => rfl

/-- Recording the calls of its filter changes nothing else in what a command
of an evaluation mode does: without the record, the run is the same. -/
theorem evalMode_erase {σ ρ : Type} (mode : Mode) (F : Filter σ) (os : OS) (R : Rand ρ)
    (S : SortSlice) (a : junkArgs) (args : List String) :
    (evalMode mode (traced F) os R S a args).map Run.erase =
      evalMode mode F os R S a args := by
  cases mode with
  | test => exact cmdJunkTest_erase F os a args
  | analyze => exact cmdJunkAnalyze_erase F os R a args
  | play => exact cmdJunkPlay_erase F os S a args

/-! ## The reported ratios -/

/-- The division of the report gives the exact ratio when the divisor is not zero. -/
theorem fdiv_of_ne_zero (x y : ℕ) (h : y ≠ 0) :
    fdiv (x : ℤ) (y : ℤ) = F64.finite ((x : ℚ) / (y : ℚ)) := by
  unfold fdiv
  have : (y : ℤ) ≠ 0 := by exact_mod_cast h
  simp [this]

/-- A run of an evaluation mode has a recorded run with the same filter,
output and log. -/
theorem evalMode_traced_of_ok {σ ρ : Type} (mode : Mode) (F : Filter σ) (os : OS) (R : Rand ρ)
    (S : SortSlice) (a : junkArgs) (args : List String) (r : Run σ)
    (h : evalMode mode F os R S a args = Except.ok r) :
    ∃ tr : List Call, evalMode mode (traced F) os R S a args =
      Except.ok { f := (r.f, tr), out := r.out, log := r.log } := by
  have he := evalMode_erase mode F os R S a args
  rw [h] at he
  cases hT : evalMode mode (traced F) os R S a args with
  | error e => rw [hT] at he; simp [Except.map] at he
  | ok r1 =>
    rw [hT] at he
    simp only [Except.map] at he
    have hr := Except.ok.inj he
    refine ⟨r1.f.2, ?_⟩
    rw [← hr]
    rfl

/-- The default spam threshold, as `junkFlags` returns it. -/
theorem junkFlags_spamThreshold : (junkFlags []).1.spamThreshold = 95 / 100 := rfl

/-- The test command on the fixture, with the default options. -/
theorem fixture_test_run :
    evalMode Mode.test (tableFilter fixtureScores) fixtureOS lcgRand insertionSortSlice
      (junkFlags []).1 ["ham", "spam"] = Except.ok fixtureRun := by
  simp [evalMode, cmdJunkTest, must, tableFilter, fixtureOS, tableOS, cmdJunkTest.testDir,
    bind, Except.bind, pure, Except.pure, cmdJunkTest.testFile,
    fixtureScores, junkFlags_spamThreshold, fixtureRun, ratioLines, fdiv]
  norm_num

/-- The end of the output of an evaluation mode: the two total lines with the
four tallies and the three ratio lines computed from these tallies; and the
tallies add up to the number of messages the record of calls shows as
classified. -/
theorem evalMode_report {σ ρ : Type} (mode : Mode) (F : Filter σ) (os : OS) (R : Rand ρ)
    (S : SortSlice) (a : junkArgs) (args : List String) (r : Run σ)
    (h : evalMode mode F os R S a args = Except.ok r) :
    ∃ (tr : List Call) (lines : List Line) (hamOK hamBad spamOK spamBad : ℕ)
      (m1 m2 : Option ℕ),
      evalMode mode (traced F) os R S a args =
        Except.ok { f := (r.f, tr), out := r.out, log := r.log } ∧
      r.out = lines ++ [Line.totalHam hamOK hamBad m1, Line.totalSpam spamOK spamBad m2] ++
        ratioLines hamOK hamBad spamOK spamBad ∧
      hamOK + hamBad + spamOK + spamBad = classifiedCount tr := by
  obtain ⟨tr, hT⟩ := evalMode_traced_of_ok mode F os R S a args r h
  cases mode with
  | test =>
    obtain ⟨hamDir, spamDir, hamFiles, spamFiles, callsH, callsS, lines, n1, n2, n3, n4,
      -, -, -, htr, -, -, -, hout, hH, hS, -⟩ := cmdJunkTest_traced F os a args _ hT
    refine ⟨tr, lines, n1, n2, n3, n4, none, none, hT, hout, ?_⟩
    simp only at htr
    rw [htr]
    simp [classifiedCount, Call.isClassified, List.countP_cons] at hH hS ⊢
    omega
  | analyze =>
    obtain ⟨hamDir, spamDir, hamFiles, spamFiles, sp, trainSent, callsH, callsS, lines,
      n1, n2, n3, n4, -, -, -, -, htr, -, -, -, hout, hH, hS⟩ :=
      cmdJunkAnalyze_traced F os R a args _ hT
    refine ⟨tr, lines, n1, n2, n3, n4, _, _, hT, hout, ?_⟩
    simp only at htr
    rw [htr]
    simp [classifiedCount, Call.isClassified, List.countP_cons] at hH hS ⊢
    omega
  | play =>
    obtain ⟨hamDir, spamDir, sc, calls, n1, n2, n3, n4, -, -, htr, -, hout, hsum⟩ :=
      cmdJunkPlay_traced F os S a args _ hT
    refine ⟨tr, _, n1, n2, n3, n4, none, none, hT, hout, ?_⟩
    simp only at htr
    rw [htr]
    simp [classifiedCount, Call.isClassified, List.countP_cons] at hsum ⊢
    omega

/-- C1. In the evaluation modes test, analyze and play, a run that ends normally
prints, after its other lines, the two total lines with the tallies hamOK,
hamBad, spamOK, spamBad and then a specificity, a sensitivity and an accuracy
line. With `tr` the record of the calls this run makes on its filter:
the four tallies add up to the number of messages that were classified
(a classification that failed is not counted), and with non-zero denominators
specificity = hamOK/(hamOK+hamBad), sensitivity = spamOK/(spamOK+spamBad) and
accuracy = (hamOK+spamOK)/(hamOK+hamBad+spamOK+spamBad). -/
theorem C1_reported_ratios {σ ρ : Type} (mode : Mode) (F : Filter σ) (os : OS) (R : Rand ρ)
    (S : SortSlice) (a : junkArgs) (args : List String) (r : Run σ)
    (h : evalMode mode F os R S a args = Except.ok r) :
    ∃ (tr : List Call) (lines : List Line) (hamOK hamBad spamOK spamBad : ℕ)
      (m1 m2 : Option ℕ) (specificity sensitivity accuracy : F64),
      evalMode mode (traced F) os R S a args =
        Except.ok { f := (r.f, tr), out := r.out, log := r.log } ∧
      r.out = lines ++ [Line.totalHam hamOK hamBad m1, Line.totalSpam spamOK spamBad m2,
        Line.specificity specificity, Line.sensitivity sensitivity, Line.accuracy accuracy] ∧
      hamOK + hamBad + spamOK + spamBad = classifiedCount tr ∧
      (hamOK + hamBad ≠ 0 →
        specificity = F64.finite ((hamOK : ℚ) / ((hamOK : ℚ) + (hamBad : ℚ)))) ∧
      (spamOK + spamBad ≠ 0 →
        sensitivity = F64.finite ((spamOK : ℚ) / ((spamOK : ℚ) + (spamBad : ℚ)))) ∧
      (hamOK + hamBad + spamOK + spamBad ≠ 0 →
        accuracy = F64.finite (((hamOK : ℚ) + (spamOK : ℚ)) /
          ((hamOK : ℚ) + (hamBad : ℚ) + (spamOK : ℚ) + (spamBad : ℚ)))) := by
  obtain ⟨tr, lines, hamOK, hamBad, spamOK, spamBad, m1, m2, hT, hout, hsum⟩ :=
    evalMode_report mode F os R S a args r h
  refine ⟨tr, lines, hamOK, hamBad, spamOK, spamBad, m1, m2,
    fdiv (hamOK : ℤ) ((hamOK + hamBad : ℕ) : ℤ), fdiv (spamOK : ℤ) ((spamOK + spamBad : ℕ) : ℤ),
    fdiv ((hamOK + spamOK : ℕ) : ℤ) ((hamOK + hamBad + spamOK + spamBad : ℕ) : ℤ),
    hT, ?_, hsum, ?_, ?_, ?_⟩
  · rw [hout]; simp [ratioLines]
  · intro hne; rw [fdiv_of_ne_zero _ _ hne]; push_cast; rfl
  · intro hne; rw [fdiv_of_ne_zero _ _ hne]; push_cast; rfl
  · intro hne; rw [fdiv_of_ne_zero _ _ hne]; push_cast; rfl

/-- C1 at the fixture: with eight of ten ham messages classified as ham, the
test command reports the specificity 0.8 (see `fixtureRun`). -/
theorem C1_reported_ratios_witness :
    evalMode Mode.test (tableFilter fixtureScores) fixtureOS lcgRand insertionSortSlice
      (junkFlags []).1 ["ham", "spam"] = Except.ok fixtureRun ∧
    ∃ (tr : List Call) (lines : List Line) (hamOK hamBad spamOK spamBad : ℕ)
      (m1 m2 : Option ℕ) (specificity sensitivity accuracy : F64),
      evalMode Mode.test (traced (tableFilter fixtureScores)) fixtureOS lcgRand
        insertionSortSlice (junkFlags []).1 ["ham", "spam"] =
        Except.ok { f := (fixtureRun.f, tr), out := fixtureRun.out, log := fixtureRun.log } ∧
      fixtureRun.out = lines ++ [Line.totalHam hamOK hamBad m1, Line.totalSpam spamOK spamBad m2,
        Line.specificity specificity, Line.sensitivity sensitivity, Line.accuracy accuracy] ∧
      hamOK + hamBad + spamOK + spamBad = classifiedCount tr ∧
      (hamOK + hamBad ≠ 0 →
        specificity = F64.finite ((hamOK : ℚ) / ((hamOK : ℚ) + (hamBad : ℚ)))) ∧
      (spamOK + spamBad ≠ 0 →
        sensitivity = F64.finite ((spamOK : ℚ) / ((spamOK : ℚ) + (spamBad : ℚ)))) ∧
      (hamOK + hamBad + spamOK + spamBad ≠ 0 →
        accuracy = F64.finite (((hamOK : ℚ) + (spamOK : ℚ)) /
          ((hamOK : ℚ) + (hamBad : ℚ) + (spamOK : ℚ) + (spamBad : ℚ)))) :=
  ⟨fixture_test_run,
    C1_reported_ratios Mode.test (tableFilter fixtureScores) fixtureOS lcgRand
      insertionSortSlice (junkFlags []).1 ["ham", "spam"] fixtureRun fixture_test_run⟩

/-! ## Division by zero in the report -/

/-- The division of the report, for a count `x` out of `x + y`: not-a-number
when the total is zero, and otherwise a number between 0 and 1. -/
theorem fdiv_part (x y : ℕ) :
    (x + y = 0 → fdiv (x : ℤ) ((x + y : ℕ) : ℤ) = F64.nan) ∧
    (x + y ≠ 0 → ∃ q : ℚ, fdiv (x : ℤ) ((x + y : ℕ) : ℤ) = F64.finite q ∧ 0 ≤ q ∧ q ≤ 1) := by
  constructor
  · intro h0
    have hx : x = 0 := by omega
    have hy : y = 0 := by omega
    subst hx; subst hy
    rfl
  · intro hne
    refine ⟨(x : ℚ) / ((x + y : ℕ) : ℚ), fdiv_of_ne_zero _ _ hne, ?_, ?_⟩
    · positivity
    · have hpos : (0 : ℚ) < ((x + y : ℕ) : ℚ) := by
        have : 0 < x + y := Nat.pos_of_ne_zero hne
        exact_mod_cast this
      rw [div_le_one hpos]
      exact_mod_cast Nat.le_add_right x y

/-- The test command on the directories without ham. -/
theorem noHam_test_run :
    evalMode Mode.test (tableFilter fixtureScores) noHamOS lcgRand insertionSortSlice
      (junkFlags []).1 ["ham", "spam"] = Except.ok noHamRun := by
  simp [evalMode, cmdJunkTest, must, tableFilter, noHamOS, tableOS, cmdJunkTest.testDir,
    bind, Except.bind, pure, Except.pure, cmdJunkTest.testFile,
    fixtureScores, junkFlags_spamThreshold, noHamRun, ratioLines, fdiv]
  norm_num

/-- C2, refuted as stated: the test command run on an empty ham directory and
one spam message divides 0 by 0 and prints not-a-number as the specificity. -/
theorem C2_counterexample :
    (evalMode Mode.test (tableFilter fixtureScores) noHamOS lcgRand insertionSortSlice
      (junkFlags []).1 ["ham", "spam"]).toOption.map Run.out =
      some [Line.totalHam 0 0 none, Line.totalSpam 1 0 none, Line.specificity F64.nan,
        Line.sensitivity (F64.finite 1), Line.accuracy (F64.finite 1)] := by
  rw [noHam_test_run]
  rfl

/-- C2, amended. The report of test, analyze and play divides without a guard.
For each of specificity, sensitivity and accuracy: when its denominator
(hamOK+hamBad, spamOK+spamBad, or all four tallies) is zero, the value reported
is not-a-number; when it is not zero, the value is a number between 0 and 1. -/
theorem C2_unguarded_division {σ ρ : Type} (mode : Mode) (F : Filter σ) (os : OS)
    (R : Rand ρ) (S : SortSlice) (a : junkArgs) (args : List String) (r : Run σ)
    (h : evalMode mode F os R S a args = Except.ok r) :
    ∃ (lines : List Line) (hamOK hamBad spamOK spamBad : ℕ) (m1 m2 : Option ℕ)
      (specificity sensitivity accuracy : F64),
      r.out = lines ++ [Line.totalHam hamOK hamBad m1, Line.totalSpam spamOK spamBad m2,
        Line.specificity specificity, Line.sensitivity sensitivity, Line.accuracy accuracy] ∧
      (hamOK + hamBad = 0 → specificity = F64.nan) ∧
      (spamOK + spamBad = 0 → sensitivity = F64.nan) ∧
      (hamOK + hamBad + spamOK + spamBad = 0 → accuracy = F64.nan) ∧
      (hamOK + hamBad ≠ 0 → ∃ q : ℚ, specificity = F64.finite q ∧ 0 ≤ q ∧ q ≤ 1) ∧
      (spamOK + spamBad ≠ 0 → ∃ q : ℚ, sensitivity = F64.finite q ∧ 0 ≤ q ∧ q ≤ 1) ∧
      (hamOK + hamBad + spamOK + spamBad ≠ 0 →
        ∃ q : ℚ, accuracy = F64.finite q ∧ 0 ≤ q ∧ q ≤ 1) := by
  obtain ⟨tr, lines, hamOK, hamBad, spamOK, spamBad, m1, m2, -, hout, -⟩ :=
    evalMode_report mode F os R S a args r h
  have hacc := fdiv_part (hamOK + spamOK) (hamBad + spamBad)
  have e : hamOK + spamOK + (hamBad + spamBad) = hamOK + hamBad + spamOK + spamBad := by omega
  rw [e] at hacc
  refine ⟨lines, hamOK, hamBad, spamOK, spamBad, m1, m2,
    fdiv (hamOK : ℤ) ((hamOK + hamBad : ℕ) : ℤ), fdiv (spamOK : ℤ) ((spamOK + spamBad : ℕ) : ℤ),
    fdiv ((hamOK + spamOK : ℕ) : ℤ) ((hamOK + hamBad + spamOK + spamBad : ℕ) : ℤ),
    ?_, (fdiv_part hamOK hamBad).1, (fdiv_part spamOK spamBad).1, hacc.1,
    (fdiv_part hamOK hamBad).2, (fdiv_part spamOK spamBad).2, hacc.2⟩
  rw [hout]; simp [ratioLines]

/-- C2 amended, at the directories without ham. -/
theorem C2_unguarded_division_witness :
    evalMode Mode.test (tableFilter fixtureScores) noHamOS lcgRand insertionSortSlice
      (junkFlags []).1 ["ham", "spam"] = Except.ok noHamRun ∧
    ∃ (lines : List Line) (hamOK hamBad spamOK spamBad : ℕ) (m1 m2 : Option ℕ)
      (specificity sensitivity accuracy : F64),
      noHamRun.out = lines ++ [Line.totalHam hamOK hamBad m1, Line.totalSpam spamOK spamBad m2,
        Line.specificity specificity, Line.sensitivity sensitivity, Line.accuracy accuracy] ∧
      (hamOK + hamBad = 0 → specificity = F64.nan) ∧
      (spamOK + spamBad = 0 → sensitivity = F64.nan) ∧
      (hamOK + hamBad + spamOK + spamBad = 0 → accuracy = F64.nan) ∧
      (hamOK + hamBad ≠ 0 → ∃ q : ℚ, specificity = F64.finite q ∧ 0 ≤ q ∧ q ≤ 1) ∧
      (spamOK + spamBad ≠ 0 → ∃ q : ℚ, sensitivity = F64.finite q ∧ 0 ≤ q ∧ q ≤ 1) ∧
      (hamOK + hamBad + spamOK + spamBad ≠ 0 →
        ∃ q : ℚ, accuracy = F64.finite q ∧ 0 ≤ q ∧ q ≤ 1) :=
  ⟨noHam_test_run,
    C2_unguarded_division Mode.test (tableFilter fixtureScores) noHamOS lcgRand
      insertionSortSlice (junkFlags []).1 ["ham", "spam"] noHamRun noHam_test_run⟩

/-! ## Messages that cannot be classified -/

/-- Every classification in a record either returned a probability or failed. -/
theorem classifyPaths_length (tr : List Call) :
    (classifyPaths tr).length = classifiedCount tr + classifyErrorCount tr := by
  induction tr with
  | nil => rfl
  | cons c cs ih =>
    simp only [classifyPaths, classifiedCount, classifyErrorCount] at ih ⊢
    cases c with
    | ClassifyMessagePath path res =>
      cases res <;>
        simp only [List.filterMap_cons, Call.classifyPath?, List.length_cons, List.countP_cons,
          Call.isClassified, Call.isClassifyError, Bool.false_eq_true, if_false, if_true] <;>
        omega
    | _ =>
      simp only [List.filterMap_cons, Call.classifyPath?, List.countP_cons,
        Call.isClassified, Call.isClassifyError, Bool.false_eq_true, if_false]
      omega

/-- The test command on one message that cannot be parsed. -/
theorem oneBad_test_run :
    cmdJunkTest (tableFilter (fun _ => none)) oneBadOS (junkFlags []).1 ["ham", "spam"] =
      Except.ok oneBadRun := by
  simp [cmdJunkTest, must, tableFilter, oneBadOS, tableOS, cmdJunkTest.testDir,
    bind, Except.bind, pure, Except.pure, cmdJunkTest.testFile, oneBadRun, ratioLines, fdiv]

/-- C3, refuted as stated: the test command keeps no malformed or error
counter. Given a ham directory with one message that cannot be parsed, the
counts it reports are ok 0 and bad 0 for both classes, with no third count, so
the counts do not add up to the one file given; the failure is only logged. -/
theorem C3_counterexample :
    oneBadOS.ReadDir "ham" = Except.ok ["m1"] ∧ oneBadOS.ReadDir "spam" = Except.ok [] ∧
    (cmdJunkTest (tableFilter (fun _ => none)) oneBadOS (junkFlags []).1
      ["ham", "spam"]).toOption.map (fun r => (r.out, r.log)) =
      some ([Line.totalHam 0 0 none, Line.totalSpam 0 0 none, Line.specificity F64.nan,
             Line.sensitivity F64.nan, Line.accuracy F64.nan],
            ["classify message ham/m1: malformed message"]) := by
  rw [oneBad_test_run]
  exact ⟨rfl, rfl, rfl⟩

/-- C3, amended. In each evaluation mode a file whose classification returns an
error is skipped, and every later file is still processed.
In the loops: the failing file changes neither tally; test appends one line to
the log, analyze adds one to `malformed`, play adds one to `nbad`.
Over a whole run, with `tr` the record of the calls on the filter: the files
classified are all the files given, in order (for play: all replayed messages
that are not sent messages); the tallies add up to the number of successful
classifications; analyze reports malformed counts that add up to the number
of failed ones, so that ok + bad + malformed is the number of test files of a
class; play reports `nbad` as the scan's count plus the number of failed ones;
test reports no such counter, its log has one line for each failed one. -/
theorem C3_failed_classification_skipped {σ ρ : Type} (F : Filter σ) (os : OS) (R : Rand ρ)
    (S : SortSlice) (a : junkArgs) (args : List String) :
    -- a file that fails, in the loop of each mode
    (∀ (dir : String) (ham : Bool) (st : TestSt σ) (name : String) (f1 : σ) (e : String),
      F.ClassifyMessagePath st.f (dir ++ "/" ++ name) = (f1, Except.error e) →
      cmdJunkTest.testFile F a dir ham st name =
        { st with f := f1,
                  log := st.log ++ ["classify message " ++ (dir ++ "/" ++ name) ++ ": " ++ e] }) ∧
    (∀ (dir : String) (ham : Bool) (st : AnalyzeSt σ) (name : String) (f1 : σ) (e : String),
      F.ClassifyMessagePath st.f (dir ++ "/" ++ name) = (f1, Except.error e) →
      cmdJunkAnalyze.testFile F a dir ham st name =
        { st with f := f1, malformed := st.malformed + 1 }) ∧
    (∀ (st : PlaySt σ) (m : msg) (f1 : σ) (e : String), m.sent = false →
      F.ClassifyMessagePath st.f (m.dir ++ "/" ++ m.filename) = (f1, Except.error e) →
      cmdJunkPlay.play F os a st m = Except.ok { st with f := f1, nbad := st.nbad + 1 }) ∧
    -- the whole batch of each mode
    (∀ r : Run σ, cmdJunkTest F os a args = Except.ok r →
      ∃ (tr : List Call) (hamDir spamDir : String) (hamFiles spamFiles : List String)
        (lines : List Line) (nhamok nhambad nspamok nspambad : ℕ),
        cmdJunkTest (traced F) os a args =
          Except.ok { f := (r.f, tr), out := r.out, log := r.log } ∧
        args = [hamDir, spamDir] ∧
        os.ReadDir hamDir = Except.ok hamFiles ∧ os.ReadDir spamDir = Except.ok spamFiles ∧
        classifyPaths tr = hamFiles.map (fun name => hamDir ++ "/" ++ name) ++
          spamFiles.map (fun name => spamDir ++ "/" ++ name) ∧
        r.out = lines ++
          [Line.totalHam nhamok nhambad none, Line.totalSpam nspamok nspambad none] ++
          ratioLines nhamok nhambad nspamok nspambad ∧
        nhamok + nhambad + nspamok + nspambad = classifiedCount tr ∧
        r.log.length = classifyErrorCount tr ∧
        nhamok + nhambad + nspamok + nspambad + r.log.length =
          hamFiles.length + spamFiles.length) ∧
    (∀ r : Run σ, cmdJunkAnalyze F os R a args = Except.ok r →
      ∃ (tr : List Call) (hamDir spamDir : String) (hamFiles spamFiles : List String)
        (sp : Split) (lines : List Line)
        (nhamok nhambad nmalformedham nspamok nspambad nmalformedspam : ℕ),
        cmdJunkAnalyze (traced F) os R a args =
          Except.ok { f := (r.f, tr), out := r.out, log := r.log } ∧
        args = [hamDir, spamDir] ∧
        os.ReadDir hamDir = Except.ok hamFiles ∧ os.ReadDir spamDir = Except.ok spamFiles ∧
        cmdJunkAnalyze.split R os a hamFiles spamFiles = Except.ok sp ∧
        classifyPaths tr = sp.testHam.map (fun name => hamDir ++ "/" ++ name) ++
          sp.testSpam.map (fun name => spamDir ++ "/" ++ name) ∧
        r.out = lines ++
          [Line.totalHam nhamok nhambad (some nmalformedham),
           Line.totalSpam nspamok nspambad (some nmalformedspam)] ++
          ratioLines nhamok nhambad nspamok nspambad ∧
        nhamok + nhambad + nspamok + nspambad = classifiedCount tr ∧
        nmalformedham + nmalformedspam = classifyErrorCount tr ∧
        nhamok + nhambad + nmalformedham = sp.testHam.length ∧
        nspamok + nspambad + nmalformedspam = sp.testSpam.length) ∧
    (∀ r : Run σ, cmdJunkPlay F os S a args = Except.ok r →
      ∃ (tr : List Call) (hamDir spamDir : String) (sc : ScanSt)
        (nbad nhamok nhambad nspamok nspambad : ℕ),
        cmdJunkPlay (traced F) os S a args =
          Except.ok { f := (r.f, tr), out := r.out, log := r.log } ∧
        args = [hamDir, spamDir] ∧
        cmdJunkPlay.scan os a hamDir spamDir = Except.ok sc ∧
        classifyPaths tr = ((cmdJunkPlay.replay S sc).filter (fun m => m.sent = false)).map
          (fun m => m.dir ++ "/" ++ m.filename) ∧
        r.out = [Line.completed sc.nham sc.nsent sc.nspam nbad sc.nnodate,
                 Line.totalHam nhamok nhambad none, Line.totalSpam nspamok nspambad none] ++
          ratioLines nhamok nhambad nspamok nspambad ∧
        nhamok + nhambad + nspamok + nspambad = classifiedCount tr ∧
        nbad = sc.nbad + classifyErrorCount tr ∧
        nhamok + nhambad + nspamok + nspambad + (nbad - sc.nbad) =
          ((cmdJunkPlay.replay S sc).filter (fun m => m.sent = false)).length) := by
  refine ⟨?_, ?_, ?_, ?_, ?_, ?_⟩
  · intro dir ham st name f1 e h
    simp [cmdJunkTest.testFile, h]
  · intro dir ham st name f1 e h
    simp [cmdJunkAnalyze.testFile, h]
  · intro st m f1 e hs h
    simp [cmdJunkPlay.play, hs, h, pure, Except.pure]
  · intro r h
    obtain ⟨tr, hT⟩ := evalMode_traced_of_ok Mode.test F os lcgRand S a args r h
    obtain ⟨hamDir, spamDir, hamFiles, spamFiles, callsH, callsS, lines, n1, n2, n3, n4,
      hargs, hH, hS, htr, hall, hpH, hpS, hout, hcH, hcS, hlog⟩ :=
      cmdJunkTest_traced F os a args _ hT
    simp only at htr hout hlog
    have hp : classifyPaths tr = hamFiles.map (fun name => hamDir ++ "/" ++ name) ++
        spamFiles.map (fun name => spamDir ++ "/" ++ name) := by
      rw [htr, ← hpH, ← hpS]
      simp [classifyPaths, Call.classifyPath?]
    have hc : n1 + n2 + n3 + n4 = classifiedCount tr := by
      rw [htr]
      simp [classifiedCount, Call.isClassified, List.countP_cons] at hcH hcS ⊢
      omega
    have he : r.log.length = classifyErrorCount tr := by
      rw [htr, hlog]
      simp [classifyErrorCount, Call.isClassifyError, List.countP_cons]
    refine ⟨tr, hamDir, spamDir, hamFiles, spamFiles, lines, n1, n2, n3, n4, hT, hargs, hH,
      hS, hp, hout, hc, he, ?_⟩
    have hl := classifyPaths_length tr
    rw [hp] at hl
    simp at hl
    omega
  · intro r h
    obtain ⟨tr, hT⟩ := evalMode_traced_of_ok Mode.analyze F os R S a args r h
    obtain ⟨hamDir, spamDir, hamFiles, spamFiles, sp, trainSent, callsH, callsS, lines,
      n1, n2, n3, n4, hargs, hH, hS, hsp, htr, hall, hpH, hpS, hout, hcH, hcS⟩ :=
      cmdJunkAnalyze_traced F os R a args _ hT
    simp only at htr hout
    have hp : classifyPaths tr = sp.testHam.map (fun name => hamDir ++ "/" ++ name) ++
        sp.testSpam.map (fun name => spamDir ++ "/" ++ name) := by
      rw [htr, ← hpH, ← hpS]
      simp [classifyPaths, Call.classifyPath?]
    have hc : n1 + n2 + n3 + n4 = classifiedCount tr := by
      rw [htr]
      simp [classifiedCount, Call.isClassified, List.countP_cons] at hcH hcS ⊢
      omega
    have he : classifyErrorCount callsH + classifyErrorCount callsS = classifyErrorCount tr := by
      rw [htr]
      simp [classifyErrorCount, Call.isClassifyError, List.countP_cons]
    have hlH := classifyPaths_length callsH
    have hlS := classifyPaths_length callsS
    rw [hpH] at hlH
    rw [hpS] at hlS
    simp at hlH hlS
    refine ⟨tr, hamDir, spamDir, hamFiles, spamFiles, sp, lines, n1, n2, _, n3, n4, _, hT,
      hargs, hH, hS, hsp, hp, hout, hc, he, ?_, ?_⟩
    · omega
    · omega
  · intro r h
    obtain ⟨tr, hT⟩ := evalMode_traced_of_ok Mode.play F os lcgRand S a args r h
    obtain ⟨hamDir, spamDir, sc, calls, n1, n2, n3, n4, hargs, hsc, htr, hp, hout, hsum⟩ :=
      cmdJunkPlay_traced F os S a args _ hT
    simp only at htr hout
    have hp1 : classifyPaths tr = ((cmdJunkPlay.replay S sc).filter
        (fun m => m.sent = false)).map (fun m => m.dir ++ "/" ++ m.filename) := by
      rw [htr, ← hp]
      simp [classifyPaths, Call.classifyPath?]
    have hc : n1 + n2 + n3 + n4 = classifiedCount tr := by
      rw [htr]
      simp [classifiedCount, Call.isClassified, List.countP_cons] at hsum ⊢
      omega
    have he : classifyErrorCount calls = classifyErrorCount tr := by
      rw [htr]
      simp [classifyErrorCount, Call.isClassifyError, List.countP_cons]
    have hl := classifyPaths_length tr
    rw [hp1] at hl
    simp only [List.length_map] at hl
    refine ⟨tr, hamDir, spamDir, sc, sc.nbad + classifyErrorCount calls, n1, n2, n3, n4, hT,
      hargs, hsc, hp1, ?_, hc, ?_, ?_⟩
    · rw [hout]; rfl
    · rw [he]
    · omega

/-- C3 amended, at the directory with one message that cannot be parsed. -/
theorem C3_failed_classification_skipped_witness :
    cmdJunkTest (tableFilter (fun _ => none)) oneBadOS (junkFlags []).1 ["ham", "spam"] =
      Except.ok oneBadRun ∧
    ∃ (tr : List Call) (hamDir spamDir : String) (hamFiles spamFiles : List String)
      (lines : List Line) (nhamok nhambad nspamok nspambad : ℕ),
      cmdJunkTest (traced (tableFilter (fun _ => none))) oneBadOS (junkFlags []).1
          ["ham", "spam"] =
        Except.ok { f := (oneBadRun.f, tr), out := oneBadRun.out, log := oneBadRun.log } ∧
      ["ham", "spam"] = [hamDir, spamDir] ∧
      oneBadOS.ReadDir hamDir = Except.ok hamFiles ∧
      oneBadOS.ReadDir spamDir = Except.ok spamFiles ∧
      classifyPaths tr = hamFiles.map (fun name => hamDir ++ "/" ++ name) ++
        spamFiles.map (fun name => spamDir ++ "/" ++ name) ∧
      oneBadRun.out = lines ++
        [Line.totalHam nhamok nhambad none, Line.totalSpam nspamok nspambad none] ++
        ratioLines nhamok nhambad nspamok nspambad ∧
      nhamok + nhambad + nspamok + nspambad = classifiedCount tr ∧
      oneBadRun.log.length = classifyErrorCount tr ∧
      nhamok + nhambad + nspamok + nspambad + oneBadRun.log.length =
        hamFiles.length + spamFiles.length :=
  ⟨oneBad_test_run,
    (C3_failed_classification_skipped (tableFilter (fun _ => none)) oneBadOS lcgRand
      insertionSortSlice (junkFlags []).1 ["ham", "spam"]).2.2.2.1 oneBadRun oneBad_test_run⟩

/-! ## The split of `cmdJunkAnalyze` -/

/-- A swap at two indices inside the list succeeds and keeps the length. -/
theorem swap_of_lt (l : List String) (i n : ℕ) (hi : i < l.length) (hn : n < l.length) :
    ∃ l1, swap l i n = some l1 ∧ l1.length = l.length := by
  unfold swap
  rw [List.getElem?_eq_getElem hi, List.getElem?_eq_getElem hn]
  exact ⟨_, rfl, by simp⟩

/-- The loop of `shuffle` up to an index within the list: no panic, and the
length is kept. -/
theorem cmdJunkAnalyze.shuffle_loop {ρ : Type} (R : Rand ρ) (count k : ℕ) (hk : k ≤ count)
    (g : ρ) (l : List String) (hl : l.length = count) :
    ∃ g1 l1, (List.range k).foldl (cmdJunkAnalyze.shuffleStep R count) (some (g, l)) =
      some (g1, l1) ∧ l1.length = count := by
  induction k with
  | zero => exact ⟨g, l, rfl, hl⟩
  | succ k ih =>
    obtain ⟨g1, l1, h1, h2⟩ := ih (by omega)
    rw [List.range_succ, List.foldl_append, h1]
    have hpos : 0 < count := by omega
    have hn := R.Intn_lt g1 count hpos
    obtain ⟨l2, h3, h4⟩ := swap_of_lt l1 k (R.Intn g1 count).2 (by omega) (by omega)
    refine ⟨(R.Intn g1 count).1, l2, ?_, by omega⟩
    simp [cmdJunkAnalyze.shuffleStep, h3]

/-- Go `shuffle` never panics and keeps the length of the list. -/
theorem cmdJunkAnalyze.shuffle_ok {ρ : Type} (R : Rand ρ) (g : ρ) (l : List String) :
    ∃ g1 l1, cmdJunkAnalyze.shuffle R g l = some (g1, l1) ∧ l1.length = l.length :=
  cmdJunkAnalyze.shuffle_loop R l.length l.length (le_refl _) g l rfl

/-- Go's `int(x)` of a float64 that is not negative is the floor of `x`. -/
theorem truncInt_of_nonneg (x : ℚ) (h : 0 ≤ x) : truncInt x = ⌊x⌋ := by
  simp [truncInt, h]

/-! ### Rounding to float64 -/

/-- An integer is rounded to itself. -/
theorem roundHalfEven_intCast (k : ℤ) : roundHalfEven (k : ℚ) = k := by
  simp [roundHalfEven]

/-- Rounding to an integer keeps the order. -/
theorem roundHalfEven_mono {x y : ℚ} (h : x ≤ y) : roundHalfEven x ≤ roundHalfEven y := by
  have hf := Int.floor_le_floor h
  have lx : roundHalfEven x ≤ ⌊x⌋ + 1 := by
    unfold roundHalfEven; split_ifs <;> omega
  have ly : ⌊y⌋ ≤ roundHalfEven y := by
    unfold roundHalfEven; split_ifs <;> omega
  rcases lt_or_eq_of_le hf with hlt | heq
  · omega
  · unfold roundHalfEven
    rw [← heq]
    split_ifs <;> first | omega | linarith

/-- Rounding a number that is within a half of an integer. -/
theorem roundHalfEven_of_near (m : ℚ) (k : ℤ) (h1 : (k : ℚ) - 1 / 2 < m)
    (h2 : m < k + 1 / 2) : roundHalfEven m = k := by
  have hfl : ⌊m⌋ = k ∨ ⌊m⌋ = k - 1 := by
    have a1 : k - 1 ≤ ⌊m⌋ := Int.le_floor.mpr (by push_cast; linarith)
    have a2 : ⌊m⌋ < k + 1 := Int.floor_lt.mpr (by push_cast; linarith)
    omega
  unfold roundHalfEven
  rcases hfl with e | e
  · rw [e]
    have : m - k < 1 / 2 := by linarith
    rw [if_pos this]
  · rw [e]
    have c1 : ¬ (m - ((k - 1 : ℤ) : ℚ) < 1 / 2) := by push_cast; linarith
    have c2 : 1 / 2 < m - ((k - 1 : ℤ) : ℚ) := by push_cast; linarith
    rw [if_neg c1, if_pos c2]
    ring

/-- Rounding a number halfway between an odd integer and the next one. -/
theorem roundHalfEven_of_tie_odd (m : ℚ) (k : ℤ) (h : m = k + 1 / 2) (hk : k % 2 = 1) :
    roundHalfEven m = k + 1 := by
  have hfl : ⌊m⌋ = k := by
    rw [Int.floor_eq_iff]
    constructor <;> rw [h] <;> linarith
  unfold roundHalfEven
  rw [hfl]
  have c1 : ¬ (m - (k : ℚ) < 1 / 2) := by rw [h]; linarith
  have c2 : ¬ (1 / 2 < m - (k : ℚ)) := by rw [h]; linarith
  have c3 : ¬ (k % 2 = 0) := by omega
  rw [if_neg c1, if_neg c2, if_neg c3]

/-- A power of two is positive. -/
theorem two_zpow_pos (z : ℤ) : (0 : ℚ) < 2 ^ z := zpow_pos (by norm_num) z

/-- The rounding of a positive number. -/
theorem roundF64_of_pos {x : ℚ} (h : 0 < x) :
    roundF64 x = (roundHalfEven (x / 2 ^ ulpExp x) : ℚ) * 2 ^ ulpExp x := by
  unfold roundF64
  rw [if_neg (ne_of_gt h), if_pos h]

/-- Zero is a float64. -/
theorem roundF64_zero : roundF64 0 = 0 := by
  simp [roundF64]

/-- A number that is not negative is rounded to one that is not negative. -/
theorem roundF64_nonneg {x : ℚ} (h : 0 ≤ x) : 0 ≤ roundF64 x := by
  rcases eq_or_lt_of_le h with h0 | hpos
  · rw [← h0, roundF64_zero]
  · rw [roundF64_of_pos hpos]
    have h1 : (0 : ℚ) ≤ x / 2 ^ ulpExp x := le_of_lt (div_pos hpos (two_zpow_pos _))
    have h2 : roundHalfEven ((0 : ℤ) : ℚ) ≤ roundHalfEven (x / 2 ^ ulpExp x) :=
      roundHalfEven_mono (by simpa using h1)
    rw [roundHalfEven_intCast] at h2
    have h3 : (0 : ℚ) ≤ (roundHalfEven (x / 2 ^ ulpExp x) : ℚ) := by exact_mod_cast h2
    exact mul_nonneg h3 (le_of_lt (two_zpow_pos _))

/-- A positive number lies in the binade its logarithm names. -/
theorem int_log_bounds {x : ℚ} (h : 0 < x) :
    (2 : ℚ) ^ Int.log 2 x ≤ x ∧ x < (2 : ℚ) ^ (Int.log 2 x + 1) := by
  have h1 := Int.zpow_log_le_self (b := 2) (r := x) (by norm_num) h
  have h2 := Int.lt_zpow_succ_log_self (b := 2) (by norm_num) x
  simp only [Nat.cast_ofNat] at h1 h2
  exact ⟨h1, h2⟩

/-- The rounding of a positive normal number whose binade is known. -/
theorem roundF64_of_binade {x : ℚ} (e : ℤ) (h1 : (2 : ℚ) ^ e ≤ x) (h2 : x < 2 ^ (e + 1))
    (he : -1022 ≤ e) :
    roundF64 x = (roundHalfEven (x / 2 ^ (e - 52)) : ℚ) * 2 ^ (e - 52) := by
  have hx : 0 < x := lt_of_lt_of_le (two_zpow_pos e) h1
  have hlog : Int.log 2 x = e := by
    apply le_antisymm
    · have : Int.log 2 x < e + 1 := by
        apply (Int.lt_zpow_iff_log_lt (b := 2) (by norm_num) hx).mp
        simpa using h2
      omega
    · apply (Int.zpow_le_iff_le_log (b := 2) (by norm_num) hx).mp
      simpa using h1
  have hu : ulpExp x = e - 52 := by
    unfold ulpExp
    rw [hlog]
    exact max_eq_left (by omega)
  rw [roundF64_of_pos hx, hu]

/-- A number with a significand below 2^53 at an exponent that is not below
-1074 is a float64: rounding leaves it as it is. -/
theorem roundF64_rep (m : ℕ) (q : ℤ) (hm : m < 2 ^ 53) (hq : -1074 ≤ q) :
    roundF64 ((m : ℚ) * 2 ^ q) = (m : ℚ) * 2 ^ q := by
  rcases Nat.eq_zero_or_pos m with h0 | hpos
  · subst h0; simp [roundF64]
  have hx : (0 : ℚ) < (m : ℚ) * 2 ^ q := mul_pos (by exact_mod_cast hpos) (two_zpow_pos q)
  obtain ⟨l1, -⟩ := int_log_bounds hx
  have hm1 : (m : ℚ) < 2 ^ (53 : ℤ) := by
    rw [show (53 : ℤ) = ((53 : ℕ) : ℤ) from rfl, zpow_natCast]
    exact_mod_cast hm
  have hlt : (2 : ℚ) ^ Int.log 2 ((m : ℚ) * 2 ^ q) < 2 ^ (53 + q) := by
    calc (2 : ℚ) ^ Int.log 2 ((m : ℚ) * 2 ^ q) ≤ (m : ℚ) * 2 ^ q := l1
      _ < 2 ^ (53 : ℤ) * 2 ^ q := mul_lt_mul_of_pos_right hm1 (two_zpow_pos q)
      _ = 2 ^ (53 + q) := by rw [← zpow_add₀ (by norm_num : (2 : ℚ) ≠ 0)]
  have he : Int.log 2 ((m : ℚ) * 2 ^ q) < 53 + q :=
    (zpow_lt_zpow_iff_right₀ (by norm_num : (1 : ℚ) < 2)).mp hlt
  have hu : ulpExp ((m : ℚ) * 2 ^ q) ≤ q := by
    unfold ulpExp
    exact max_le (by omega) hq
  rw [roundF64_of_pos hx]
  generalize ulpExp ((m : ℚ) * 2 ^ q) = u at hu
  obtain ⟨k, hk⟩ : ∃ k : ℕ, q = u + k := ⟨(q - u).toNat, by omega⟩
  have hdiv : (m : ℚ) * 2 ^ q / 2 ^ u = (((m * 2 ^ k : ℕ) : ℤ) : ℚ) := by
    rw [hk, zpow_add₀ (by norm_num : (2 : ℚ) ≠ 0), zpow_natCast]
    field_simp
    ring
  rw [hdiv, roundHalfEven_intCast, hk, zpow_add₀ (by norm_num : (2 : ℚ) ≠ 0), zpow_natCast]
  push_cast
  ring

/-- Rounding to float64 keeps the order of numbers that are not negative. -/
theorem roundF64_mono {x y : ℚ} (hx : 0 ≤ x) (h : x ≤ y) : roundF64 x ≤ roundF64 y := by
  rcases eq_or_lt_of_le hx with h0 | hxpos
  · rw [← h0, roundF64_zero]
    exact roundF64_nonneg (le_trans hx h)
  have hypos : 0 < y := lt_of_lt_of_le hxpos h
  have he : Int.log 2 x ≤ Int.log 2 y := Int.log_mono_right hxpos h
  have hu : ulpExp x ≤ ulpExp y := by
    unfold ulpExp
    exact max_le_max (by omega) (le_refl _)
  rw [roundF64_of_pos hxpos, roundF64_of_pos hypos]
  rcases eq_or_lt_of_le hu with heq | hlt
  · rw [← heq]
    have hd : x / 2 ^ ulpExp x ≤ y / 2 ^ ulpExp x :=
      div_le_div_of_nonneg_right h (le_of_lt (two_zpow_pos _))
    have := roundHalfEven_mono hd
    have hc : (roundHalfEven (x / 2 ^ ulpExp x) : ℚ) ≤
        (roundHalfEven (y / 2 ^ ulpExp x) : ℚ) := by
      exact_mod_cast this
    exact mul_le_mul_of_nonneg_right hc (le_of_lt (two_zpow_pos _))
  · have huy : ulpExp y = Int.log 2 y - 52 := by
      unfold ulpExp at hlt ⊢
      have h1 : (-1074 : ℤ) ≤ max (Int.log 2 x - 52) (-1074) := le_max_right _ _
      rcases max_cases (Int.log 2 y - 52) (-1074) with ⟨e, -⟩ | ⟨e, -⟩
      · exact e
      · rw [e] at hlt; omega
    have hux : Int.log 2 x - 52 ≤ ulpExp x := le_max_left _ _
    obtain ⟨-, lx2⟩ := int_log_bounds hxpos
    obtain ⟨ly1, -⟩ := int_log_bounds hypos
    have hmid : x ≤ (2 : ℚ) ^ Int.log 2 y := by
      have : (2 : ℚ) ^ (Int.log 2 x + 1) ≤ 2 ^ Int.log 2 y :=
        (zpow_le_zpow_iff_right₀ (by norm_num : (1 : ℚ) < 2)).mpr (by omega)
      exact le_of_lt (lt_of_lt_of_le lx2 this)
    obtain ⟨k, hk⟩ : ∃ k : ℕ, Int.log 2 y = ulpExp x + k :=
      ⟨(Int.log 2 y - ulpExp x).toNat, by omega⟩
    have hpow : (2 : ℚ) ^ Int.log 2 y = (((2 ^ k : ℕ) : ℤ) : ℚ) * 2 ^ ulpExp x := by
      rw [hk, zpow_add₀ (by norm_num : (2 : ℚ) ≠ 0), zpow_natCast]
      push_cast
      ring
    have hpow52 : (2 : ℚ) ^ Int.log 2 y = (((2 ^ 52 : ℕ) : ℤ) : ℚ) * 2 ^ ulpExp y := by
      rw [huy]
      have : (2 : ℚ) ^ Int.log 2 y = 2 ^ ((52 : ℤ) + (Int.log 2 y - 52)) := by
        congr 1; ring
      rw [this, zpow_add₀ (by norm_num : (2 : ℚ) ≠ 0)]
      norm_num
    have hlow : (roundHalfEven (x / 2 ^ ulpExp x) : ℚ) * 2 ^ ulpExp x ≤ 2 ^ Int.log 2 y := by
      have hd : x / 2 ^ ulpExp x ≤ (((2 ^ k : ℕ) : ℤ) : ℚ) := by
        rw [div_le_iff₀ (two_zpow_pos _), ← hpow]
        exact hmid
      have := roundHalfEven_mono hd
      rw [roundHalfEven_intCast] at this
      have hc : (roundHalfEven (x / 2 ^ ulpExp x) : ℚ) ≤ (((2 ^ k : ℕ) : ℤ) : ℚ) := by
        exact_mod_cast this
      rw [hpow]
      exact mul_le_mul_of_nonneg_right hc (le_of_lt (two_zpow_pos _))
    have hhigh : (2 : ℚ) ^ Int.log 2 y ≤
        (roundHalfEven (y / 2 ^ ulpExp y) : ℚ) * 2 ^ ulpExp y := by
      have hd : (((2 ^ 52 : ℕ) : ℤ) : ℚ) ≤ y / 2 ^ ulpExp y := by
        rw [le_div_iff₀ (two_zpow_pos _), ← hpow52]
        exact ly1
      have := roundHalfEven_mono hd
      rw [roundHalfEven_intCast] at this
      have hc : (((2 ^ 52 : ℕ) : ℤ) : ℚ) ≤ (roundHalfEven (y / 2 ^ ulpExp y) : ℚ) := by
        exact_mod_cast this
      rw [hpow52]
      exact mul_le_mul_of_nonneg_right hc (le_of_lt (two_zpow_pos _))
    exact le_trans hlow hhigh

/-- A natural number below 2^53 is a float64. -/
theorem roundF64_natCast (n : ℕ) (h : n < 2 ^ 53) : roundF64 (n : ℚ) = n := by
  have := roundF64_rep n 0 h (by norm_num)
  simpa using this

/-- One is a float64. -/
theorem roundF64_one : roundF64 1 = 1 := by
  have := roundF64_natCast 1 (by norm_num)
  simpa using this

/-- A half is a float64. -/
theorem roundF64_half : roundF64 (1 / 2) = 1 / 2 := by
  have := roundF64_rep 1 (-1) (by norm_num) (by norm_num)
  simpa using this

/-- The float64 nearest to 0.29. -/
theorem roundF64_029 : roundF64 (29 / 100) = 5224175567749775 / 2 ^ 54 := by
  rw [roundF64_of_binade (-2) (by norm_num) (by norm_num) (by norm_num),
    roundHalfEven_of_near _ 5224175567749775 (by norm_num) (by norm_num)]
  norm_num

/-- The float64 product of the float64 nearest to 0.29 and 100 is below 29. -/
theorem roundF64_029_times_100 :
    roundF64 (5224175567749775 / 2 ^ 54 * 100) = 8162774324609023 / 2 ^ 48 := by
  rw [roundF64_of_binade 4 (by norm_num) (by norm_num) (by norm_num),
    roundHalfEven_of_near _ 8162774324609023 (by norm_num) (by norm_num)]
  norm_num

/-- The float64 nearest to 0.7. -/
theorem roundF64_07 : roundF64 (7 / 10) = 6305039478318694 / 2 ^ 53 := by
  rw [roundF64_of_binade (-1) (by norm_num) (by norm_num) (by norm_num),
    roundHalfEven_of_near _ 6305039478318694 (by norm_num) (by norm_num)]
  norm_num

/-- The float64 product of the float64 nearest to 0.7 and 10 is 7: the exact
product is halfway between 7 and the float64 below it. -/
theorem roundF64_07_times_10 : roundF64 (6305039478318694 / 2 ^ 53 * 10) = 7 := by
  rw [roundF64_of_binade 2 (by norm_num) (by norm_num) (by norm_num),
    roundHalfEven_of_tie_odd _ 7881299347898367 (by norm_num) (by norm_num)]
  norm_num

/-! ### The number of training files -/

/-- The number of training files for a ratio between 0 and 1 and a listing of
fewer than 2^53 files lies between 0 and the number of files. -/
theorem cmdJunkAnalyze.ntrain_bounds (a : junkArgs) (files : List String)
    (h0 : 0 ≤ a.trainRatio) (h1 : a.trainRatio ≤ 1) (hn : files.length < 2 ^ 53) :
    0 ≤ cmdJunkAnalyze.ntrain a files ∧
    cmdJunkAnalyze.ntrain a files ≤ (files.length : ℤ) := by
  have hr0 : 0 ≤ roundF64 a.trainRatio := roundF64_nonneg h0
  have hr1 : roundF64 a.trainRatio ≤ 1 := by
    have := roundF64_mono h0 h1
    rwa [roundF64_one] at this
  have hlen : (0 : ℚ) ≤ (files.length : ℚ) := by positivity
  have hprod : 0 ≤ roundF64 a.trainRatio * (files.length : ℚ) := mul_nonneg hr0 hlen
  have hle : roundF64 a.trainRatio * (files.length : ℚ) ≤ (files.length : ℚ) := by nlinarith
  have hup := roundF64_mono hprod hle
  rw [roundF64_natCast _ hn] at hup
  have hlow := roundF64_nonneg hprod
  unfold cmdJunkAnalyze.ntrain
  rw [roundF64_natCast _ hn, truncInt_of_nonneg _ hlow]
  refine ⟨Int.floor_nonneg.mpr hlow, ?_⟩
  have := Int.floor_le_floor hup
  simpa using this

/-- At the train ratio 0.5 the number of training files is half the number of
files, rounded down, for a listing of fewer than 2^53 files. -/
theorem cmdJunkAnalyze.ntrain_half (a : junkArgs) (files : List String)
    (hr : a.trainRatio = 1 / 2) (hn : files.length < 2 ^ 53) :
    cmdJunkAnalyze.ntrain a files = (files.length : ℤ) / 2 := by
  have hprod : roundF64 (1 / 2 * (files.length : ℚ)) = (files.length : ℚ) / 2 := by
    have := roundF64_rep files.length (-1) hn (by norm_num)
    have e : (files.length : ℚ) * 2 ^ (-1 : ℤ) = 1 / 2 * (files.length : ℚ) := by
      rw [zpow_neg_one]; ring
    rw [e] at this
    rw [this]; ring
  unfold cmdJunkAnalyze.ntrain
  rw [hr, roundF64_half, roundF64_natCast _ hn, hprod,
    truncInt_of_nonneg _ (by positivity)]
  have := Rat.floor_intCast_div_natCast (files.length : ℤ) 2
  simpa using this

/-- With the ratio 0.29 and 100 files the number of training files is 28,
while 0.29 times 100 is 29: the float64 nearest to 0.29 is below 0.29 and the
product is rounded to a float64 below 29. -/
theorem cmdJunkAnalyze.ntrain_029 :
    cmdJunkAnalyze.ntrain { (junkFlags []).1 with trainRatio := 29 / 100 }
      (List.replicate 100 "m") = 28 ∧
    ⌊(29 / 100 : ℚ) * 100⌋ = 29 := by
  constructor
  · simp only [cmdJunkAnalyze.ntrain, List.length_replicate]
    rw [roundF64_029, roundF64_natCast 100 (by norm_num)]
    have : ((100 : ℕ) : ℚ) = 100 := by norm_num
    rw [this, roundF64_029_times_100, truncInt_of_nonneg _ (by norm_num)]
    rw [Int.floor_eq_iff]
    constructor <;> norm_num
  · norm_num

/-- With the ratio 0.7 and 10 files the number of training files is 7, while
the float64 nearest to 0.7, times 10, is below 7: the product is rounded up
to the float64 7. -/
theorem cmdJunkAnalyze.ntrain_07 :
    cmdJunkAnalyze.ntrain { (junkFlags []).1 with trainRatio := 7 / 10 }
      (List.replicate 10 "m") = 7 ∧
    ⌊roundF64 (7 / 10) * 10⌋ = 6 := by
  constructor
  · simp only [cmdJunkAnalyze.ntrain, List.length_replicate]
    rw [roundF64_07, roundF64_natCast 10 (by norm_num)]
    have : ((10 : ℕ) : ℚ) = 10 := by norm_num
    rw [this, roundF64_07_times_10, truncInt_of_nonneg _ (by norm_num)]
    norm_num
  · rw [roundF64_07, Int.floor_eq_iff]
    constructor <;> norm_num

/-! ### The arguments of a command -/

/-- The `a` of a command is the value `junkFlags` returns, which is the same
for every flag set and every command line. -/
theorem cmd.parseJunk_fst (c : cmd) : c.parseJunk.1 = (junkFlags []).1 := rfl

/-- For a train ratio between 0 and 1 and listings of fewer than 2^53 files
neither the shuffles nor the slice operations panic; the training part is the
first `ntrain` files of the shuffled listing and the test part the others. -/
theorem cmdJunkAnalyze.split_ok {ρ : Type} (R : Rand ρ) (os : OS) (a : junkArgs)
    (hamFiles spamFiles : List String) (h0 : 0 ≤ a.trainRatio) (h1 : a.trainRatio ≤ 1)
    (hh : hamFiles.length < 2 ^ 53) (hs : spamFiles.length < 2 ^ 53) :
    ∃ (g1 g2 : ρ) (hamShuffled spamShuffled : List String) (sp : Split),
      cmdJunkAnalyze.shuffle R (cmdJunkAnalyze.newRand R os a) hamFiles =
        some (g1, hamShuffled) ∧
      cmdJunkAnalyze.shuffle R g1 spamFiles = some (g2, spamShuffled) ∧
      hamShuffled.length = hamFiles.length ∧ spamShuffled.length = spamFiles.length ∧
      cmdJunkAnalyze.split R os a hamFiles spamFiles = Except.ok sp ∧
      sp.ntrainham = cmdJunkAnalyze.ntrain a hamShuffled ∧
      sp.ntrainspam = cmdJunkAnalyze.ntrain a spamShuffled ∧
      0 ≤ sp.ntrainham ∧ sp.ntrainham ≤ (hamFiles.length : ℤ) ∧
      0 ≤ sp.ntrainspam ∧ sp.ntrainspam ≤ (spamFiles.length : ℤ) ∧
      sp.trainHam = hamShuffled.take sp.ntrainham.toNat ∧
      sp.testHam = hamShuffled.drop sp.ntrainham.toNat ∧
      sp.trainSpam = spamShuffled.take sp.ntrainspam.toNat ∧
      sp.testSpam = spamShuffled.drop sp.ntrainspam.toNat ∧
      (sp.trainHam.length : ℤ) = sp.ntrainham ∧
      (sp.testHam.length : ℤ) = (hamFiles.length : ℤ) - sp.ntrainham ∧
      (sp.trainSpam.length : ℤ) = sp.ntrainspam ∧
      (sp.testSpam.length : ℤ) = (spamFiles.length : ℤ) - sp.ntrainspam := by
  obtain ⟨g1, hs1, e1, l1⟩ := cmdJunkAnalyze.shuffle_ok R (cmdJunkAnalyze.newRand R os a) hamFiles
  obtain ⟨g2, ss, e2, l2⟩ := cmdJunkAnalyze.shuffle_ok R g1 spamFiles
  obtain ⟨n2, n3⟩ := cmdJunkAnalyze.ntrain_bounds a hs1 h0 h1 (by rw [l1]; exact hh)
  obtain ⟨m2, m3⟩ := cmdJunkAnalyze.ntrain_bounds a ss h0 h1 (by rw [l2]; exact hs)
  refine ⟨g1, g2, hs1, ss,
    Split.mk (cmdJunkAnalyze.ntrain a hs1) (cmdJunkAnalyze.ntrain a ss)
      (hs1.take (cmdJunkAnalyze.ntrain a hs1).toNat)
      (ss.take (cmdJunkAnalyze.ntrain a ss).toNat)
      (hs1.drop (cmdJunkAnalyze.ntrain a hs1).toNat)
      (ss.drop (cmdJunkAnalyze.ntrain a ss).toNat),
    e1, e2, l1, l2, ?_, rfl, rfl, n2, ?_, m2, ?_, rfl, rfl, rfl, rfl, ?_, ?_, ?_, ?_⟩
  · simp [cmdJunkAnalyze.split, e1, e2, sliceTo, sliceFrom, n2, n3, m2, m3, pure, Except.pure]
  · simpa [l1] using n3
  · simpa [l2] using m3
  · simp only [List.length_take]
    omega
  · simp only [List.length_drop]
    omega
  · simp only [List.length_take]
    omega
  · simp only [List.length_drop]
    omega

/-- The default train ratio, as `junkFlags` returns it. -/
theorem junkFlags_trainRatio : (junkFlags []).1.trainRatio = 5 / 10 := rfl

/-- C4. Whatever the command line of `cmdJunkAnalyze`, an option `-train-ratio`
included, the train ratio in the `a` of the command is the 0.5 that
`junkFlags` returned. So for listings of fewer than 2^53 files neither the
shuffles nor the slice operations panic, and the number of training files of a
listing of n files is n/2 rounded down, not floor(r*n) for the ratio r of the
command line: the training part is the first n/2 (rounded down) files of the
shuffled listing and the test part the others. -/
theorem C4_train_ratio_ignored {ρ : Type} (R : Rand ρ) (os : OS) (c : cmd)
    (hamFiles spamFiles : List String)
    (hh : hamFiles.length < 2 ^ 53) (hs : spamFiles.length < 2 ^ 53) :
    c.parseJunk.1.trainRatio = 1 / 2 ∧
    ∃ (g1 g2 : ρ) (hamShuffled spamShuffled : List String) (sp : Split),
      cmdJunkAnalyze.shuffle R (cmdJunkAnalyze.newRand R os c.parseJunk.1) hamFiles =
        some (g1, hamShuffled) ∧
      cmdJunkAnalyze.shuffle R g1 spamFiles = some (g2, spamShuffled) ∧
      cmdJunkAnalyze.split R os c.parseJunk.1 hamFiles spamFiles = Except.ok sp ∧
      sp.ntrainham = (hamFiles.length : ℤ) / 2 ∧
      sp.ntrainspam = (spamFiles.length : ℤ) / 2 ∧
      sp.trainHam = hamShuffled.take (hamFiles.length / 2) ∧
      sp.testHam = hamShuffled.drop (hamFiles.length / 2) ∧
      sp.trainSpam = spamShuffled.take (spamFiles.length / 2) ∧
      sp.testSpam = spamShuffled.drop (spamFiles.length / 2) ∧
      sp.trainHam.length = hamFiles.length / 2 ∧
      sp.testHam.length = hamFiles.length - hamFiles.length / 2 ∧
      sp.trainSpam.length = spamFiles.length / 2 ∧
      sp.testSpam.length = spamFiles.length - spamFiles.length / 2 := by
  have hr : c.parseJunk.1.trainRatio = 1 / 2 := by
    rw [cmd.parseJunk_fst, junkFlags_trainRatio]; norm_num
  obtain ⟨g1, g2, hs1, ss, sp, e1, e2, l1, l2, hsp, n1, n2, -, -, -, -, t1, t2, t3, t4, -⟩ :=
    cmdJunkAnalyze.split_ok R os c.parseJunk.1 hamFiles spamFiles
      (by rw [hr]; norm_num) (by rw [hr]; norm_num) hh hs
  have k1 : sp.ntrainham = (hamFiles.length : ℤ) / 2 := by
    rw [n1, cmdJunkAnalyze.ntrain_half _ _ hr (by rw [l1]; exact hh), l1]
  have k2 : sp.ntrainspam = (spamFiles.length : ℤ) / 2 := by
    rw [n2, cmdJunkAnalyze.ntrain_half _ _ hr (by rw [l2]; exact hs), l2]
  have j1 : sp.ntrainham.toNat = hamFiles.length / 2 := by rw [k1]; omega
  have j2 : sp.ntrainspam.toNat = spamFiles.length / 2 := by rw [k2]; omega
  rw [j1] at t1 t2
  rw [j2] at t3 t4
  refine ⟨hr, g1, g2, hs1, ss, sp, e1, e2, hsp, k1, k2, t1, t2, t3, t4, ?_, ?_, ?_, ?_⟩
  · rw [t1, List.length_take]; omega
  · rw [t2, List.length_drop]; omega
  · rw [t3, List.length_take]; omega
  · rw [t4, List.length_drop]; omega

/-- C4 at the command line `-train-ratio 0.8 ham spam` with ten ham and ten
spam files: parsing stores 0.8 in the variable of the flag, 0.8 times 10 is 8,
and the command trains on five files of each class and tests on five. -/
theorem C4_train_ratio_ignored_witness :
    tenHam.length < 2 ^ 53 ∧ tenSpam.length < 2 ^ 53 ∧
    (ratioCmd.Parse (junkFlags ratioCmd.flag).2 (junkFlags ratioCmd.flag).1).1.trainRatio =
      8 / 10 ∧
    ⌊(8 / 10 : ℚ) * (tenHam.length : ℚ)⌋ = 8 ∧
    ratioCmd.parseJunk.1.trainRatio = 1 / 2 ∧
    ∃ sp : Split,
      cmdJunkAnalyze.split lcgRand fixtureOS ratioCmd.parseJunk.1 tenHam tenSpam =
        Except.ok sp ∧
      sp.ntrainham = 5 ∧ sp.ntrainspam = 5 ∧
      sp.trainHam.length = 5 ∧ sp.testHam.length = 5 ∧
      sp.trainSpam.length = 5 ∧ sp.testSpam.length = 5 := by
  have hh : tenHam.length < 2 ^ 53 := by simp [tenHam]
  have hs : tenSpam.length < 2 ^ 53 := by simp [tenSpam]
  obtain ⟨hr, -, -, -, -, sp, -, -, hsp, k1, k2, -, -, -, -, m1, m2, m3, m4⟩ :=
    C4_train_ratio_ignored lcgRand fixtureOS ratioCmd tenHam tenSpam hh hs
  simp only [tenHam, tenSpam, List.length_cons, List.length_nil] at k1 k2 m1 m2 m3 m4
  refine ⟨hh, hs, rfl, ?_, hr, sp, hsp, ?_, ?_, m1, m2, m3, m4⟩
  · simp only [tenHam, List.length_cons, List.length_nil]
    rw [Int.floor_eq_iff]
    constructor <;> norm_num
  · rw [k1]; norm_num
  · rw [k2]; norm_num

/-! ## The seed of the shuffle -/

/-- With the generator `lcgRand`, two seeds that shuffle a list differently. -/
theorem shuffle_depends_on_seed :
    cmdJunkAnalyze.shuffle lcgRand (lcgRand.NewSource 0) ["a", "b", "c"] ≠
      cmdJunkAnalyze.shuffle lcgRand (lcgRand.NewSource 1) ["a", "b", "c"] := by
  decide

/-- Go `listDir` only looks at the directory listing. -/
theorem listDir_congr (os1 os2 : OS) (h : os1.ReadDir = os2.ReadDir) (dir : String) :
    listDir os1 dir = listDir os2 dir := by
  simp [listDir, h]

/-- The body of `cmdJunkAnalyze` chooses the random source by `a.seed`: with
`a.seed` false it is `NewSource(0)`, whatever the time, and then the split and
the whole body do not depend on the clock; with `a.seed` true it is
`NewSource(time.Now().UnixMilli())`. -/
theorem cmdJunkAnalyze.seed_branches {ρ : Type} (R : Rand ρ) (os1 os2 : OS) (a : junkArgs)
    (hseed : a.seed = false) :
    cmdJunkAnalyze.newRand R os1 a = R.NewSource 0 ∧
    (∀ (os : OS) (b : junkArgs), b.seed = true →
      cmdJunkAnalyze.newRand R os b = R.NewSource os.NowUnixMilli) ∧
    (∀ hamFiles spamFiles : List String, cmdJunkAnalyze.split R os1 a hamFiles spamFiles =
      cmdJunkAnalyze.split R os2 a hamFiles spamFiles) ∧
    (os1.ReadDir = os2.ReadDir → ∀ {σ : Type} (F : Filter σ) (args : List String),
      cmdJunkAnalyze F os1 R a args = cmdJunkAnalyze F os2 R a args) := by
  have e3 : ∀ (l1 l2 : List String),
      cmdJunkAnalyze.split R os1 a l1 l2 = cmdJunkAnalyze.split R os2 a l1 l2 := by
    intro l1 l2
    unfold cmdJunkAnalyze.split
    simp [cmdJunkAnalyze.newRand, hseed]
  refine ⟨by simp [cmdJunkAnalyze.newRand, hseed], ?_, e3, ?_⟩
  · intro os b hb
    simp [cmdJunkAnalyze.newRand, hb]
  · intro hdir σ F args
    unfold cmdJunkAnalyze
    simp only [listDir_congr os1 os2 hdir, e3]

/-- C5. Whatever the command line of `cmdJunkAnalyze`, the option `-seed`
included, `a.seed` is false in the command: parsing `-seed` sets the variable
of the flag, which is not the `a` of the command. So the random source of the
shuffle is always `NewSource(0)`, the branch that seeds it from the current
time is never taken, and the split and the whole command are the same at any
two times on systems that list the same directories. -/
theorem C5_seed_option_ignored {ρ : Type} (R : Rand ρ) (os1 os2 : OS) (c : cmd)
    (hamFiles spamFiles : List String) :
    (seedCmd.Parse (junkFlags seedCmd.flag).2 (junkFlags seedCmd.flag).1).1.seed = true ∧
    seedCmd.parseJunk.1.seed = false ∧
    c.parseJunk.1.seed = false ∧
    cmdJunkAnalyze.newRand R os1 c.parseJunk.1 = R.NewSource 0 ∧
    cmdJunkAnalyze.split R os1 c.parseJunk.1 hamFiles spamFiles =
      cmdJunkAnalyze.split R os2 c.parseJunk.1 hamFiles spamFiles ∧
    (os1.ReadDir = os2.ReadDir → ∀ {σ : Type} (F : Filter σ),
      cmdJunkAnalyze.run F os1 R c = cmdJunkAnalyze.run F os2 R c) := by
  have hseed : c.parseJunk.1.seed = false := rfl
  obtain ⟨b1, -, b3, b4⟩ := cmdJunkAnalyze.seed_branches R os1 os2 c.parseJunk.1 hseed
  refine ⟨rfl, rfl, hseed, b1, b3 hamFiles spamFiles, ?_⟩
  intro hdir σ F
  exact b4 hdir F c.parseJunk.2

/-- C5 at the command line `-seed ham spam`, for two runs at different times:
the source is `NewSource(0)` in both and the splits are the same. -/
theorem C5_seed_option_ignored_witness :
    fixtureOS.NowUnixMilli ≠ laterOS.NowUnixMilli ∧
    (seedCmd.Parse (junkFlags seedCmd.flag).2 (junkFlags seedCmd.flag).1).1.seed = true ∧
    cmdJunkAnalyze.newRand lcgRand laterOS seedCmd.parseJunk.1 = lcgRand.NewSource 0 ∧
    cmdJunkAnalyze.split lcgRand fixtureOS seedCmd.parseJunk.1 tenHam tenSpam =
      cmdJunkAnalyze.split lcgRand laterOS seedCmd.parseJunk.1 tenHam tenSpam :=
  ⟨by decide, rfl,
    (C5_seed_option_ignored lcgRand laterOS fixtureOS seedCmd tenHam tenSpam).2.2.2.1,
    (C5_seed_option_ignored lcgRand fixtureOS laterOS seedCmd tenHam tenSpam).2.2.2.2.1⟩

/-! ## The order of the replay -/

/-- One iteration of `scanDir` keeps the messages it had and adds at most one,
with a date that is not zero, the given directory and the given labels. -/
theorem cmdJunkPlay.scanFile_msgs (os : OS) (dir : String) (ham sent : Bool)
    (st st1 : ScanSt) (name : String)
    (h : cmdJunkPlay.scanFile os dir ham sent st name = Except.ok st1) :
    st1.msgs = st.msgs ∨
      ∃ t : ℤ, t ≠ 0 ∧ st1.msgs = st.msgs ++ [msg.mk dir name ham sent t] := by
  unfold cmdJunkPlay.scanFile at h
  cases hO : os.Open (dir ++ "/" ++ name) with
  | some e => simp [hO, throw, throwThe, MonadExceptOf.throw] at h
  | none =>
    cases hS : os.Stat (dir ++ "/" ++ name) with
    | some e => simp [hO, hS, throw, throwThe, MonadExceptOf.throw] at h
    | none =>
      simp only [hO, hS] at h
      cases hP : os.EnsurePart (dir ++ "/" ++ name) with
      | error e =>
        simp only [hP, pure, Except.pure] at h
        left; rw [← Except.ok.inj h]
      | ok p =>
        simp only [hP] at h
        by_cases hz : p.dateIsZero = true
        · simp only [hz, if_true, pure, Except.pure] at h
          left; rw [← Except.ok.inj h]
        · right
          have hne : p.Date ≠ 0 := by
            intro h0; apply hz; simp [Part.dateIsZero, h0]
          have hz1 : p.dateIsZero = false := by simpa using hz
          refine ⟨p.Date, hne, ?_⟩
          simp only [hz1, Bool.false_eq_true, if_false, pure, Except.pure] at h
          split_ifs at h <;> rw [← Except.ok.inj h]

/-- The loop of `scanDir`: the messages it had, then messages with a date
that is not zero. -/
theorem cmdJunkPlay.scanFiles_msgs (os : OS) (dir : String) (ham sent : Bool)
    (files : List String) (st st1 : ScanSt)
    (h : files.foldlM (cmdJunkPlay.scanFile os dir ham sent) st = Except.ok st1) :
    ∃ added : List msg, st1.msgs = st.msgs ++ added ∧ ∀ m ∈ added, m.t ≠ 0 := by
  induction files generalizing st with
  | nil =>
    simp only [List.foldlM_nil, pure, Except.pure] at h
    exact ⟨[], by rw [← Except.ok.inj h]; simp, by simp⟩
  | cons name rest ih =>
    rw [List.foldlM_cons] at h
    obtain ⟨st2, h1, h2⟩ := bind_eq_ok _ _ _ h
    obtain ⟨added, e1, e2⟩ := ih st2 h2
    rcases cmdJunkPlay.scanFile_msgs os dir ham sent st st2 name h1 with e | ⟨t, ht, e⟩
    · exact ⟨added, by rw [e1, e], e2⟩
    · refine ⟨msg.mk dir name ham sent t :: added, by rw [e1, e]; simp, ?_⟩
      intro m hm
      rcases List.mem_cons.mp hm with rfl | hm
      · exact ht
      · exact e2 m hm

/-- Go `scanDir` keeps the messages it had and adds messages with a date that
is not zero. -/
theorem cmdJunkPlay.scanDir_msgs (os : OS) (dir : String) (ham sent : Bool)
    (st st1 : ScanSt) (h : cmdJunkPlay.scanDir os dir ham sent st = Except.ok st1) :
    ∃ added : List msg, st1.msgs = st.msgs ++ added ∧ ∀ m ∈ added, m.t ≠ 0 := by
  unfold cmdJunkPlay.scanDir at h
  obtain ⟨files, -, h⟩ := bind_eq_ok _ _ _ h
  exact cmdJunkPlay.scanFiles_msgs os dir ham sent files st st1 h

/-- Every message the three scans of `cmdJunkPlay` collect has a date that is
not zero. -/
theorem cmdJunkPlay.scan_dated (os : OS) (a : junkArgs) (hamDir spamDir : String)
    (sc : ScanSt) (h : cmdJunkPlay.scan os a hamDir spamDir = Except.ok sc) :
    ∀ m ∈ sc.msgs, m.t ≠ 0 := by
  unfold cmdJunkPlay.scan at h
  obtain ⟨st1, h1, h⟩ := bind_eq_ok _ _ _ h
  obtain ⟨st2, h2, h⟩ := bind_eq_ok _ _ _ h
  obtain ⟨ad1, e1, d1⟩ := cmdJunkPlay.scanDir_msgs os hamDir true false _ st1 h1
  obtain ⟨ad2, e2, d2⟩ := cmdJunkPlay.scanDir_msgs os spamDir false false st1 st2 h2
  simp only [List.nil_append] at e1
  have hst2 : ∀ m ∈ st2.msgs, m.t ≠ 0 := by
    intro m hm
    rw [e2, e1] at hm
    rcases List.mem_append.mp hm with hm | hm
    · exact d1 m hm
    · exact d2 m hm
  by_cases hs : a.sentDir ≠ ""
  · rw [if_pos hs] at h
    obtain ⟨ad3, e3, d3⟩ := cmdJunkPlay.scanDir_msgs os a.sentDir true true st2 sc h
    intro m hm
    rw [e3] at hm
    rcases List.mem_append.mp hm with hm | hm
    · exact hst2 m hm
    · exact d3 m hm
  · rw [if_neg hs] at h
    simp only [pure, Except.pure] at h
    rw [← Except.ok.inj h]
    exact hst2

/-- The comparison of `cmdJunkPlay` is a strict weak ordering, and sorting by
it puts the dates in non-decreasing order. -/
theorem cmdJunkPlay.replay_sorted (S : SortSlice) (sc : ScanSt) :
    (cmdJunkPlay.replay S sc).Perm sc.msgs ∧
    (cmdJunkPlay.replay S sc).Pairwise (fun x y => x.t ≤ y.t) := by
  refine ⟨S.perm _ _, ?_⟩
  have hs := S.sorted cmdJunkPlay.less sc.msgs
    (by intro x; simp [cmdJunkPlay.less])
    (by
      intro x y z hxy hyz
      simp only [cmdJunkPlay.less, decide_eq_true_eq] at hxy hyz ⊢
      omega)
    (by
      intro x y z hxy hyz
      simp only [cmdJunkPlay.less, decide_eq_false_iff_not, not_lt] at hxy hyz ⊢
      omega)
  unfold cmdJunkPlay.replay
  refine List.Pairwise.imp ?_ hs
  intro x y hxy
  simpa [cmdJunkPlay.less] using hxy

/-- By default no sent directory is given. -/
theorem junkFlags_sentDir : (junkFlags []).1.sentDir = "" := rfl

/-- The scans of `cmdJunkPlay` on `playOS`. -/
theorem play_scan : cmdJunkPlay.scan playOS (junkFlags []).1 "ham" "spam" = Except.ok playScan := by
  simp [cmdJunkPlay.scan, cmdJunkPlay.scanDir, listDir, playOS, tableOS, cmdJunkPlay.scanFile,
    Part.dateIsZero, junkFlags_sentDir, bind, Except.bind, pure, Except.pure, playScan]

/-- The replay order on `playOS`: by date, not by listing. -/
theorem play_replay :
    cmdJunkPlay.replay insertionSortSlice playScan =
      [⟨"ham", "h1", true, false, 10⟩, ⟨"spam", "s0", false, false, 20⟩,
       ⟨"ham", "h0", true, false, 30⟩] := by
  simp [cmdJunkPlay.replay, insertionSortSlice, playScan, cmdJunkPlay.less, List.insertionSort,
    List.orderedInsert]

/-- The play command on `playOS`, with the default options. -/
theorem play_run :
    cmdJunkPlay (tableFilter fixtureScores) playOS insertionSortSlice (junkFlags []).1
      ["ham", "spam"] = Except.ok playRun := by
  simp only [cmdJunkPlay, play_scan, play_replay, bind, Except.bind]
  simp [must, tableFilter, cmdJunkPlay.play, cmdJunkPlay.train, fixtureScores,
    junkFlags_spamThreshold, xcheckf, pure, Except.pure, playRun, ratioLines, fdiv, bind,
    Except.bind]
  norm_num [playScan]

/-- C6. In play mode, a run that ends normally plays (folds `play` over) the
list `replay`, which is a permutation of the scanned messages, all of which
have a date that is not zero, and along which the dates never decrease: no
message comes before a message with a strictly earlier date. The calls
recorded on the filter show the messages that are not sent ones classified in
this order. -/
theorem C6_replay_chronological {σ : Type} (F : Filter σ) (os : OS) (S : SortSlice)
    (a : junkArgs) (args : List String) (r : Run σ)
    (h : cmdJunkPlay F os S a args = Except.ok r) :
    ∃ (hamDir spamDir : String) (sc : ScanSt) (f0 : σ) (st : PlaySt σ) (tr : List Call),
      args = [hamDir, spamDir] ∧
      cmdJunkPlay.scan os a hamDir spamDir = Except.ok sc ∧
      (∀ m ∈ sc.msgs, m.t ≠ 0) ∧
      F.NewFilter a.params a.databasePath a.bloomfilterPath = Except.ok f0 ∧
      (cmdJunkPlay.replay S sc).foldlM (cmdJunkPlay.play F os a)
        { f := f0, nbad := sc.nbad, nhamok := 0, nhambad := 0, nspamok := 0, nspambad := 0,
          log := [] } = Except.ok st ∧
      (cmdJunkPlay.replay S sc).Perm sc.msgs ∧
      (cmdJunkPlay.replay S sc).Pairwise (fun x y => x.t ≤ y.t) ∧
      cmdJunkPlay (traced F) os S a args =
        Except.ok { f := (r.f, tr), out := r.out, log := r.log } ∧
      classifyPaths tr = ((cmdJunkPlay.replay S sc).filter (fun m => m.sent = false)).map
        (fun m => m.dir ++ "/" ++ m.filename) := by
  obtain ⟨tr, hT⟩ := evalMode_traced_of_ok Mode.play F os lcgRand S a args r h
  obtain ⟨hamDir, spamDir, sc, calls, n1, n2, n3, n4, hargs, hsc, htr, hp, -, -⟩ :=
    cmdJunkPlay_traced F os S a args _ hT
  simp only at htr
  subst hargs
  have h' := h
  unfold cmdJunkPlay at h'
  simp only at h'
  obtain ⟨f0, hnew, h'⟩ := bind_eq_ok _ _ _ h'
  obtain ⟨sc1, hsc1, h'⟩ := bind_eq_ok _ _ _ h'
  obtain ⟨st, hst, -⟩ := bind_eq_ok _ _ _ h'
  have hscEq : sc1 = sc := by
    rw [hsc] at hsc1
    exact (Except.ok.inj hsc1).symm
  subst hscEq
  obtain ⟨hperm, hsorted⟩ := cmdJunkPlay.replay_sorted S sc1
  refine ⟨hamDir, spamDir, sc1, f0, st, tr, rfl, hsc,
    cmdJunkPlay.scan_dated os a hamDir spamDir sc1 hsc, must_eq_ok _ _ hnew, hst, hperm,
    hsorted, hT, ?_⟩
  rw [htr, ← hp]
  simp [classifyPaths, Call.classifyPath?]

/-- C6 on `playOS`: the ham message listed first is played last. -/
theorem C6_replay_chronological_witness :
    cmdJunkPlay (tableFilter fixtureScores) playOS insertionSortSlice (junkFlags []).1
      ["ham", "spam"] = Except.ok playRun ∧
    cmdJunkPlay.replay insertionSortSlice playScan =
      [⟨"ham", "h1", true, false, 10⟩, ⟨"spam", "s0", false, false, 20⟩,
       ⟨"ham", "h0", true, false, 30⟩] ∧
    ∃ (hamDir spamDir : String) (sc : ScanSt) (f0 : ℕ × ℕ) (st : PlaySt (ℕ × ℕ))
      (tr : List Call),
      ["ham", "spam"] = [hamDir, spamDir] ∧
      cmdJunkPlay.scan playOS (junkFlags []).1 hamDir spamDir = Except.ok sc ∧
      (∀ m ∈ sc.msgs, m.t ≠ 0) ∧
      (tableFilter fixtureScores).NewFilter (junkFlags []).1.params
        (junkFlags []).1.databasePath (junkFlags []).1.bloomfilterPath = Except.ok f0 ∧
      (cmdJunkPlay.replay insertionSortSlice sc).foldlM
        (cmdJunkPlay.play (tableFilter fixtureScores) playOS (junkFlags []).1)
        { f := f0, nbad := sc.nbad, nhamok := 0, nhambad := 0, nspamok := 0, nspambad := 0,
          log := [] } = Except.ok st ∧
      (cmdJunkPlay.replay insertionSortSlice sc).Perm sc.msgs ∧
      (cmdJunkPlay.replay insertionSortSlice sc).Pairwise (fun x y => x.t ≤ y.t) ∧
      cmdJunkPlay (traced (tableFilter fixtureScores)) playOS insertionSortSlice
          (junkFlags []).1 ["ham", "spam"] =
        Except.ok { f := (playRun.f, tr), out := playRun.out, log := playRun.log } ∧
      classifyPaths tr =
        ((cmdJunkPlay.replay insertionSortSlice sc).filter (fun m => m.sent = false)).map
          (fun m => m.dir ++ "/" ++ m.filename) :=
  ⟨play_run, play_replay,
    C6_replay_chronological (tableFilter fixtureScores) playOS insertionSortSlice
      (junkFlags []).1 ["ham", "spam"] playRun play_run⟩

/-! ## Misclassification lines -/

/-- What one iteration of the test loop does with a classified message: it
adds one to `ok` or to `bad`, and it prints a line exactly when the message is
counted bad and its probability is not the threshold itself. -/
theorem cmdJunkTest.testFile_classified {σ : Type} (F : Filter σ) (a : junkArgs) (dir : String)
    (ham : Bool) (st : TestSt σ) (name : String) (f1 : σ) (prob : ℚ) (words : Words)
    (h : F.ClassifyMessagePath st.f (dir ++ "/" ++ name) = (f1, Except.ok (prob, words))) :
    ((cmdJunkTest.testFile F a dir ham st name).ok = st.ok + 1 ∧
        (cmdJunkTest.testFile F a dir ham st name).bad = st.bad ∧
        (cmdJunkTest.testFile F a dir ham st name).out = st.out ∨
      (cmdJunkTest.testFile F a dir ham st name).ok = st.ok ∧
        (cmdJunkTest.testFile F a dir ham st name).bad = st.bad + 1 ∧
        ((cmdJunkTest.testFile F a dir ham st name).out =
            st.out ++ [if ham = true then Line.ham (dir ++ "/" ++ name) prob
                       else Line.spam (dir ++ "/" ++ name) prob] ∧
          prob ≠ a.spamThreshold ∨
         (cmdJunkTest.testFile F a dir ham st name).out = st.out ∧
          prob = a.spamThreshold)) := by
  simp only [cmdJunkTest.testFile, h]
  rcases lt_trichotomy prob a.spamThreshold with hlt | heq | hgt
  · have h1 : ¬ prob > a.spamThreshold := not_lt.mpr (le_of_lt hlt)
    cases ham <;> simp [hlt, h1, ne_of_lt hlt]
  · subst heq
    cases ham <;> simp
  · have h1 : ¬ prob < a.spamThreshold := not_lt.mpr (le_of_lt hgt)
    cases ham <;> simp [hgt, h1, ne_of_gt hgt]

/-- The same for the loop of analyze. -/
theorem cmdJunkAnalyze.analyzeFile_classified {σ : Type} (F : Filter σ) (a : junkArgs)
    (dir : String) (ham : Bool) (st : AnalyzeSt σ) (name : String) (f1 : σ) (prob : ℚ)
    (words : Words)
    (h : F.ClassifyMessagePath st.f (dir ++ "/" ++ name) = (f1, Except.ok (prob, words))) :
    ((cmdJunkAnalyze.testFile F a dir ham st name).ok = st.ok + 1 ∧
        (cmdJunkAnalyze.testFile F a dir ham st name).bad = st.bad ∧
        (cmdJunkAnalyze.testFile F a dir ham st name).out = st.out ∨
      (cmdJunkAnalyze.testFile F a dir ham st name).ok = st.ok ∧
        (cmdJunkAnalyze.testFile F a dir ham st name).bad = st.bad + 1 ∧
        ((cmdJunkAnalyze.testFile F a dir ham st name).out =
            st.out ++ [if ham = true then Line.ham (dir ++ "/" ++ name) prob
                       else Line.spam (dir ++ "/" ++ name) prob] ∧
          prob ≠ a.spamThreshold ∨
         (cmdJunkAnalyze.testFile F a dir ham st name).out = st.out ∧
          prob = a.spamThreshold)) := by
  simp only [cmdJunkAnalyze.testFile, h]
  rcases lt_trichotomy prob a.spamThreshold with hlt | heq | hgt
  · have h1 : ¬ prob > a.spamThreshold := not_lt.mpr (le_of_lt hlt)
    cases ham <;> simp [hlt, h1, ne_of_lt hlt]
  · subst heq
    cases ham <;> simp
  · have h1 : ¬ prob < a.spamThreshold := not_lt.mpr (le_of_lt hgt)
    cases ham <;> simp [hgt, h1, ne_of_gt hgt]

/-- The test command on the two messages at the threshold. -/
theorem threshold_test_run :
    cmdJunkTest (tableFilter (fun _ => some (95 / 100))) thresholdOS (junkFlags []).1
      ["ham", "spam"] = Except.ok thresholdRun := by
  simp [cmdJunkTest, must, tableFilter, thresholdOS, tableOS, cmdJunkTest.testDir,
    bind, Except.bind, pure, Except.pure, cmdJunkTest.testFile,
    junkFlags_spamThreshold, thresholdRun, ratioLines, fdiv]

/-- C7 at the failing input: a ham and a spam message whose probability equals
the spam threshold 0.95. The test command counts each of them as bad (ok 0,
bad 1 for both classes) and its output has no `ham` or `spam` line for either:
the output is the summary alone. -/
theorem C7_threshold_bad_without_line :
    (junkFlags []).1.spamThreshold = 95 / 100 ∧
    thresholdOS.ReadDir "ham" = Except.ok ["m1"] ∧
    thresholdOS.ReadDir "spam" = Except.ok ["s1"] ∧
    (cmdJunkTest (tableFilter (fun _ => some (95 / 100))) thresholdOS (junkFlags []).1
      ["ham", "spam"]).toOption.map Run.out =
      some [Line.totalHam 0 1 none, Line.totalSpam 0 1 none, Line.specificity (F64.finite 0),
        Line.sensitivity (F64.finite 0), Line.accuracy (F64.finite 0)] := by
  rw [threshold_test_run]
  exact ⟨rfl, rfl, rfl, rfl⟩

/-! ## Test mode does not train -/

/-- Classifying with a table filter leaves its state as it is. -/
theorem tableFilter_classify_pure (tbl : String → Option ℚ) (s : ℕ × ℕ) (path : String) :
    ((tableFilter tbl).ClassifyMessagePath s path).1 = s := by
  simp only [tableFilter]
  split <;> rfl

/-- With a classification that leaves the filter as it is, one iteration of
the test loop leaves the filter as it is. -/
theorem cmdJunkTest.testFile_filter {σ : Type} (F : Filter σ) (a : junkArgs) (dir : String)
    (ham : Bool) (st : TestSt σ) (name : String)
    (hpure : ∀ (s : σ) (path : String), (F.ClassifyMessagePath s path).1 = s) :
    (cmdJunkTest.testFile F a dir ham st name).f = st.f := by
  have hp := hpure st.f (dir ++ "/" ++ name)
  simp only [cmdJunkTest.testFile]
  rcases hc : F.ClassifyMessagePath st.f (dir ++ "/" ++ name) with ⟨f1, res⟩
  rw [hc] at hp
  simp only at hp
  subst hp
  cases res with
  | error e => rfl
  | ok v =>
    obtain ⟨prob, w⟩ := v
    simp only []
    split_ifs <;> rfl

/-- With a classification that leaves the filter as it is, the test loop
leaves the filter as it is. -/
theorem cmdJunkTest.testFiles_filter {σ : Type} (F : Filter σ) (a : junkArgs) (dir : String)
    (ham : Bool) (files : List String) (st : TestSt σ)
    (hpure : ∀ (s : σ) (path : String), (F.ClassifyMessagePath s path).1 = s) :
    (files.foldl (cmdJunkTest.testFile F a dir ham) st).f = st.f := by
  induction files generalizing st with
  | nil => rfl
  | cons name rest ih =>
    simp only [List.foldl_cons]
    rw [ih, cmdJunkTest.testFile_filter F a dir ham st name hpure]

/-- With a classification that leaves the filter as it is, `testDir` of
`cmdJunkTest` leaves the filter as it is. -/
theorem cmdJunkTest.testDir_filter {σ : Type} (F : Filter σ) (os : OS) (a : junkArgs)
    (dir : String) (ham : Bool) (r0 r1 : Run σ) (nok nbad : ℕ)
    (hpure : ∀ (s : σ) (path : String), (F.ClassifyMessagePath s path).1 = s)
    (h : cmdJunkTest.testDir F os a dir ham r0 = Except.ok (r1, nok, nbad)) :
    r1.f = r0.f := by
  unfold cmdJunkTest.testDir at h
  cases hH : os.ReadDir dir with
  | error e => simp [hH, throw, throwThe, MonadExceptOf.throw] at h
  | ok files =>
    simp only [hH, pure, Except.pure] at h
    have hr := Except.ok.inj h
    simp only [Prod.mk.injEq] at hr
    rw [← hr.1]
    exact cmdJunkTest.testFiles_filter F a dir ham files _ hpure

/-- C8. Test mode classifies without training. A run of `cmdJunkTest` that ends
normally opens the existing filter, then makes only `ClassifyMessagePath`
calls on it, and closes it by the deferred `Close`; `Train`, `TrainDirs` and
`Save` are never called. So when classifying leaves the filter state as it
is, the filter that is closed at the end is the filter as it was opened. -/
theorem C8_test_without_training {σ : Type} (F : Filter σ) (os : OS) (a : junkArgs)
    (args : List String) (r : Run σ)
    (hpure : ∀ (s : σ) (path : String), (F.ClassifyMessagePath s path).1 = s)
    (h : cmdJunkTest F os a args = Except.ok r) :
    ∃ (f0 : σ) (tr calls : List Call),
      F.OpenFilter a.params a.databasePath a.bloomfilterPath false = Except.ok f0 ∧
      cmdJunkTest (traced F) os a args =
        Except.ok { f := (r.f, tr), out := r.out, log := r.log } ∧
      tr = Call.OpenFilter a.params a.databasePath a.bloomfilterPath false :: calls ++
        [Call.Close] ∧
      (∀ c ∈ calls, ∃ path res, c = Call.ClassifyMessagePath path res) ∧
      (∀ c ∈ tr, ∀ ham words err, c ≠ Call.Train ham words err) ∧
      (∀ c ∈ tr, ∀ hamDir sentDir spamDir hamFiles sentFiles spamFiles err,
        c ≠ Call.TrainDirs hamDir sentDir spamDir hamFiles sentFiles spamFiles err) ∧
      (∀ c ∈ tr, ∀ err, c ≠ Call.Save err) ∧
      r.f = F.Close f0 := by
  obtain ⟨tr, hT⟩ := evalMode_traced_of_ok Mode.test F os lcgRand insertionSortSlice a args r h
  obtain ⟨hamDir, spamDir, hamFiles, spamFiles, callsH, callsS, lines, n1, n2, n3, n4,
    hargs, -, -, htr, hall, -, -, -, -, -, -⟩ := cmdJunkTest_traced F os a args _ hT
  simp only at htr
  subst hargs
  have h' := h
  unfold cmdJunkTest at h'
  simp only at h'
  obtain ⟨f0, hopen, h'⟩ := bind_eq_ok _ _ _ h'
  obtain ⟨⟨r1, k1, k2⟩, hd1, h'⟩ := bind_eq_ok _ _ _ h'
  obtain ⟨⟨r2, k3, k4⟩, hd2, h'⟩ := bind_eq_ok _ _ _ h'
  have e1 := cmdJunkTest.testDir_filter F os a hamDir true _ r1 k1 k2 hpure hd1
  have e2 := cmdJunkTest.testDir_filter F os a spamDir false _ r2 k3 k4 hpure hd2
  have hr := (Except.ok.inj h').symm
  have hcalls : ∀ c ∈ callsH ++ callsS, ∃ path res, c = Call.ClassifyMessagePath path res := by
    intro c hc
    have := hall c hc
    cases c <;> simp [Call.classifyPath?] at this ⊢
  have hmem : ∀ c ∈ tr, c = Call.OpenFilter a.params a.databasePath a.bloomfilterPath false ∨
      (∃ path res, c = Call.ClassifyMessagePath path res) ∨ c = Call.Close := by
    intro c hc
    rw [htr] at hc
    simp only [List.cons_append, List.mem_cons, List.mem_append, List.mem_singleton,
      List.mem_nil_iff, or_false] at hc
    rcases hc with hc | (hc | hc) | hc
    · exact Or.inl hc
    · exact Or.inr (Or.inl (hcalls c (List.mem_append.mpr (Or.inl hc))))
    · exact Or.inr (Or.inl (hcalls c (List.mem_append.mpr (Or.inr hc))))
    · exact Or.inr (Or.inr hc)
  refine ⟨f0, tr, callsH ++ callsS, must_eq_ok _ _ hopen, hT, htr, hcalls, ?_, ?_, ?_, ?_⟩
  · intro c hc ham words err hEq
    rcases hmem c hc with e | ⟨p, res, e⟩ | e <;> rw [e] at hEq <;> cases hEq
  · intro c hc hamDir sentDir spamDir hamFiles sentFiles spamFiles err hEq
    rcases hmem c hc with e | ⟨p, res, e⟩ | e <;> rw [e] at hEq <;> cases hEq
  · intro c hc err hEq
    rcases hmem c hc with e | ⟨p, res, e⟩ | e <;> rw [e] at hEq <;> cases hEq
  · rw [hr]
    simp only []
    rw [e2, e1]

/-- C8 on the fixture, whose filter does not change when it classifies. -/
theorem C8_test_without_training_witness :
    (∀ (s : ℕ × ℕ) (path : String),
      ((tableFilter fixtureScores).ClassifyMessagePath s path).1 = s) ∧
    cmdJunkTest (tableFilter fixtureScores) fixtureOS (junkFlags []).1 ["ham", "spam"] =
      Except.ok fixtureRun ∧
    ∃ (f0 : ℕ × ℕ) (tr calls : List Call),
      (tableFilter fixtureScores).OpenFilter (junkFlags []).1.params
        (junkFlags []).1.databasePath (junkFlags []).1.bloomfilterPath false = Except.ok f0 ∧
      cmdJunkTest (traced (tableFilter fixtureScores)) fixtureOS (junkFlags []).1
          ["ham", "spam"] =
        Except.ok { f := (fixtureRun.f, tr), out := fixtureRun.out, log := fixtureRun.log } ∧
      tr = Call.OpenFilter (junkFlags []).1.params (junkFlags []).1.databasePath
        (junkFlags []).1.bloomfilterPath false :: calls ++ [Call.Close] ∧
      (∀ c ∈ calls, ∃ path res, c = Call.ClassifyMessagePath path res) ∧
      (∀ c ∈ tr, ∀ ham words err, c ≠ Call.Train ham words err) ∧
      (∀ c ∈ tr, ∀ hamDir sentDir spamDir hamFiles sentFiles spamFiles err,
        c ≠ Call.TrainDirs hamDir sentDir spamDir hamFiles sentFiles spamFiles err) ∧
      (∀ c ∈ tr, ∀ err, c ≠ Call.Save err) ∧
      fixtureRun.f = (tableFilter fixtureScores).Close f0 :=
  ⟨tableFilter_classify_pure fixtureScores, fixture_test_run,
    C8_test_without_training (tableFilter fixtureScores) fixtureOS (junkFlags []).1
      ["ham", "spam"] fixtureRun (tableFilter_classify_pure fixtureScores) fixture_test_run⟩

/-! ## The defaults of `junkFlags` -/

/-- C9. The value `junkFlags` returns, whatever flags were registered before,
and the defaults it registers on an empty flag set, are the documented ones:
max-power 0.05, ignore-words 0.1, top-words 10, rare-words 1, spam-threshold
0.95 and train-ratio 0.5. -/
theorem C9_junkFlags_defaults (fs : FlagSet) :
    (junkFlags fs).1.params.MaxPower = 5 / 100 ∧
    (junkFlags fs).1.params.IgnoreWords = 1 / 10 ∧
    (junkFlags fs).1.params.TopWords = 10 ∧
    (junkFlags fs).1.params.RareWords = 1 ∧
    (junkFlags fs).1.spamThreshold = 95 / 100 ∧
    (junkFlags fs).1.trainRatio = 1 / 2 ∧
    (junkFlags []).2.defValueOf "max-power" = some (FlagValue.float64 (5 / 100)) ∧
    (junkFlags []).2.defValueOf "ignore-words" = some (FlagValue.float64 (1 / 10)) ∧
    (junkFlags []).2.defValueOf "top-words" = some (FlagValue.int 10) ∧
    (junkFlags []).2.defValueOf "rare-words" = some (FlagValue.int 1) ∧
    (junkFlags []).2.defValueOf "spam-threshold" = some (FlagValue.float64 (95 / 100)) ∧
    (junkFlags []).2.defValueOf "train-ratio" = some (FlagValue.float64 (1 / 2)) := by
  refine ⟨rfl, rfl, rfl, rfl, rfl, ?_, ?_, ?_, ?_, ?_, ?_, ?_⟩
  · show (5 / 10 : ℚ) = 1 / 2
    norm_num
  · simp [junkFlags, BoolVar, Float64Var, IntVar, StringVar, FlagSet.defValueOf, List.find?]
  · simp [junkFlags, BoolVar, Float64Var, IntVar, StringVar, FlagSet.defValueOf, List.find?]
  · simp [junkFlags, BoolVar, Float64Var, IntVar, StringVar, FlagSet.defValueOf, List.find?]
  · simp [junkFlags, BoolVar, Float64Var, IntVar, StringVar, FlagSet.defValueOf, List.find?]
  · simp [junkFlags, BoolVar, Float64Var, IntVar, StringVar, FlagSet.defValueOf, List.find?]
  · simp [junkFlags, BoolVar, Float64Var, IntVar, StringVar, FlagSet.defValueOf, List.find?]
    norm_num

/-! ## The probability of the modelled filter -/

/-- The smoothed probability of a token lies strictly between 0 and 1. -/
theorem tokenProb_bounds (c : SpecChoice) (f : SpecFilter) (w : String) :
    0 < tokenProb c f w ∧ tokenProb c f w < 1 := by
  have hs := c.strength_pos
  have h1 : (0 : ℚ) ≤ ((f.words w).1 : ℚ) := by positivity
  have h2 : (0 : ℚ) ≤ ((f.words w).2 : ℚ) := by positivity
  have hden : 0 < c.strength + ((f.words w).2 : ℚ) + ((f.words w).1 : ℚ) := by linarith
  unfold tokenProb
  constructor
  · apply div_pos _ hden
    linarith
  · rw [div_lt_one hden]
    linarith

/-- The score of the spec's Scorer lies between 0 and 1. -/
theorem score_bounds (c : SpecChoice) (f : SpecFilter) (tokens : List String) :
    0 ≤ score c f tokens ∧ score c f tokens ≤ 1 := by
  unfold score
  simp only
  split_ifs with h
  · norm_num
  · have hS : 0 < ((topWords c f tokens).map (tokenProb c f)).prod := by
      apply List.prod_pos
      intro p hp
      obtain ⟨w, -, rfl⟩ := List.mem_map.mp hp
      exact (tokenProb_bounds c f w).1
    have hH : 0 < (((topWords c f tokens).map (tokenProb c f)).map (fun p => 1 - p)).prod := by
      apply List.prod_pos
      intro q hq
      obtain ⟨p, hp, rfl⟩ := List.mem_map.mp hq
      obtain ⟨w, -, rfl⟩ := List.mem_map.mp hp
      have := (tokenProb_bounds c f w).2
      linarith
    have hodds := c.pow_pos _ f.params.MaxPower (div_pos hS hH)
    constructor
    · positivity
    · rw [div_le_one (by linarith)]
      linarith

/-- The score of a message without tokens is the neutral 0.5. -/
theorem score_nil (c : SpecChoice) (f : SpecFilter) : score c f [] = 1 / 2 := by
  simp [score, topWords]

/-- C10, on the filter modelled from the spec. For every filter state and
every message, the probability the Scorer gives lies in [0,1], and for a
message with an empty token set it is exactly 0.5; the same holds for the
probability `ClassifyMessagePath` returns and for the one the check command
prints. -/
theorem C10_probability_range (c : SpecChoice) (a : junkArgs) (args : List String) :
    (∀ (f : SpecFilter) (tokens : List String),
      0 ≤ score c f tokens ∧ score c f tokens ≤ 1) ∧
    (∀ f : SpecFilter, score c f [] = 1 / 2) ∧
    (∀ (f f1 : SpecFilter) (path : String) (p : ℚ) (words : Words),
      (specFilter c).ClassifyMessagePath f path = (f1, Except.ok (p, words)) →
      0 ≤ p ∧ p ≤ 1 ∧ (words = ∅ → p = 1 / 2)) ∧
    (∀ r : Run SpecFilter, cmdJunkCheck (specFilter c) a args = Except.ok r →
      ∃ (mailfile : String) (p : ℚ), args = [mailfile] ∧ r.out = [Line.prob p] ∧
        0 ≤ p ∧ p ≤ 1 ∧ (c.tokenize mailfile = Except.ok [] → p = 1 / 2)) := by
  have hclass : ∀ (f f1 : SpecFilter) (path : String) (p : ℚ) (words : Words),
      (specFilter c).ClassifyMessagePath f path = (f1, Except.ok (p, words)) →
      ∃ tokens, c.tokenize path = Except.ok tokens ∧ p = score c f tokens ∧
        words = tokens.toFinset := by
    intro f f1 path p words h
    simp only [specFilter] at h
    cases ht : c.tokenize path with
    | error e => rw [ht] at h; simp at h
    | ok tokens =>
      rw [ht] at h
      simp only [Prod.mk.injEq, Except.ok.injEq] at h
      exact ⟨tokens, rfl, h.2.1.symm, h.2.2.symm⟩
  refine ⟨score_bounds c, score_nil c, ?_, ?_⟩
  · intro f f1 path p words h
    obtain ⟨tokens, -, hp, hw⟩ := hclass f f1 path p words h
    refine ⟨hp ▸ (score_bounds c f tokens).1, hp ▸ (score_bounds c f tokens).2, ?_⟩
    intro hempty
    rw [hw] at hempty
    have : tokens = [] := by simpa using hempty
    rw [hp, this, score_nil]
  · intro r h
    unfold cmdJunkCheck at h
    split at h
    next mailfile =>
      obtain ⟨f0, -, h⟩ := bind_eq_ok _ _ _ h
      rcases hc : (specFilter c).ClassifyMessagePath f0 mailfile with ⟨f1, res⟩
      rw [hc] at h
      cases res with
      | error e => simp [throw, throwThe, MonadExceptOf.throw] at h
      | ok v =>
        obtain ⟨p, words⟩ := v
        simp only [pure, Except.pure] at h
        obtain ⟨tokens, ht, hp, hw⟩ := hclass f0 f1 mailfile p words hc
        refine ⟨mailfile, p, rfl, by rw [← Except.ok.inj h], hp ▸ (score_bounds c f0 tokens).1,
          hp ▸ (score_bounds c f0 tokens).2, ?_⟩
        intro hnil
        rw [hnil] at ht
        have : tokens = [] := (Except.ok.inj ht).symm
        rw [hp, this, score_nil]
    next => simp [throw, throwThe, MonadExceptOf.throw] at h

/-- The smoothed probability of the token of the demo. -/
theorem demo_tokenProb : tokenProb demoChoice demoFilter "viagra" = 7 / 8 := by
  norm_num [tokenProb, demoChoice, demoFilter]

/-- The score of the message of the demo. -/
theorem demo_score : score demoChoice demoFilter ["viagra"] = 7 / 8 := by
  have hret : isRetained demoChoice demoFilter "viagra" = true := by
    simp only [isRetained, demo_tokenProb]
    norm_num [demoFilter, junkFlags, BoolVar, Float64Var, IntVar, StringVar, abs_of_pos]
  have htop : topWords demoChoice demoFilter ["viagra"] = ["viagra"] := by
    simp only [topWords, List.filter_cons, hret, if_true, List.filter_nil, demo_tokenProb]
    norm_num [demoFilter, junkFlags, BoolVar, Float64Var, IntVar, StringVar]
  simp only [score, htop, List.map_cons, List.map_nil, demo_tokenProb]
  norm_num [demoChoice]

/-- What the check command prints for the two messages of the demo. -/
theorem demo_check_out :
    (cmdJunkCheck (specFilter demoChoice) (junkFlags []).1 ["mail"]).toOption.map Run.out =
      some [Line.prob (7 / 8)] ∧
    (cmdJunkCheck (specFilter demoChoice) (junkFlags []).1 ["empty"]).toOption.map Run.out =
      some [Line.prob (1 / 2)] := by
  have hopen : (specFilter demoChoice).OpenFilter (junkFlags []).1.params
      (junkFlags []).1.databasePath (junkFlags []).1.bloomfilterPath false =
      Except.ok demoFilter := rfl
  constructor
  · simp only [cmdJunkCheck, hopen, must, bind, Except.bind, pure, Except.pure]
    have hc : (specFilter demoChoice).ClassifyMessagePath demoFilter "mail" =
        (demoFilter, Except.ok (score demoChoice demoFilter ["viagra"], {"viagra"})) := by
      simp [specFilter, demoChoice]
    rw [hc, demo_score]
    rfl
  · simp only [cmdJunkCheck, hopen, must, bind, Except.bind, pure, Except.pure]
    have hc : (specFilter demoChoice).ClassifyMessagePath demoFilter "empty" =
        (demoFilter, Except.ok (score demoChoice demoFilter [], ∅)) := by
      simp [specFilter, demoChoice]
    rw [hc, score_nil]
    rfl

/-- C10 on the demo: the check command prints 0.875 for the message with the
spam token, a probability in [0,1], and 0.5 for the message without tokens. -/
theorem C10_probability_range_witness :
    ((cmdJunkCheck (specFilter demoChoice) (junkFlags []).1 ["mail"]).toOption.map Run.out =
        some [Line.prob (7 / 8)] ∧
      (cmdJunkCheck (specFilter demoChoice) (junkFlags []).1 ["empty"]).toOption.map Run.out =
        some [Line.prob (1 / 2)]) ∧
    (0 ≤ score demoChoice demoFilter ["viagra"] ∧ score demoChoice demoFilter ["viagra"] ≤ 1) ∧
    score demoChoice demoFilter [] = 1 / 2 :=
  ⟨demo_check_out,
    (C10_probability_range demoChoice (junkFlags []).1 ["mail"]).1 demoFilter ["viagra"],
    (C10_probability_range demoChoice (junkFlags []).1 ["mail"]).2.1 demoFilter⟩

/-! ## The scans of `cmdJunkPlay`, counted -/

/-- What one iteration of `scanDir` does, by what `message.EnsurePart` returns:
an error adds one to `nbad`; a message with a zero date adds one to `nnodate`;
a message with a date is appended to the messages and adds one to `nsent` for
the sent directory, else to `nham` for a ham directory, else to `nspam`. -/
theorem cmdJunkPlay.scanFile_cases (os : OS) (dir : String) (ham sent : Bool)
    (st st1 : ScanSt) (name : String)
    (h : cmdJunkPlay.scanFile os dir ham sent st name = Except.ok st1) :
    ((∃ e, os.EnsurePart (dir ++ "/" ++ name) = Except.error e) ∧
      st1 = { st with nbad := st.nbad + 1 }) ∨
    (∃ p, os.EnsurePart (dir ++ "/" ++ name) = Except.ok p ∧ p.Date = 0 ∧
      st1 = { st with nnodate := st.nnodate + 1 }) ∨
    (∃ p, os.EnsurePart (dir ++ "/" ++ name) = Except.ok p ∧ p.Date ≠ 0 ∧
      st1 = { st with
        msgs := st.msgs ++ [msg.mk dir name ham sent p.Date]
        nsent := if sent = true then st.nsent + 1 else st.nsent
        nham := if sent = false ∧ ham = true then st.nham + 1 else st.nham
        nspam := if sent = false ∧ ham = false then st.nspam + 1 else st.nspam }) := by
  unfold cmdJunkPlay.scanFile at h
  cases hO : os.Open (dir ++ "/" ++ name) with
  | some e => simp [hO, throw, throwThe, MonadExceptOf.throw] at h
  | none =>
    cases hS : os.Stat (dir ++ "/" ++ name) with
    | some e => simp [hO, hS, throw, throwThe, MonadExceptOf.throw] at h
    | none =>
      simp only [hO, hS] at h
      cases hP : os.EnsurePart (dir ++ "/" ++ name) with
      | error e =>
        simp only [hP, pure, Except.pure] at h
        left
        exact ⟨⟨e, rfl⟩, (Except.ok.inj h).symm⟩
      | ok p =>
        simp only [hP] at h
        right
        by_cases hz : p.dateIsZero = true
        · left
          simp only [hz, if_true, pure, Except.pure] at h
          have h0 : p.Date = 0 := by simpa [Part.dateIsZero] using hz
          exact ⟨p, rfl, h0, (Except.ok.inj h).symm⟩
        · right
          have hne : p.Date ≠ 0 := by
            intro h0; apply hz; simp [Part.dateIsZero, h0]
          have hz1 : p.dateIsZero = false := by simpa using hz
          simp only [hz1, Bool.false_eq_true, if_false, pure, Except.pure] at h
          refine ⟨p, rfl, hne, ?_⟩
          cases sent <;> cases ham <;> simp at h ⊢ <;> exact h.symm

/-- The loop of `scanDir` over the files of a directory: the messages added
carry the directory and its labels and have a date; every file adds one to
exactly one of `nbad`, `nnodate` and the counter of the directory, the latter
together with a message. -/
theorem cmdJunkPlay.scanFiles_counts (os : OS) (dir : String) (ham sent : Bool)
    (files : List String) (st st1 : ScanSt)
    (h : files.foldlM (cmdJunkPlay.scanFile os dir ham sent) st = Except.ok st1) :
    ∃ added : List msg, st1.msgs = st.msgs ++ added ∧
      (∀ m ∈ added, m.t ≠ 0 ∧ m.dir = dir ∧ m.ham = ham ∧ m.sent = sent) ∧
      st.nbad ≤ st1.nbad ∧ st.nnodate ≤ st1.nnodate ∧
      (st1.nbad - st.nbad) + (st1.nnodate - st.nnodate) + added.length = files.length ∧
      st1.nsent = st.nsent + (if sent = true then added.length else 0) ∧
      st1.nham = st.nham + (if sent = false ∧ ham = true then added.length else 0) ∧
      st1.nspam = st.nspam + (if sent = false ∧ ham = false then added.length else 0) := by
  induction files generalizing st with
  | nil =>
    simp only [List.foldlM_nil, pure, Except.pure] at h
    rw [← Except.ok.inj h]
    exact ⟨[], by simp⟩
  | cons name rest ih =>
    rw [List.foldlM_cons] at h
    obtain ⟨st2, h1, h2⟩ := bind_eq_ok _ _ _ h
    obtain ⟨added, e1, e2, e3, e4, e5, e6, e7, e8⟩ := ih st2 h2
    rcases cmdJunkPlay.scanFile_cases os dir ham sent st st2 name h1 with
      ⟨-, hst⟩ | ⟨p, -, -, hst⟩ | ⟨p, -, hne, hst⟩
    · subst hst
      refine ⟨added, e1, e2, ?_, e4, ?_, e6, e7, e8⟩
      · simp only at e3; omega
      · simp only [List.length_cons] at e3 e5 ⊢; omega
    · subst hst
      refine ⟨added, e1, e2, e3, ?_, ?_, e6, e7, e8⟩
      · simp only at e4; omega
      · simp only [List.length_cons] at e4 e5 ⊢; omega
    · subst hst
      refine ⟨msg.mk dir name ham sent p.Date :: added, by rw [e1]; simp, ?_, e3, e4, ?_, ?_,
        ?_, ?_⟩
      · intro m hm
        rcases List.mem_cons.mp hm with rfl | hm
        · exact ⟨hne, rfl, rfl, rfl⟩
        · exact e2 m hm
      · simp only [List.length_cons] at e5 ⊢; omega
      · rw [e6]; simp only [List.length_cons]; split_ifs <;> omega
      · rw [e7]; simp only [List.length_cons]; split_ifs <;> omega
      · rw [e8]; simp only [List.length_cons]; split_ifs <;> omega

/-- Go `scanDir` on a directory that can be listed and whose files can all be
opened: see `scanFiles_counts`, with the files the listing of the directory. -/
theorem cmdJunkPlay.scanDir_counts (os : OS) (dir : String) (ham sent : Bool)
    (st st1 : ScanSt) (h : cmdJunkPlay.scanDir os dir ham sent st = Except.ok st1) :
    ∃ (files : List String) (added : List msg), os.ReadDir dir = Except.ok files ∧
      st1.msgs = st.msgs ++ added ∧
      (∀ m ∈ added, m.t ≠ 0 ∧ m.dir = dir ∧ m.ham = ham ∧ m.sent = sent) ∧
      st.nbad ≤ st1.nbad ∧ st.nnodate ≤ st1.nnodate ∧
      (st1.nbad - st.nbad) + (st1.nnodate - st.nnodate) + added.length = files.length ∧
      st1.nsent = st.nsent + (if sent = true then added.length else 0) ∧
      st1.nham = st.nham + (if sent = false ∧ ham = true then added.length else 0) ∧
      st1.nspam = st.nspam + (if sent = false ∧ ham = false then added.length else 0) := by
  unfold cmdJunkPlay.scanDir at h
  obtain ⟨files, hl, h⟩ := bind_eq_ok _ _ _ h
  obtain ⟨added, hx⟩ := cmdJunkPlay.scanFiles_counts os dir ham sent files st st1 h
  exact ⟨files, added, listDir_eq_ok _ _ _ hl, hx⟩

/-- The three scans of `cmdJunkPlay`, when none of them is fatal: the messages
are those of the ham directory, then of the spam directory, then of the sent
directory when one is given, each with the labels of its directory; each
counter counts its own kind, and the five counters add up to the number of
files listed. -/
theorem cmdJunkPlay.scan_counts (os : OS) (a : junkArgs) (hamDir spamDir : String)
    (sc : ScanSt) (h : cmdJunkPlay.scan os a hamDir spamDir = Except.ok sc) :
    ∃ (hamFiles spamFiles sentFiles : List String) (hams spams sents : List msg),
      os.ReadDir hamDir = Except.ok hamFiles ∧ os.ReadDir spamDir = Except.ok spamFiles ∧
      (if a.sentDir ≠ "" then os.ReadDir a.sentDir = Except.ok sentFiles else sentFiles = []) ∧
      sc.msgs = hams ++ spams ++ sents ∧
      (∀ m ∈ hams, m.t ≠ 0 ∧ m.dir = hamDir ∧ m.ham = true ∧ m.sent = false) ∧
      (∀ m ∈ spams, m.t ≠ 0 ∧ m.dir = spamDir ∧ m.ham = false ∧ m.sent = false) ∧
      (∀ m ∈ sents, m.t ≠ 0 ∧ m.dir = a.sentDir ∧ m.ham = true ∧ m.sent = true) ∧
      sc.nham = hams.length ∧ sc.nspam = spams.length ∧ sc.nsent = sents.length ∧
      sc.nbad + sc.nnodate + sc.nham + sc.nspam + sc.nsent =
        hamFiles.length + spamFiles.length + sentFiles.length := by
  unfold cmdJunkPlay.scan at h
  obtain ⟨st1, h1, h⟩ := bind_eq_ok _ _ _ h
  obtain ⟨st2, h2, h⟩ := bind_eq_ok _ _ _ h
  obtain ⟨hamFiles, hams, r1, a1, a2, a3, a4, a5, a6, a7, a8⟩ :=
    cmdJunkPlay.scanDir_counts os hamDir true false _ st1 h1
  obtain ⟨spamFiles, spams, r2, b1, b2, b3, b4, b5, b6, b7, b8⟩ :=
    cmdJunkPlay.scanDir_counts os spamDir false false st1 st2 h2
  simp only [List.nil_append, Bool.true_eq_false, Bool.false_eq_true, if_false, true_and,
    and_true, and_false, if_true, zero_add, add_zero, and_self] at a1 a3 a4 a5 a6 a7 a8 b6 b7 b8
  by_cases hs : a.sentDir ≠ ""
  · rw [if_pos hs] at h
    obtain ⟨sentFiles, sents, r3, c1, c2, c3, c4, c5, c6, c7, c8⟩ :=
      cmdJunkPlay.scanDir_counts os a.sentDir true true st2 sc h
    simp only [Bool.true_eq_false, if_false, false_and, if_true, add_zero] at c6 c7 c8
    refine ⟨hamFiles, spamFiles, sentFiles, hams, spams, sents, r1, r2, by rw [if_pos hs]; exact r3,
      by rw [c1, b1, a1], a2, b2, c2, ?_, ?_, ?_, ?_⟩ <;> omega
  · rw [if_neg hs] at h
    simp only [pure, Except.pure] at h
    have hsc := Except.ok.inj h
    subst hsc
    refine ⟨hamFiles, spamFiles, [], hams, spams, [], r1, r2, by rw [if_neg hs],
      by rw [b1, a1]; simp, a2, b2, by simp, ?_, ?_, ?_, ?_⟩ <;>
      (try simp only [List.length_nil]) <;> omega

/-! ## The calls of the replay, message by message -/

/-- The scan of `sentOS` with arguments that name the sent directory keeps
both messages. -/
theorem sent_scan : cmdJunkPlay.scan sentOS sentArgs "ham" "spam" = Except.ok sentScan := by
  simp [cmdJunkPlay.scan, cmdJunkPlay.scanDir, listDir, sentOS, tableOS, cmdJunkPlay.scanFile,
    Part.dateIsZero, sentArgs, bind, Except.bind, pure, Except.pure, sentScan]

/-- The messages of `sentScan` are already in order of date. -/
theorem sent_replay : cmdJunkPlay.replay insertionSortSlice sentScan = sentScan.msgs := by
  simp [cmdJunkPlay.replay, insertionSortSlice, sentScan, cmdJunkPlay.less, List.insertionSort,
    List.orderedInsert]

/-- The code of `cmdJunkPlay` after its first two statements, at arguments that
name the sent directory, which no command line gives it: a sent message is
not classified, it is parsed and trained on as ham. -/
theorem sent_body_calls :
    (cmdJunkPlay (traced (tableFilter (fun _ => none))) sentOS insertionSortSlice sentArgs
      ["ham", "spam"]).toOption.map (fun r => r.f.2) =
      some [Call.NewFilter sentArgs.params sentArgs.databasePath sentArgs.bloomfilterPath,
        Call.ClassifyMessagePath "ham/h1" (Except.error "malformed message"),
        Call.ParseMessage ⟨20, "a sent message"⟩ (Except.ok {"a sent message"}),
        Call.Train true {"a sent message"} none, Call.Save none, Call.Close] := by
  simp only [cmdJunkPlay, sent_scan, sent_replay, bind, Except.bind]
  simp [must, traced, tableFilter, cmdJunkPlay.play, cmdJunkPlay.train, sentScan, sentOS, tableOS,
    xcheckf, pure, Except.pure, bind, Except.bind, Except.toOption]

/-- Counting a message as ok exactly when `c` holds follows the rule, when `c`
is the condition of the rule. -/
theorem tallied_of_ite (ham : Bool) (p t : ℚ) (ok bad : ℕ) (c : Prop) [Decidable c]
    (hc : c ↔ (if ham = true then p < t else p > t)) :
    tallied ham p t ok bad (if c then ok + 1 else ok) (if c then bad else bad + 1) := by
  have hpt : p = t → ¬ c := by
    intro h hcc
    have := hc.mp hcc
    subst h
    cases ham <;> simp at this
  by_cases h : c
  · simp only [h, if_true]
    exact ⟨Or.inl ⟨rfl, rfl⟩, ⟨fun _ => hc.mp h, fun _ => rfl⟩, fun e => absurd h (hpt e)⟩
  · simp only [h, if_false]
    refine ⟨Or.inr ⟨rfl, rfl⟩, ⟨fun e => ?_, fun e => absurd (hc.mpr e) h⟩, fun _ => ⟨rfl, rfl⟩⟩
    omega

/-- Training in play leaves the tallies as they are. -/
theorem cmdJunkPlay.train_tallies {σ : Type} (F : Filter σ) (m : msg) (words : Words)
    (st : PlaySt σ) :
    (cmdJunkPlay.train F m words st).nbad = st.nbad ∧
    (cmdJunkPlay.train F m words st).nhamok = st.nhamok ∧
    (cmdJunkPlay.train F m words st).nhambad = st.nhambad ∧
    (cmdJunkPlay.train F m words st).nspamok = st.nspamok ∧
    (cmdJunkPlay.train F m words st).nspambad = st.nspambad := by
  unfold cmdJunkPlay.train
  split <;> exact ⟨rfl, rfl, rfl, rfl, rfl⟩

/-- C12. Let the classification of the message `dir/name` from the filter
state `f` succeed with probability `p`. Then the iteration of test and the
iteration of analyze for it follow the rule `tallied` on `ok` and `bad`
(analyze leaving `malformed` as it is), and so does `play` for a message of
that path that is not a sent one: `play` returns, a message labelled ham moves
`nhamok` and `nhambad` by the rule and leaves the spam tallies, a message
labelled spam moves `nspamok` and `nspambad` by the rule and leaves the ham
tallies, and `nbad` stays. The rule: exactly one of ok and bad goes up by one,
ok for ham iff `p < t`, ok for spam iff `p > t`, bad at `p = t`. -/
theorem C12_tally_rule {σ : Type} (F : Filter σ) (os : OS) (a : junkArgs) (f f1 : σ)
    (dir name : String) (ham : Bool) (p : ℚ) (words : Words)
    (h : F.ClassifyMessagePath f (dir ++ "/" ++ name) = (f1, Except.ok (p, words))) :
    (∀ st : TestSt σ, st.f = f →
      tallied ham p a.spamThreshold st.ok st.bad
        (cmdJunkTest.testFile F a dir ham st name).ok
        (cmdJunkTest.testFile F a dir ham st name).bad) ∧
    (∀ st : AnalyzeSt σ, st.f = f →
      tallied ham p a.spamThreshold st.ok st.bad
        (cmdJunkAnalyze.testFile F a dir ham st name).ok
        (cmdJunkAnalyze.testFile F a dir ham st name).bad ∧
      (cmdJunkAnalyze.testFile F a dir ham st name).malformed = st.malformed) ∧
    (∀ (st : PlaySt σ) (t : ℤ), st.f = f →
      ∃ st1, cmdJunkPlay.play F os a st ⟨dir, name, ham, false, t⟩ = Except.ok st1 ∧
        st1.nbad = st.nbad ∧
        (ham = true → tallied true p a.spamThreshold st.nhamok st.nhambad st1.nhamok st1.nhambad ∧
          st1.nspamok = st.nspamok ∧ st1.nspambad = st.nspambad) ∧
        (ham = false →
          tallied false p a.spamThreshold st.nspamok st.nspambad st1.nspamok st1.nspambad ∧
          st1.nhamok = st.nhamok ∧ st1.nhambad = st.nhambad)) := by
  have hc : ((ham = true ∧ p < a.spamThreshold) ∨ (ham = false ∧ p > a.spamThreshold)) ↔
      (if ham = true then p < a.spamThreshold else p > a.spamThreshold) := by
    cases ham <;> simp
  refine ⟨?_, ?_, ?_⟩
  · intro st hf
    subst hf
    have e : ((cmdJunkTest.testFile F a dir ham st name).ok,
        (cmdJunkTest.testFile F a dir ham st name).bad) =
        ((if (ham = true ∧ p < a.spamThreshold) ∨ (ham = false ∧ p > a.spamThreshold)
            then st.ok + 1 else st.ok),
         (if (ham = true ∧ p < a.spamThreshold) ∨ (ham = false ∧ p > a.spamThreshold)
            then st.bad else st.bad + 1)) := by
      simp only [cmdJunkTest.testFile, h]
      split_ifs <;> rfl
    have e1 := congrArg Prod.fst e
    have e2 := congrArg Prod.snd e
    simp only at e1 e2
    rw [e1, e2]
    exact tallied_of_ite ham p a.spamThreshold st.ok st.bad _ hc
  · intro st hf
    subst hf
    have e : ((cmdJunkAnalyze.testFile F a dir ham st name).ok,
        (cmdJunkAnalyze.testFile F a dir ham st name).bad,
        (cmdJunkAnalyze.testFile F a dir ham st name).malformed) =
        ((if (ham = true ∧ p < a.spamThreshold) ∨ (ham = false ∧ p > a.spamThreshold)
            then st.ok + 1 else st.ok),
         (if (ham = true ∧ p < a.spamThreshold) ∨ (ham = false ∧ p > a.spamThreshold)
            then st.bad else st.bad + 1), st.malformed) := by
      simp only [cmdJunkAnalyze.testFile, h]
      split_ifs <;> rfl
    have e1 := congrArg Prod.fst e
    have e2 := congrArg (fun x => x.2.1) e
    have e3 := congrArg (fun x => x.2.2) e
    simp only at e1 e2 e3
    rw [e1, e2, e3]
    exact ⟨tallied_of_ite ham p a.spamThreshold st.ok st.bad _ hc, rfl⟩
  · intro st t hf
    subst hf
    simp only [cmdJunkPlay.play, if_true, h, pure, Except.pure]
    refine ⟨_, rfl, ?_, ?_, ?_⟩
    · rw [(cmdJunkPlay.train_tallies F _ words _).1]
      split_ifs <;> rfl
    · intro hh
      subst hh
      obtain ⟨-, t1, t2, t3, t4⟩ := cmdJunkPlay.train_tallies F ⟨dir, name, true, false, t⟩ words
        (if p < a.spamThreshold then { st with f := f1, nhamok := st.nhamok + 1 }
          else { st with f := f1, nhambad := st.nhambad + 1 })
      simp only [if_true]
      rw [t1, t2, t3, t4]
      have := tallied_of_ite true p a.spamThreshold st.nhamok st.nhambad (p < a.spamThreshold)
        (by simp)
      split_ifs at this ⊢ <;> exact ⟨this, rfl, rfl⟩
    · intro hh
      subst hh
      obtain ⟨-, t1, t2, t3, t4⟩ := cmdJunkPlay.train_tallies F ⟨dir, name, false, false, t⟩ words
        (if p > a.spamThreshold then { st with f := f1, nspamok := st.nspamok + 1 }
          else { st with f := f1, nspambad := st.nspambad + 1 })
      simp only [Bool.false_eq_true, if_false]
      rw [t1, t2, t3, t4]
      have := tallied_of_ite false p a.spamThreshold st.nspamok st.nspambad (p > a.spamThreshold)
        (by simp)
      split_ifs at this ⊢ <;> exact ⟨this, rfl, rfl⟩

/-- C12 at a ham message whose probability is the default threshold 0.95. -/
theorem C12_tally_rule_witness :
    (tableFilter (fun _ => some (95 / 100))).ClassifyMessagePath (0, 0) ("ham" ++ "/" ++ "m1") =
      ((0, 0), Except.ok (95 / 100, {"ham" ++ "/" ++ "m1"})) ∧
    (∀ st : TestSt (ℕ × ℕ), st.f = (0, 0) →
      tallied true (95 / 100) (junkFlags []).1.spamThreshold st.ok st.bad
        (cmdJunkTest.testFile (tableFilter (fun _ => some (95 / 100))) (junkFlags []).1 "ham"
          true st "m1").ok
        (cmdJunkTest.testFile (tableFilter (fun _ => some (95 / 100))) (junkFlags []).1 "ham"
          true st "m1").bad) ∧
    (∀ st : AnalyzeSt (ℕ × ℕ), st.f = (0, 0) →
      tallied true (95 / 100) (junkFlags []).1.spamThreshold st.ok st.bad
        (cmdJunkAnalyze.testFile (tableFilter (fun _ => some (95 / 100))) (junkFlags []).1 "ham"
          true st "m1").ok
        (cmdJunkAnalyze.testFile (tableFilter (fun _ => some (95 / 100))) (junkFlags []).1 "ham"
          true st "m1").bad ∧
      (cmdJunkAnalyze.testFile (tableFilter (fun _ => some (95 / 100))) (junkFlags []).1 "ham"
        true st "m1").malformed = st.malformed) ∧
    (∀ (st : PlaySt (ℕ × ℕ)) (t : ℤ), st.f = (0, 0) →
      ∃ st1, cmdJunkPlay.play (tableFilter (fun _ => some (95 / 100))) thresholdOS
          (junkFlags []).1 st ⟨"ham", "m1", true, false, t⟩ = Except.ok st1 ∧
        st1.nbad = st.nbad ∧
        (true = true → tallied true (95 / 100) (junkFlags []).1.spamThreshold st.nhamok
            st.nhambad st1.nhamok st1.nhambad ∧
          st1.nspamok = st.nspamok ∧ st1.nspambad = st.nspambad) ∧
        (true = false →
          tallied false (95 / 100) (junkFlags []).1.spamThreshold st.nspamok st.nspambad
            st1.nspamok st1.nspambad ∧
          st1.nhamok = st.nhamok ∧ st1.nhambad = st.nhambad)) :=
  ⟨rfl, C12_tally_rule (tableFilter (fun _ => some (95 / 100))) thresholdOS (junkFlags []).1
    (0, 0) (0, 0) "ham" "m1" true (95 / 100) {"ham" ++ "/" ++ "m1"} rfl⟩

/-! ## C14: the counters of the scan -/

/-- A file that can be opened is scanned: the iteration returns. -/
theorem cmdJunkPlay.scanFile_ok (os : OS) (dir : String) (ham sent : Bool) (st : ScanSt)
    (name : String) (hO : os.Open (dir ++ "/" ++ name) = none)
    (hS : os.Stat (dir ++ "/" ++ name) = none) :
    ∃ st1, cmdJunkPlay.scanFile os dir ham sent st name = Except.ok st1 := by
  simp only [cmdJunkPlay.scanFile, hO, hS]
  cases os.EnsurePart (dir ++ "/" ++ name) with
  | error e => exact ⟨_, rfl⟩
  | ok p =>
    simp only
    split_ifs <;> exact ⟨_, rfl⟩

/-- C14. A listed file that can be opened is scanned, and the iteration ends
in exactly one of five ways: the file is no message and `nbad` alone goes up
by one; its date is zero and `nnodate` alone goes up by one; or it has a date
that is not zero, it is appended to the messages, and one counter alone goes
up by one: `nsent` in the sent directory, else `nham` for a ham directory,
else `nspam`. After a scan that ended normally the number of messages is
`nham + nspam + nsent`, the number of files listed in the directories scanned
is `nbad + nnodate + nham + nspam + nsent`, `nsent` counts the sent messages,
`nham` the messages labelled ham that are not sent ones, `nspam` the messages
labelled spam, and every sent message is labelled ham. -/
theorem C14_scan_counters (os : OS) (a : junkArgs) (hamDir spamDir : String) (sc : ScanSt)
    (h : cmdJunkPlay.scan os a hamDir spamDir = Except.ok sc) :
    (∀ (dir name : String) (ham sent : Bool) (st : ScanSt),
      os.Open (dir ++ "/" ++ name) = none → os.Stat (dir ++ "/" ++ name) = none →
      ∃ st1, cmdJunkPlay.scanFile os dir ham sent st name = Except.ok st1 ∧
        (((∃ e, os.EnsurePart (dir ++ "/" ++ name) = Except.error e) ∧
            st1 = { st with nbad := st.nbad + 1 }) ∨
         (∃ p, os.EnsurePart (dir ++ "/" ++ name) = Except.ok p ∧ p.Date = 0 ∧
            st1 = { st with nnodate := st.nnodate + 1 }) ∨
         (∃ p, os.EnsurePart (dir ++ "/" ++ name) = Except.ok p ∧ p.Date ≠ 0 ∧ sent = true ∧
            st1 = { st with msgs := st.msgs ++ [msg.mk dir name ham sent p.Date],
                            nsent := st.nsent + 1 }) ∨
         (∃ p, os.EnsurePart (dir ++ "/" ++ name) = Except.ok p ∧ p.Date ≠ 0 ∧ sent = false ∧
            ham = true ∧
            st1 = { st with msgs := st.msgs ++ [msg.mk dir name ham sent p.Date],
                            nham := st.nham + 1 }) ∨
         (∃ p, os.EnsurePart (dir ++ "/" ++ name) = Except.ok p ∧ p.Date ≠ 0 ∧ sent = false ∧
            ham = false ∧
            st1 = { st with msgs := st.msgs ++ [msg.mk dir name ham sent p.Date],
                            nspam := st.nspam + 1 }))) ∧
    sc.msgs.length = sc.nham + sc.nspam + sc.nsent ∧
    (∃ hamFiles spamFiles sentFiles : List String,
      os.ReadDir hamDir = Except.ok hamFiles ∧ os.ReadDir spamDir = Except.ok spamFiles ∧
      (if a.sentDir ≠ "" then os.ReadDir a.sentDir = Except.ok sentFiles else sentFiles = []) ∧
      hamFiles.length + spamFiles.length + sentFiles.length =
        sc.nbad + sc.nnodate + sc.nham + sc.nspam + sc.nsent) ∧
    sc.nsent = sc.msgs.countP (fun m => m.sent) ∧
    sc.nham = sc.msgs.countP (fun m => m.ham && !m.sent) ∧
    sc.nspam = sc.msgs.countP (fun m => !m.ham) ∧
    (∀ m ∈ sc.msgs, m.sent = true → m.ham = true) := by
  obtain ⟨hamFiles, spamFiles, sentFiles, hams, spams, sents, r1, r2, r3, hm, l1, l2, l3, n1, n2,
    n3, tot⟩ := cmdJunkPlay.scan_counts os a hamDir spamDir sc h
  have cAll : ∀ (q : msg → Bool) (l : List msg), (∀ m ∈ l, q m = true) → l.countP q = l.length :=
    fun q l hq => List.countP_eq_length.mpr hq
  have cNone : ∀ (q : msg → Bool) (l : List msg), (∀ m ∈ l, q m = false) → l.countP q = 0 :=
    fun q l hq => List.countP_eq_zero.mpr (fun m hx => by simp [hq m hx])
  refine ⟨?_, ?_, ⟨hamFiles, spamFiles, sentFiles, r1, r2, r3, tot.symm⟩, ?_, ?_, ?_, ?_⟩
  · intro dir name ham sent st hO hS
    obtain ⟨st1, hst1⟩ := cmdJunkPlay.scanFile_ok os dir ham sent st name hO hS
    refine ⟨st1, hst1, ?_⟩
    rcases cmdJunkPlay.scanFile_cases os dir ham sent st st1 name hst1 with c | c | c
    · exact Or.inl c
    · exact Or.inr (Or.inl c)
    · obtain ⟨p, hp, hd, e⟩ := c
      right; right
      cases sent
      · cases ham
        · right; right
          exact ⟨p, hp, hd, rfl, rfl, by simpa using e⟩
        · right; left
          exact ⟨p, hp, hd, rfl, rfl, by simpa using e⟩
      · left
        exact ⟨p, hp, hd, rfl, by simpa using e⟩
  · rw [hm, List.length_append, List.length_append]
    omega
  · rw [hm, List.countP_append, List.countP_append,
      cNone _ hams (fun m hx => (l1 m hx).2.2.2), cNone _ spams (fun m hx => (l2 m hx).2.2.2),
      cAll _ sents (fun m hx => (l3 m hx).2.2.2)]
    omega
  · rw [hm, List.countP_append, List.countP_append,
      cAll _ hams (fun m hx => by simp [(l1 m hx).2.2.1, (l1 m hx).2.2.2]),
      cNone _ spams (fun m hx => by simp [(l2 m hx).2.2.1]),
      cNone _ sents (fun m hx => by simp [(l3 m hx).2.2.2])]
    omega
  · rw [hm, List.countP_append, List.countP_append,
      cNone _ hams (fun m hx => by simp [(l1 m hx).2.2.1]),
      cAll _ spams (fun m hx => by simp [(l2 m hx).2.2.1]),
      cNone _ sents (fun m hx => by simp [(l3 m hx).2.2.1])]
    omega
  · intro m hx hs
    rw [hm] at hx
    simp only [List.mem_append] at hx
    rcases hx with (hx | hx) | hx
    · exact (l1 m hx).2.2.1
    · have := (l2 m hx).2.2.2
      rw [hs] at this
      exact absurd this (by decide)
    · exact (l3 m hx).2.2.1

/-- C14 on `sentOS`: one ham message and one sent message, two files listed. -/
theorem C14_scan_counters_witness :
    cmdJunkPlay.scan sentOS sentArgs "ham" "spam" = Except.ok sentScan ∧
    (∀ (dir name : String) (ham sent : Bool) (st : ScanSt),
      sentOS.Open (dir ++ "/" ++ name) = none → sentOS.Stat (dir ++ "/" ++ name) = none →
      ∃ st1, cmdJunkPlay.scanFile sentOS dir ham sent st name = Except.ok st1 ∧
        (((∃ e, sentOS.EnsurePart (dir ++ "/" ++ name) = Except.error e) ∧
            st1 = { st with nbad := st.nbad + 1 }) ∨
         (∃ p, sentOS.EnsurePart (dir ++ "/" ++ name) = Except.ok p ∧ p.Date = 0 ∧
            st1 = { st with nnodate := st.nnodate + 1 }) ∨
         (∃ p, sentOS.EnsurePart (dir ++ "/" ++ name) = Except.ok p ∧ p.Date ≠ 0 ∧
            sent = true ∧
            st1 = { st with msgs := st.msgs ++ [msg.mk dir name ham sent p.Date],
                            nsent := st.nsent + 1 }) ∨
         (∃ p, sentOS.EnsurePart (dir ++ "/" ++ name) = Except.ok p ∧ p.Date ≠ 0 ∧
            sent = false ∧ ham = true ∧
            st1 = { st with msgs := st.msgs ++ [msg.mk dir name ham sent p.Date],
                            nham := st.nham + 1 }) ∨
         (∃ p, sentOS.EnsurePart (dir ++ "/" ++ name) = Except.ok p ∧ p.Date ≠ 0 ∧
            sent = false ∧ ham = false ∧
            st1 = { st with msgs := st.msgs ++ [msg.mk dir name ham sent p.Date],
                            nspam := st.nspam + 1 }))) ∧
    sentScan.msgs.length = sentScan.nham + sentScan.nspam + sentScan.nsent ∧
    (∃ hamFiles spamFiles sentFiles : List String,
      sentOS.ReadDir "ham" = Except.ok hamFiles ∧ sentOS.ReadDir "spam" = Except.ok spamFiles ∧
      (if sentArgs.sentDir ≠ "" then sentOS.ReadDir sentArgs.sentDir = Except.ok sentFiles
        else sentFiles = []) ∧
      hamFiles.length + spamFiles.length + sentFiles.length =
        sentScan.nbad + sentScan.nnodate + sentScan.nham + sentScan.nspam + sentScan.nsent) ∧
    sentScan.nsent = sentScan.msgs.countP (fun m => m.sent) ∧
    sentScan.nham = sentScan.msgs.countP (fun m => m.ham && !m.sent) ∧
    sentScan.nspam = sentScan.msgs.countP (fun m => !m.ham) ∧
    (∀ m ∈ sentScan.msgs, m.sent = true → m.ham = true) :=
  ⟨sent_scan, C14_scan_counters sentOS sentArgs "ham" "spam" sentScan sent_scan⟩

/-! ## C13: the shuffle permutes -/

/-- Writing `a` at an index of a list trades the element there for `a`. -/
theorem set_cons_perm (l : List String) (k : ℕ) (h : k < l.length) (a : String) :
    (l[k] :: l.set k a).Perm (a :: l) := by
  induction l generalizing k with
  | nil => simp at h
  | cons x t ih =>
    cases k with
    | zero => exact List.Perm.swap _ _ _
    | succ k =>
      simp only [List.length_cons, Nat.add_lt_add_iff_right] at h
      simp only [List.getElem_cons_succ, List.set_cons_succ]
      exact (List.Perm.swap _ _ _).trans (((ih k h).cons x).trans (List.Perm.swap _ _ _))

/-- A swap that does not panic permutes the list. -/
theorem swap_perm (l l1 : List String) (i n : ℕ) (h : swap l i n = some l1) : l1.Perm l := by
  unfold swap at h
  cases hi : l[i]? with
  | none => simp [hi] at h
  | some x =>
    cases hn : l[n]? with
    | none => simp [hi, hn] at h
    | some y =>
      simp only [hi, hn, Option.some.injEq] at h
      obtain ⟨hi1, hxi⟩ := List.getElem?_eq_some_iff.mp hi
      obtain ⟨hn1, hyn⟩ := List.getElem?_eq_some_iff.mp hn
      have hn2 : n < (l.set i y).length := by simpa using hn1
      have e1 : (l.set i y)[n] = y := by
        rw [List.getElem_set]
        split_ifs
        · rfl
        · exact hyn
      have p1 := set_cons_perm l i hi1 y
      have p2 := set_cons_perm (l.set i y) n hn2 x
      rw [hxi] at p1
      rw [e1] at p2
      rw [← h]
      exact (p2.trans p1).cons_inv

/-- The loop of `shuffle` up to an index within the list: no panic, and the
list is a permutation of the list it started from. -/
theorem cmdJunkAnalyze.shuffle_loop_perm {ρ : Type} (R : Rand ρ) (count k : ℕ)
    (hk : k ≤ count) (g : ρ) (l : List String) (hl : l.length = count) :
    ∃ g1 l1, (List.range k).foldl (cmdJunkAnalyze.shuffleStep R count) (some (g, l)) =
      some (g1, l1) ∧ l1.Perm l := by
  induction k with
  | zero => exact ⟨g, l, rfl, List.Perm.refl l⟩
  | succ k ih =>
    obtain ⟨g1, l1, h1, h2⟩ := ih (by omega)
    rw [List.range_succ, List.foldl_append, h1]
    have hpos : 0 < count := by omega
    have hn := R.Intn_lt g1 count hpos
    have hlen : l1.length = count := by rw [h2.length_eq, hl]
    obtain ⟨l2, h3, -⟩ := swap_of_lt l1 k (R.Intn g1 count).2 (by omega) (by omega)
    refine ⟨(R.Intn g1 count).1, l2, ?_, (swap_perm l1 l2 _ _ h3).trans h2⟩
    simp [cmdJunkAnalyze.shuffleStep, h3]

/-- Go `shuffle` never panics and returns a permutation of the list. -/
theorem cmdJunkAnalyze.shuffle_perm {ρ : Type} (R : Rand ρ) (g : ρ) (l : List String) :
    ∃ g1 l1, cmdJunkAnalyze.shuffle R g l = some (g1, l1) ∧ l1.Perm l :=
  cmdJunkAnalyze.shuffle_loop_perm R l.length l.length (le_refl _) g l rfl

/-- The two parts a listing is cut into, one after the other, are the listing. -/
theorem slice_append (l tr te : List String) (k : ℤ) (h1 : sliceTo l k = some tr)
    (h2 : sliceFrom l k = some te) : tr ++ te = l := by
  unfold sliceTo at h1
  unfold sliceFrom at h2
  split_ifs at h1 h2
  rw [← Option.some.inj h1, ← Option.some.inj h2]
  exact List.take_append_drop _ _

/-- C13. In analyze mode, with any random source whose `Intn(n)` returns a
number below `n`: every step of the shuffle swaps two indices inside the list,
so the shuffle never panics and returns a permutation of the list it was
given; for the empty list it returns the empty list and leaves the generator
as it was, no number drawn. Whenever the split returns, the training part
followed by the test part is a permutation of the listing, for ham and for
spam; so a listing without repetitions has every file in the training part or
in the test part and no file in both. For a train ratio between 0 and 1 and
listings of fewer than 2^53 files, the number up to which the conversion
`float64(len(files))` is exact, the split returns. -/
theorem C13_shuffle_permutes {ρ : Type} (R : Rand ρ) (os : OS) (a : junkArgs)
    (hamFiles spamFiles : List String) :
    (∀ (g : ρ) (l : List String),
      ∃ g1 l1, cmdJunkAnalyze.shuffle R g l = some (g1, l1) ∧ l1.Perm l) ∧
    (∀ (g : ρ) (l : List String) (i : ℕ), i < l.length →
      (R.Intn g l.length).2 < l.length ∧
      ∃ l1, swap l i (R.Intn g l.length).2 = some l1 ∧ l1.Perm l) ∧
    (∀ g : ρ, cmdJunkAnalyze.shuffle R g [] = some (g, [])) ∧
    (∀ sp : Split, cmdJunkAnalyze.split R os a hamFiles spamFiles = Except.ok sp →
      (sp.trainHam ++ sp.testHam).Perm hamFiles ∧
      (sp.trainSpam ++ sp.testSpam).Perm spamFiles ∧
      (hamFiles.Nodup → List.Disjoint sp.trainHam sp.testHam ∧
        ∀ x ∈ hamFiles, x ∈ sp.trainHam ∨ x ∈ sp.testHam) ∧
      (spamFiles.Nodup → List.Disjoint sp.trainSpam sp.testSpam ∧
        ∀ x ∈ spamFiles, x ∈ sp.trainSpam ∨ x ∈ sp.testSpam)) ∧
    (0 ≤ a.trainRatio → a.trainRatio ≤ 1 →
      hamFiles.length < 2 ^ 53 → spamFiles.length < 2 ^ 53 →
      ∃ sp : Split, cmdJunkAnalyze.split R os a hamFiles spamFiles = Except.ok sp) := by
  refine ⟨cmdJunkAnalyze.shuffle_perm R, ?_, fun g => rfl, ?_, ?_⟩
  · intro g l i hi
    have hn := R.Intn_lt g l.length (by omega)
    obtain ⟨l1, h1, -⟩ := swap_of_lt l i (R.Intn g l.length).2 hi hn
    exact ⟨hn, l1, h1, swap_perm l l1 _ _ h1⟩
  · intro sp h
    obtain ⟨g1, hs, e1, p1⟩ := cmdJunkAnalyze.shuffle_perm R (cmdJunkAnalyze.newRand R os a)
      hamFiles
    obtain ⟨g2, ss, e2, p2⟩ := cmdJunkAnalyze.shuffle_perm R g1 spamFiles
    unfold cmdJunkAnalyze.split at h
    rw [e1] at h
    simp only at h
    rw [e2] at h
    simp only at h
    split at h
    next trainHam trainSpam testHam testSpam q1 q2 q3 q4 =>
      have hsp := Except.ok.inj h
      have a1 : sp.trainHam ++ sp.testHam = hs := by
        rw [← hsp]
        exact slice_append hs _ _ _ q1 q3
      have a2 : sp.trainSpam ++ sp.testSpam = ss := by
        rw [← hsp]
        exact slice_append ss _ _ _ q2 q4
      have b1 : (sp.trainHam ++ sp.testHam).Perm hamFiles := by rw [a1]; exact p1
      have b2 : (sp.trainSpam ++ sp.testSpam).Perm spamFiles := by rw [a2]; exact p2
      refine ⟨b1, b2, ?_, ?_⟩
      · intro hnd
        have hnd1 := (b1.nodup_iff).mpr hnd
        refine ⟨(List.nodup_append.mp hnd1).2.2, fun x hx => ?_⟩
        exact List.mem_append.mp ((b1.mem_iff).mpr hx)
      · intro hnd
        have hnd1 := (b2.nodup_iff).mpr hnd
        refine ⟨(List.nodup_append.mp hnd1).2.2, fun x hx => ?_⟩
        exact List.mem_append.mp ((b2.mem_iff).mpr hx)
    next => simp [throw, throwThe, MonadExceptOf.throw] at h
  · intro h0 h1 hh hs
    obtain ⟨-, -, -, -, sp, -, -, -, -, hsp, -⟩ :=
      cmdJunkAnalyze.split_ok R os a hamFiles spamFiles h0 h1 hh hs
    exact ⟨sp, hsp⟩

/-- The shuffle of three files with the draws 2, 0, 1. -/
theorem shuffle_draws :
    cmdJunkAnalyze.shuffle (drawsRand [2, 0, 1]) [2, 0, 1] ["a", "b", "c"] =
      some ([], ["b", "a", "c"]) := by
  decide

/-- C13 with the draws 2, 0, 1, 1, 0 on the listings a, b, c and x, y at the
default train ratio 0.5: the split returns, and its training and test parts
together are the listings. -/
theorem C13_shuffle_permutes_witness :
    cmdJunkAnalyze.shuffle (drawsRand [2, 0, 1, 1, 0]) [2, 0, 1, 1, 0] ["a", "b", "c"] =
      some ([1, 0], ["b", "a", "c"]) ∧
    ∃ sp : Split,
      cmdJunkAnalyze.split (drawsRand [2, 0, 1, 1, 0]) fixtureOS (junkFlags []).1
        ["a", "b", "c"] ["x", "y"] = Except.ok sp ∧
      (sp.trainHam ++ sp.testHam).Perm ["a", "b", "c"] ∧
      (sp.trainSpam ++ sp.testSpam).Perm ["x", "y"] ∧
      List.Disjoint sp.trainHam sp.testHam ∧ List.Disjoint sp.trainSpam sp.testSpam := by
  have h := C13_shuffle_permutes (drawsRand [2, 0, 1, 1, 0]) fixtureOS (junkFlags []).1
    ["a", "b", "c"] ["x", "y"]
  have h0 : 0 ≤ (junkFlags []).1.trainRatio := by rw [junkFlags_trainRatio]; norm_num
  have h1 : (junkFlags []).1.trainRatio ≤ 1 := by rw [junkFlags_trainRatio]; norm_num
  obtain ⟨sp, hsp⟩ := h.2.2.2.2 h0 h1 (by norm_num) (by norm_num)
  obtain ⟨p1, p2, d1, d2⟩ := h.2.2.2.1 sp hsp
  exact ⟨by decide, sp, hsp, p1, p2, (d1 (by decide)).1, (d2 (by decide)).1⟩

/-! ## C15: the result set of `updateMetrics` -/

/-- The loop of `gatherPublicIPs` appends the addresses that are neither
loopback nor private, and the strings of the same addresses. -/
theorem gatherPublicIPs_loop {Domain IP Status ω : Type} (N : Net Domain IP Status ω)
    (ips : List IP) (acc : List IP × List String) (h : acc.2 = acc.1.map N.ipString) :
    ips.foldl (gatherPublicIPs.step N) acc =
      (acc.1 ++ ips.filter (fun ip => !(N.IsLoopback ip || N.IsPrivate ip)),
       (acc.1 ++ ips.filter (fun ip => !(N.IsLoopback ip || N.IsPrivate ip))).map N.ipString) := by
  induction ips generalizing acc with
  | nil =>
    simp only [List.foldl_nil, List.filter_nil, List.append_nil]
    rw [← h]
  | cons ip t ih =>
    simp only [List.foldl_cons]
    cases c : (N.IsLoopback ip || N.IsPrivate ip) with
    | true =>
      have e : gatherPublicIPs.step N acc ip = acc := by
        simp only [gatherPublicIPs.step, c, if_true]
      rw [e, ih acc h, List.filter_cons_of_neg (by simp only [c]; decide)]
    | false =>
      have e : gatherPublicIPs.step N acc ip = (acc.1 ++ [ip], acc.2 ++ [N.ipString ip]) := by
        simp only [gatherPublicIPs.step, c, Bool.false_eq_true, if_false]
      rw [e, ih _ (by simp [h]), List.filter_cons_of_pos (by simp only [c]; decide)]
      simp

/-- What `gatherPublicIPs` returns. -/
theorem gatherPublicIPs_spec {Domain IP Status ω : Type} (N : Net Domain IP Status ω) (w : ω)
    (log : List String) :
    (gatherPublicIPs N w log).2.2.2 = (gatherPublicIPs N w log).2.2.1.map N.ipString ∧
    (∀ w1 e, N.IPs w = (w1, Except.error e) →
      gatherPublicIPs N w log =
        ((w1, log ++ ["listing ips for dnsbl monitor: " ++ e]), [], [], [])) ∧
    (∀ w1 ips, N.IPs w = (w1, Except.ok ips) →
      gatherPublicIPs N w log = ((w1, log), ips,
        ips.filter (fun ip => !(N.IsLoopback ip || N.IsPrivate ip)),
        (ips.filter (fun ip => !(N.IsLoopback ip || N.IsPrivate ip))).map N.ipString)) := by
  have key1 : ∀ w1 ips, N.IPs w = (w1, Except.ok ips) →
      gatherPublicIPs N w log = ((w1, log), ips,
        ips.filter (fun ip => !(N.IsLoopback ip || N.IsPrivate ip)),
        (ips.filter (fun ip => !(N.IsLoopback ip || N.IsPrivate ip))).map N.ipString) := by
    intro w1 ips h
    simp only [gatherPublicIPs, h, gatherPublicIPs_loop N ips ([], []) rfl, List.nil_append]
  have key2 : ∀ w1 e, N.IPs w = (w1, Except.error e) →
      gatherPublicIPs N w log =
        ((w1, log ++ ["listing ips for dnsbl monitor: " ++ e]), [], [], []) := by
    intro w1 e h
    simp only [gatherPublicIPs, h]
  refine ⟨?_, key2, key1⟩
  rcases h : N.IPs w with ⟨w1, e | ips⟩
  · rw [key2 w1 e h]
    rfl
  · rw [key1 w1 ips h]

/-- The first loop of `updateMetrics` over the keys `ks`: the keys of `ks`
that are stale are gone, with their gauges, and nothing else changed. -/
theorem updateMetrics.prune_fold {Domain IP Status ω : Type} [DecidableEq Domain]
    (N : Net Domain IP Status ω) (zones : List Domain) (strs : List String)
    (ks : List (key Domain)) (st : MonitorSt Domain ω) :
    (∀ x, x ∈ (ks.foldl (updateMetrics.prune N zones strs) st).prevResults ↔
      x ∈ st.prevResults ∧ ¬ (x ∈ ks ∧ (x.zone ∉ zones ∨ x.ip ∉ strs))) ∧
    (∀ z i, (∃ k ∈ ks, (k.zone ∉ zones ∨ k.ip ∉ strs) ∧ N.Name k.zone = z ∧ k.ip = i) →
      (ks.foldl (updateMetrics.prune N zones strs) st).metricDNSBL z i = none) ∧
    (∀ z i, ¬ (∃ k ∈ ks, (k.zone ∉ zones ∨ k.ip ∉ strs) ∧ N.Name k.zone = z ∧ k.ip = i) →
      (ks.foldl (updateMetrics.prune N zones strs) st).metricDNSBL z i = st.metricDNSBL z i) ∧
    (st.prevResults.Nodup →
      (ks.foldl (updateMetrics.prune N zones strs) st).prevResults.Nodup) ∧
    (ks.foldl (updateMetrics.prune N zones strs) st).world = st.world ∧
    (ks.foldl (updateMetrics.prune N zones strs) st).log = st.log := by
  induction ks generalizing st with
  | nil => simp
  | cons k t ih =>
    simp only [List.foldl_cons]
    obtain ⟨i1, i2, i3, i4, i5, i6⟩ := ih (updateMetrics.prune N zones strs st k)
    by_cases c : ¬ k.zone ∈ zones ∨ ¬ k.ip ∈ strs
    · have e : updateMetrics.prune N zones strs st k =
          { st with metricDNSBL := st.metricDNSBL.DeleteLabelValues (N.Name k.zone) k.ip,
                    prevResults := st.prevResults.filter (fun x => x ≠ k) } := by
        simp only [updateMetrics.prune, c, if_true]
      rw [e] at i1 i2 i3 i4 i5 i6
      rw [e]
      refine ⟨?_, ?_, ?_, ?_, i5, i6⟩
      · intro x
        rw [i1 x]
        simp only [List.mem_filter, List.mem_cons, decide_eq_true_eq]
        constructor
        · rintro ⟨⟨h1, h2⟩, h3⟩
          refine ⟨h1, ?_⟩
          rintro ⟨h4 | h4, h5⟩
          · exact h2 h4
          · exact h3 ⟨h4, h5⟩
        · rintro ⟨h1, h2⟩
          refine ⟨⟨h1, ?_⟩, ?_⟩
          · intro h3
            subst h3
            exact h2 ⟨Or.inl rfl, c⟩
          · rintro ⟨h4, h5⟩
            exact h2 ⟨Or.inr h4, h5⟩
      · intro z i hex
        by_cases ht : ∃ k1 ∈ t, (k1.zone ∉ zones ∨ k1.ip ∉ strs) ∧ N.Name k1.zone = z ∧ k1.ip = i
        · exact i2 z i ht
        · rw [i3 z i ht]
          obtain ⟨k1, hk1, hs, hz, hi⟩ := hex
          rcases List.mem_cons.mp hk1 with hk | hk
          · subst hk
            simp [GaugeVec.DeleteLabelValues, hz, hi]
          · exact absurd ⟨k1, hk, hs, hz, hi⟩ ht
      · intro z i hex
        have ht : ¬ ∃ k1 ∈ t, (k1.zone ∉ zones ∨ k1.ip ∉ strs) ∧ N.Name k1.zone = z ∧ k1.ip = i := by
          rintro ⟨k1, hk, hs⟩
          exact hex ⟨k1, List.mem_cons_of_mem _ hk, hs⟩
        rw [i3 z i ht]
        have hk : ¬ (z = N.Name k.zone ∧ i = k.ip) := by
          rintro ⟨hz, hi⟩
          exact hex ⟨k, List.mem_cons_self _ _, c, hz.symm, hi.symm⟩
        simp [GaugeVec.DeleteLabelValues, hk]
      · intro hnd
        exact i4 (hnd.filter _)
    · have e : updateMetrics.prune N zones strs st k = st := by
        simp only [updateMetrics.prune, c, if_false]
      rw [e] at i1 i2 i3 i4 i5 i6
      rw [e]
      refine ⟨?_, ?_, ?_, i4, i5, i6⟩
      · intro x
        rw [i1 x]
        simp only [List.mem_cons]
        constructor
        · rintro ⟨h1, h2⟩
          refine ⟨h1, ?_⟩
          rintro ⟨h4 | h4, h5⟩
          · subst h4
            exact c h5
          · exact h2 ⟨h4, h5⟩
        · rintro ⟨h1, h2⟩
          exact ⟨h1, fun ⟨h4, h5⟩ => h2 ⟨Or.inr h4, h5⟩⟩
      · intro z i hex
        apply i2 z i
        obtain ⟨k1, hk1, hs, hz, hi⟩ := hex
        rcases List.mem_cons.mp hk1 with hk | hk
        · subst hk
          exact absurd hs c
        · exact ⟨k1, hk, hs, hz, hi⟩
      · intro z i hex
        apply i3 z i
        rintro ⟨k1, hk, hs⟩
        exact hex ⟨k1, List.mem_cons_of_mem _ hk, hs⟩

/-- One lookup adds its key and sets its gauge to 0 or 1. -/
theorem updateMetrics.lookup_step {Domain IP Status ω : Type} [DecidableEq Domain]
    [DecidableEq Status] (N : Net Domain IP Status ω) (ip : IP) (st : MonitorSt Domain ω)
    (zone : Domain) :
    (∀ x, x ∈ (updateMetrics.lookup N ip st zone).prevResults ↔
      x ∈ st.prevResults ∨ x = ⟨zone, N.ipString ip⟩) ∧
    (∃ v : ℚ, (v = 0 ∨ v = 1) ∧ (updateMetrics.lookup N ip st zone).metricDNSBL =
      st.metricDNSBL.Set (N.Name zone) (N.ipString ip) v) ∧
    (st.prevResults.Nodup → (updateMetrics.lookup N ip st zone).prevResults.Nodup) := by
  rcases h : N.Lookup st.world zone ip with ⟨w1, status, expl, err⟩
  simp only [updateMetrics.lookup, h]
  refine ⟨?_, ?_, ?_⟩
  · intro x
    split_ifs with c
    · constructor
      · exact Or.inl
      · rintro (h1 | h1)
        · exact h1
        · rw [h1]; exact c
    · simp
  · by_cases c : status = N.StatusPass
    · exact ⟨1, Or.inr rfl, by simp [c]⟩
    · exact ⟨0, Or.inl rfl, by simp [c]⟩
  · intro hnd
    split_ifs with c
    · exact hnd
    · exact List.Nodup.append hnd (List.nodup_singleton _) (by simpa using c)

/-- The inner loop of `updateMetrics` for one address over the zones `zs`. -/
theorem updateMetrics.lookup_fold {Domain IP Status ω : Type} [DecidableEq Domain]
    [DecidableEq Status] (N : Net Domain IP Status ω) (ip : IP) (zs : List Domain)
    (st : MonitorSt Domain ω) :
    (∀ x, x ∈ (zs.foldl (updateMetrics.lookup N ip) st).prevResults ↔
      x ∈ st.prevResults ∨ ∃ z ∈ zs, x = ⟨z, N.ipString ip⟩) ∧
    (∀ z i, (∃ zone ∈ zs, N.Name zone = z ∧ N.ipString ip = i) →
      ∃ v : ℚ, (v = 0 ∨ v = 1) ∧
        (zs.foldl (updateMetrics.lookup N ip) st).metricDNSBL z i = some v) ∧
    (∀ z i, ¬ (∃ zone ∈ zs, N.Name zone = z ∧ N.ipString ip = i) →
      (zs.foldl (updateMetrics.lookup N ip) st).metricDNSBL z i = st.metricDNSBL z i) ∧
    (st.prevResults.Nodup → (zs.foldl (updateMetrics.lookup N ip) st).prevResults.Nodup) := by
  induction zs generalizing st with
  | nil => simp
  | cons z0 t ih =>
    simp only [List.foldl_cons]
    obtain ⟨i1, i2, i3, i4⟩ := ih (updateMetrics.lookup N ip st z0)
    obtain ⟨s1, ⟨v0, hv0, s2⟩, s3⟩ := updateMetrics.lookup_step N ip st z0
    refine ⟨?_, ?_, ?_, fun hnd => i4 (s3 hnd)⟩
    · intro x
      rw [i1 x, s1 x]
      simp only [List.mem_cons, exists_eq_or_imp]
      exact or_assoc
    · intro z i hex
      by_cases ht : ∃ zone ∈ t, N.Name zone = z ∧ N.ipString ip = i
      · exact i2 z i ht
      · rw [i3 z i ht, s2]
        obtain ⟨zone, hz, h1, h2⟩ := hex
        rcases List.mem_cons.mp hz with hk | hk
        · subst hk
          exact ⟨v0, hv0, by simp [GaugeVec.Set, h1, h2]⟩
        · exact absurd ⟨zone, hk, h1, h2⟩ ht
    · intro z i hex
      have ht : ¬ ∃ zone ∈ t, N.Name zone = z ∧ N.ipString ip = i := by
        rintro ⟨zone, hk, hs⟩
        exact hex ⟨zone, List.mem_cons_of_mem _ hk, hs⟩
      rw [i3 z i ht, s2]
      have hk : ¬ (z = N.Name z0 ∧ i = N.ipString ip) := by
        rintro ⟨hz, hi⟩
        exact hex ⟨z0, List.mem_cons_self _ _, hz.symm, hi.symm⟩
      simp [GaugeVec.Set, hk]

/-- The second loop of `updateMetrics` over the addresses `ips`. -/
theorem updateMetrics.lookups_fold {Domain IP Status ω : Type} [DecidableEq Domain]
    [DecidableEq Status] (N : Net Domain IP Status ω) (zones : List Domain) (ips : List IP)
    (st : MonitorSt Domain ω) :
    (∀ x, x ∈ (ips.foldl (fun s ip => zones.foldl (updateMetrics.lookup N ip) s)
        st).prevResults ↔
      x ∈ st.prevResults ∨ ∃ ip ∈ ips, ∃ z ∈ zones, x = ⟨z, N.ipString ip⟩) ∧
    (∀ z i, (∃ ip ∈ ips, ∃ zone ∈ zones, N.Name zone = z ∧ N.ipString ip = i) →
      ∃ v : ℚ, (v = 0 ∨ v = 1) ∧
        (ips.foldl (fun s ip => zones.foldl (updateMetrics.lookup N ip) s)
          st).metricDNSBL z i = some v) ∧
    (∀ z i, ¬ (∃ ip ∈ ips, ∃ zone ∈ zones, N.Name zone = z ∧ N.ipString ip = i) →
      (ips.foldl (fun s ip => zones.foldl (updateMetrics.lookup N ip) s)
        st).metricDNSBL z i = st.metricDNSBL z i) ∧
    (st.prevResults.Nodup →
      (ips.foldl (fun s ip => zones.foldl (updateMetrics.lookup N ip) s)
        st).prevResults.Nodup) := by
  induction ips generalizing st with
  | nil => simp
  | cons ip0 t ih =>
    simp only [List.foldl_cons]
    obtain ⟨i1, i2, i3, i4⟩ := ih (zones.foldl (updateMetrics.lookup N ip0) st)
    obtain ⟨s1, s2, s3, s4⟩ := updateMetrics.lookup_fold N ip0 zones st
    refine ⟨?_, ?_, ?_, fun hnd => i4 (s4 hnd)⟩
    · intro x
      rw [i1 x, s1 x]
      simp only [List.mem_cons, exists_eq_or_imp]
      exact or_assoc
    · intro z i hex
      by_cases ht : ∃ ip ∈ t, ∃ zone ∈ zones, N.Name zone = z ∧ N.ipString ip = i
      · exact i2 z i ht
      · rw [i3 z i ht]
        obtain ⟨ip, hip, hrest⟩ := hex
        rcases List.mem_cons.mp hip with hk | hk
        · subst hk
          exact s2 z i hrest
        · exact absurd ⟨ip, hk, hrest⟩ ht
    · intro z i hex
      have ht : ¬ ∃ ip ∈ t, ∃ zone ∈ zones, N.Name zone = z ∧ N.ipString ip = i := by
        rintro ⟨ip, hk, hs⟩
        exact hex ⟨ip, List.mem_cons_of_mem _ hk, hs⟩
      rw [i3 z i ht]
      apply s3 z i
      intro hs
      exact hex ⟨ip0, List.mem_cons_self _ _, hs⟩

/-- The keys after `updateMetrics`, when the strings given are those of the
addresses given. -/
theorem updateMetrics_keys {Domain IP Status ω : Type} [DecidableEq Domain]
    [DecidableEq Status] (N : Net Domain IP Status ω) (zones : List Domain)
    (publicIPs : List IP) (st : MonitorSt Domain ω) (k : key Domain) :
    k ∈ (updateMetrics N zones publicIPs (publicIPs.map N.ipString) st).prevResults ↔
      k.zone ∈ zones ∧ ∃ ip ∈ publicIPs, k.ip = N.ipString ip := by
  obtain ⟨p1, -⟩ := updateMetrics.prune_fold N zones (publicIPs.map N.ipString)
    st.prevResults st
  obtain ⟨q1, -⟩ := updateMetrics.lookups_fold N zones publicIPs
    (st.prevResults.foldl (updateMetrics.prune N zones (publicIPs.map N.ipString)) st)
  unfold updateMetrics
  simp only
  rw [q1 k, p1 k]
  have hstr : k.ip ∈ publicIPs.map N.ipString ↔ ∃ ip ∈ publicIPs, k.ip = N.ipString ip := by
    simp only [List.mem_map]
    constructor
    · rintro ⟨ip, h1, h2⟩
      exact ⟨ip, h1, h2.symm⟩
    · rintro ⟨ip, h1, h2⟩
      exact ⟨ip, h1, h2.symm⟩
  constructor
  · rintro (⟨h1, h2⟩ | ⟨ip, hip, z, hz, e⟩)
    · have hz : k.zone ∈ zones := by
        by_contra c
        exact h2 ⟨h1, Or.inl c⟩
      have hi : k.ip ∈ publicIPs.map N.ipString := by
        by_contra c
        exact h2 ⟨h1, Or.inr c⟩
      exact ⟨hz, hstr.mp hi⟩
    · rw [e]
      exact ⟨hz, ip, hip, rfl⟩
  · rintro ⟨hz, ip, hip, e⟩
    right
    refine ⟨ip, hip, k.zone, hz, ?_⟩
    rw [← e]

/-- C15. Let `updateMetrics` be called with zones, public addresses and, as
`publicIPstrs`, the strings of those addresses. Afterwards a key is in
`prevResults` exactly when its zone is one of the zones and its ip is the
string of one of the addresses; the keys stay without repetition. A key
that was in `prevResults` and is stale (its zone is not among the zones or its
ip is not the string of an address) is gone, its gauge is deleted by the first
loop, and after the call there is no gauge with its labels unless a current
pair of zone and address has the same labels, which cannot be when
`Domain.Name` is injective. Every current pair has its key in `prevResults`
and a gauge with the value 0 or 1. With no addresses `prevResults` is empty
afterwards, and so it is after a round of the monitor in which listing the
addresses failed; in any round `gatherPublicIPs` passes the strings of the
addresses it passes. -/
theorem C15_updateMetrics_result_set {Domain IP Status ω : Type} [DecidableEq Domain]
    [DecidableEq Status] (N : Net Domain IP Status ω) (zones : List Domain)
    (publicIPs : List IP) (st : MonitorSt Domain ω) :
    (∀ k, k ∈ (updateMetrics N zones publicIPs (publicIPs.map N.ipString) st).prevResults ↔
      k.zone ∈ zones ∧ ∃ ip ∈ publicIPs, k.ip = N.ipString ip) ∧
    (st.prevResults.Nodup →
      (updateMetrics N zones publicIPs (publicIPs.map N.ipString) st).prevResults.Nodup) ∧
    (∀ k ∈ st.prevResults, (k.zone ∉ zones ∨ ¬ ∃ ip ∈ publicIPs, k.ip = N.ipString ip) →
      k ∉ (updateMetrics N zones publicIPs (publicIPs.map N.ipString) st).prevResults ∧
      (st.prevResults.foldl (updateMetrics.prune N zones (publicIPs.map N.ipString))
        st).metricDNSBL (N.Name k.zone) k.ip = none ∧
      ((¬ ∃ ip ∈ publicIPs, ∃ zone ∈ zones,
          N.Name zone = N.Name k.zone ∧ N.ipString ip = k.ip) →
        (updateMetrics N zones publicIPs (publicIPs.map N.ipString) st).metricDNSBL
          (N.Name k.zone) k.ip = none) ∧
      (Function.Injective N.Name →
        (updateMetrics N zones publicIPs (publicIPs.map N.ipString) st).metricDNSBL
          (N.Name k.zone) k.ip = none)) ∧
    (∀ zone ∈ zones, ∀ ip ∈ publicIPs,
      (⟨zone, N.ipString ip⟩ : key Domain) ∈
        (updateMetrics N zones publicIPs (publicIPs.map N.ipString) st).prevResults ∧
      ∃ v : ℚ, (v = 0 ∨ v = 1) ∧
        (updateMetrics N zones publicIPs (publicIPs.map N.ipString) st).metricDNSBL
          (N.Name zone) (N.ipString ip) = some v) ∧
    (updateMetrics N zones [] [] st).prevResults = [] ∧
    (∀ w1 e, N.IPs st.world = (w1, Except.error e) →
      (monitorDNSBL.round N zones st).prevResults = []) ∧
    (gatherPublicIPs N st.world st.log).2.2.2 =
      (gatherPublicIPs N st.world st.log).2.2.1.map N.ipString := by
  have hkeys := updateMetrics_keys N zones
  have hempty : ∀ s : MonitorSt Domain ω, (updateMetrics N zones [] [] s).prevResults = [] := by
    intro s
    apply List.eq_nil_iff_forall_not_mem.mpr
    intro k hk
    have := (hkeys [] s k).mp hk
    simp at this
  obtain ⟨-, p2, p3, p4, -, -⟩ := updateMetrics.prune_fold N zones (publicIPs.map N.ipString)
    st.prevResults st
  obtain ⟨-, q2, q3, q4⟩ := updateMetrics.lookups_fold N zones publicIPs
    (st.prevResults.foldl (updateMetrics.prune N zones (publicIPs.map N.ipString)) st)
  have hstale : ∀ k ∈ st.prevResults,
      (k.zone ∉ zones ∨ ¬ ∃ ip ∈ publicIPs, k.ip = N.ipString ip) →
      (st.prevResults.foldl (updateMetrics.prune N zones (publicIPs.map N.ipString))
        st).metricDNSBL (N.Name k.zone) k.ip = none := by
    intro k hk hs
    apply p2
    refine ⟨k, hk, ?_, rfl, rfl⟩
    rcases hs with hs | hs
    · exact Or.inl hs
    · right
      intro hm
      obtain ⟨ip, h1, h2⟩ := List.mem_map.mp hm
      exact hs ⟨ip, h1, h2.symm⟩
  have hafter : ∀ k ∈ st.prevResults,
      (k.zone ∉ zones ∨ ¬ ∃ ip ∈ publicIPs, k.ip = N.ipString ip) →
      (¬ ∃ ip ∈ publicIPs, ∃ zone ∈ zones,
          N.Name zone = N.Name k.zone ∧ N.ipString ip = k.ip) →
      (updateMetrics N zones publicIPs (publicIPs.map N.ipString) st).metricDNSBL
        (N.Name k.zone) k.ip = none := by
    intro k hk hs hno
    have := q3 (N.Name k.zone) k.ip hno
    unfold updateMetrics
    simp only
    rw [this]
    exact hstale k hk hs
  refine ⟨hkeys publicIPs st, ?_, ?_, ?_, hempty st, ?_, (gatherPublicIPs_spec N _ _).1⟩
  · intro hnd
    exact q4 (p4 hnd)
  · intro k hk hs
    refine ⟨?_, hstale k hk hs, hafter k hk hs, ?_⟩
    · intro hin
      obtain ⟨h1, h2⟩ := (hkeys publicIPs st k).mp hin
      rcases hs with hs | hs
      · exact hs h1
      · exact hs h2
    · intro hinj
      apply hafter k hk hs
      rintro ⟨ip, hip, zone, hz, e1, e2⟩
      have := hinj e1
      subst this
      rcases hs with hs | hs
      · exact hs hz
      · exact hs ⟨ip, hip, e2.symm⟩
  · intro zone hz ip hip
    refine ⟨(hkeys publicIPs st _).mpr ⟨hz, ip, hip, rfl⟩, ?_⟩
    exact q2 _ _ ⟨ip, hip, zone, hz, rfl, rfl⟩
  · intro w1 e h
    simp only [monitorDNSBL.round, (gatherPublicIPs_spec N st.world st.log).2.1 w1 e h]
    exact hempty _

/-- A round of the monitor from `staleSt` with the zone `bl.example` on
`tableNet`: the stale key and its gauge are gone, the pair of the zone and the
public address is there with the gauge 0; when listing the addresses fails no
key is left. -/
theorem monitor_round :
    (monitorDNSBL.round (tableNet true) ["bl.example"] staleSt).prevResults =
      [⟨"bl.example", "192.0.2.1"⟩] ∧
    (monitorDNSBL.round (tableNet true) ["bl.example"] staleSt).metricDNSBL
      "bl.example" "192.0.2.1" = some 0 ∧
    (monitorDNSBL.round (tableNet true) ["bl.example"] staleSt).metricDNSBL
      "old.example" "192.0.2.1" = none ∧
    (monitorDNSBL.round (tableNet false) ["bl.example"] staleSt).prevResults = [] := by
  simp [monitorDNSBL.round, gatherPublicIPs, gatherPublicIPs.step, tableNet, staleSt,
    updateMetrics, updateMetrics.prune, updateMetrics.lookup, GaugeVec.Set,
    GaugeVec.DeleteLabelValues]

/-- C15 at `staleSt` with the zone `bl.example` and the public address
`192.0.2.1` of `tableNet`. -/
theorem C15_updateMetrics_result_set_witness :
    (updateMetrics (tableNet true) ["bl.example"] ["192.0.2.1"]
      (["192.0.2.1"].map (tableNet true).ipString) staleSt).prevResults.Nodup ∧
    (⟨"old.example", "192.0.2.1"⟩ : key String) ∉
      (updateMetrics (tableNet true) ["bl.example"] ["192.0.2.1"]
        (["192.0.2.1"].map (tableNet true).ipString) staleSt).prevResults ∧
    (updateMetrics (tableNet true) ["bl.example"] ["192.0.2.1"]
      (["192.0.2.1"].map (tableNet true).ipString) staleSt).metricDNSBL
        "old.example" "192.0.2.1" = none ∧
    (⟨"bl.example", "192.0.2.1"⟩ : key String) ∈
      (updateMetrics (tableNet true) ["bl.example"] ["192.0.2.1"]
        (["192.0.2.1"].map (tableNet true).ipString) staleSt).prevResults := by
  have h := C15_updateMetrics_result_set (tableNet true) ["bl.example"] ["192.0.2.1"] staleSt
  have hs := h.2.2.1 ⟨"old.example", "192.0.2.1"⟩ (by simp [staleSt]) (Or.inl (by simp))
  exact ⟨h.2.1 (by simp [staleSt]), hs.1, hs.2.2.2 (fun x y e => e),
    (h.2.2.2.1 "bl.example" (by simp) "192.0.2.1" (by simp)).1⟩

end Junk
